import Mathlib

/-!
# Selector parser of `ext/gui_selectors/selector.c`

A shallow embedding of the C selector parser and theorems about it.

Conventions of the embedding

* Input bytes are natural numbers (`0 .. 255`); the parser only ever compares a
  byte with `0` and with ASCII members of its character tables, so the
  signedness of C `char` does not matter.
* `qparser_t` carries `chars`, `length`, `index` and the stretchy `buffer`
  (a byte list; `NULL` and the empty buffer are both `[]`).
* Every C loop is a recursion on a counter that starts at the `fuel` argument of
  the enclosing function; `Result.no_fuel` is the outcome of a loop that did not
  finish within `fuel` iterations.
* `rb_raise` is the outcome `Result.raised e`.
-/

namespace Sel

/-! ## Types and values -/

/-- The struct `qparser_t`. -/
structure qparser_t where
  chars : List Nat
  length : Nat
  index : Nat
  buffer : List Nat
deriving DecidableEq, Repr

/-- The struct `qchars_t`: a character table and the number of its bytes that
`q_strnchr` looks at. -/
structure qchars_t where
  length : Nat
  chars : List Nat
deriving DecidableEq, Repr

/-- Table `{ 4, " \t\n\r" }`. -/
def Q_WHITESPACE : qchars_t := ⟨4, [32, 9, 10, 13]⟩
/-- Table `{ 1, "*" }`. -/
def Q_ANY_TAG_MARK : qchars_t := ⟨1, [42]⟩
/-- Table `{ 1, "-" }`. -/
def Q_CONTAINS_MARK : qchars_t := ⟨1, [45]⟩
/-- Table `{ 1, "." }`. -/
def Q_DECIMAL_MARK : qchars_t := ⟨1, [46]⟩
/-- Table `{ 1, "=" }`. -/
def Q_EQUAL_MARK : qchars_t := ⟨1, [61]⟩
/-- Table `{ 1, "eE" }`: two characters, declared length one. -/
def Q_EXPONENT_MARK : qchars_t := ⟨1, [101, 69]⟩
/-- Table `{ 2, "+-" }`. -/
def Q_EXP_PLUSMINUS_MARK : qchars_t := ⟨2, [43, 45]⟩
/-- Table `{ 1, ">" }`. -/
def Q_GREATER_MARK : qchars_t := ⟨1, [62]⟩
/-- Table `{ 1, "<" }`. -/
def Q_LESSER_MARK : qchars_t := ⟨1, [60]⟩
/-- Table `{ 1, "!" }`. -/
def Q_NEGATION_MARK : qchars_t := ⟨1, [33]⟩
/-- Table `{ 1, "(" }`. -/
def Q_START_MULTI_TAG : qchars_t := ⟨1, [40]⟩
/-- Table `{ 1, ")" }`. -/
def Q_END_MULTI_TAG : qchars_t := ⟨1, [41]⟩
/-- Table `{ 1, "|" }`. -/
def Q_MULTI_TAG_SEP : qchars_t := ⟨1, [124]⟩
/-- Table `{ 1, "[" }`. -/
def Q_START_ATTR : qchars_t := ⟨1, [91]⟩
/-- Table `{ 1, "]" }`. -/
def Q_END_ATTR : qchars_t := ⟨1, [93]⟩
/-- Table `{ 1, "#" }`. -/
def Q_TAG_MARKER : qchars_t := ⟨1, [35]⟩
/-- Table `{ 1, "\"" }`. -/
def Q_QUOTE : qchars_t := ⟨1, [34]⟩
/-- Table `{ 1, "\\" }`. -/
def Q_ESCAPE : qchars_t := ⟨1, [92]⟩
/-- Table `{ 1, "\"\\" }`: two characters, declared length one. -/
def Q_QUOTE_OR_ESCAPE : qchars_t := ⟨1, [34, 92]⟩
/-- Table `{ 1, ">" }`. -/
def Q_DIRECT_FOLLOW : qchars_t := ⟨1, [62]⟩
/-- Table `{ 10, "0123456789" }`. -/
def Q_DIGITS : qchars_t := ⟨10, [48, 49, 50, 51, 52, 53, 54, 55, 56, 57]⟩
/-- Table `{ 17, " #\"|>([*!=<-])\n\t\r" }`. -/
def Q_NAME_BOUNDS : qchars_t :=
  ⟨17, [32, 35, 34, 124, 62, 40, 91, 42, 33, 61, 60, 45, 93, 41, 10, 9, 13]⟩

/-- Flag `Q_DO_NOT_ADD_TO_BUFFER = Q_NO`. -/
def Q_DO_NOT_ADD_TO_BUFFER : Bool := false
/-- Flag `Q_ADD_TO_BUFFER = Q_YES`. -/
def Q_ADD_TO_BUFFER : Bool := true
/-- Flag `Q_AS_STRING = Q_NO`. -/
def Q_AS_STRING : Bool := false
/-- Flag `Q_AS_SYMBOL = Q_YES`. -/
def Q_AS_SYMBOL : Bool := true

/-- The nine operator IDs interned by `Init_selector_ext`. -/
inductive Operator where
  | equal
  | not_equal
  | greater
  | greater_equal
  | lesser
  | lesser_equal
  | contains
  | trueish
  | falseish
deriving DecidableEq, Repr

/-- Scalar Ruby values the parser builds. `Float text` is
`DBL2NUM(strtod(text, NULL))`: the conversion to a double is not modelled, the
literal handed to `strtod` is kept. -/
inductive VALUE where
  | Qnil
  | Symbol (name : List Nat)
  | String (bytes : List Nat)
  | Integer (v : Int)
  | Float (text : List Nat)
deriving DecidableEq, Repr

/-- The C macro `RTEST` on the values above (none of them is `false`). -/
def RTEST (v : VALUE) : Bool := v != VALUE.Qnil

/-- The C macro `NIL_P`. -/
def NIL_P (v : VALUE) : Bool := v == VALUE.Qnil

/-- The check objects `GUI::ViewClassCheck`, `GUI::ViewTagCheck` and
`GUI::ViewAttrCheck`, by the arguments they were built from. -/
inductive Check where
  | ClassCheck (names : List VALUE)
  | TagCheck (name : VALUE)
  | AttrCheck (key : VALUE) (operator : Operator) (operand : VALUE)
deriving DecidableEq, Repr

/-- Modelled from the spec: the constructor of `GUI::ViewClassCheck` is Ruby code
of `gui/selector`, absent from the C source. The spec gives
`ClassCheck{names}` with an ordered list of at least one identifier and has
`"Button"` yield `ClassCheck{["Button"]}`: a single symbol argument (from
`q_read_single_class_tag`) is the one-element list. -/
def view_class_check_of_name (name : VALUE) : Check := Check.ClassCheck [name]

/-- Modelled from the spec: the same constructor called with the array `names`
(from `q_read_multi_class_tag`) keeps the array as it is. -/
def view_class_check_of_names (names : List VALUE) : Check := Check.ClassCheck names

/-- Modelled from the spec: `GUI::Selector` is Ruby code of `gui/selector`, absent
from the C source. A selector has its `attributes` array (the checks), the
`direct` flag and the successor `succ`. -/
inductive Selector where
  | mk (attributes : List Check) (direct : Bool) (succ : Option Selector)
deriving Repr

/-- The errors raised through `rb_raise`. -/
inductive Err where
  | UnterminatedString
  | InvalidNumberFormatFraction
  | InvalidNumberFormatExponent
  | InvalidOperatorExpectedEqual
  | InvalidOperator
  | InvalidOperatorReturned
  | InvalidAttributeOperand
  | UnclosedAttribute
  | EmptyMultiTag
  | UnclosedMultiTag
  | DanglingDirectReference
  | IncompleteParse
  | UnparsableSelector
deriving DecidableEq, Repr

/-- The message each `rb_raise` call carries. -/
def Err.message : Err → String
  | .UnterminatedString => "No closing quote for string"
  | .InvalidNumberFormatFraction => "Invalid number format: expected fractional value"
  | .InvalidNumberFormatExponent => "Invalid number format: expected exponent"
  | .InvalidOperatorExpectedEqual => "Invalid operator -- expected ="
  | .InvalidOperator => "Invalid operator -- expected one of =, !=, <, <=, >, >=, <-"
  | .InvalidOperatorReturned => "Invalid operator returned"
  | .InvalidAttributeOperand => "Invalid operand to attribute check"
  | .UnclosedAttribute => "No closing ] for attribute"
  | .EmptyMultiTag => "Cannot have an empty multi-tag selector"
  | .UnclosedMultiTag => "Unclosed multi-tag selector"
  | .DanglingDirectReference => "No selector following direct reference (>)"
  | .IncompleteParse => "Unable to completely parse selector string"
  | .UnparsableSelector => "Unable to parse selector string"

/-- Outcome of a parser function: a value with the parser state after it, a
raised error, or a loop that ran out of fuel. -/
inductive Result (α : Type) where
  | ok (v : α) (p : qparser_t)
  | raised (e : Err)
  | no_fuel
deriving Repr

/-- Sequencing: run `f` on the value and state of a finished step. -/
def Result.andThen {α β : Type} (r : Result α) (f : α → qparser_t → Result β) : Result β :=
  match r with
  | Result.ok v p => f v p
  | Result.raised e => Result.raised e
  | Result.no_fuel => Result.no_fuel

/-! ## Selector methods -/

/-- Reader `attributes` of a selector. -/
def q_selector_attributes : Selector → List Check
  | .mk a _ _ => a

/-- `q_selector_is_direct`. -/
def q_selector_is_direct : Selector → Bool
  | .mk _ d _ => d

/-- `q_selector_succ`. -/
def q_selector_succ : Selector → Option Selector
  | .mk _ _ s => s

/-- The last selector of a chain: the one the variable `succ` of
`q_rb_parser_run` points to. -/
def Selector.last : Selector → Selector
  | .mk a d none => .mk a d none
  | .mk _ _ (some s) => s.last

/-- `q_selector_set_succ(succ, next_succ)` where `succ` is the last selector of
the chain that starts at `selector`: the chain with `next_succ` linked at its
end. -/
def q_selector_set_succ : Selector → Selector → Selector
  | .mk a d none, next => .mk a d (some next)
  | .mk a d (some s), next => .mk a d (some (q_selector_set_succ s next))

/-- The selectors of a chain in order, following `succ`. -/
def Selector.toList : Selector → List Selector
  | .mk a d none => [.mk a d none]
  | .mk a d (some s) => .mk a d (some s) :: s.toList

/-! ## Cursor and lexical primitives -/

/-- `q_strnchr`: is `chr` among the first `length` bytes of `str`? A zero `chr`
is never found, and a table of declared length one is compared by its first
byte only. The C function returns a pointer; only whether it is `NULL` is
used. -/
def q_strnchr (str : List Nat) (length : Nat) (chr : Nat) : Bool :=
  if chr ≠ 0 then
    if length > 1 then
      decide (chr ∈ str.take length)
    else if length = 1 then
      decide (str.head? = some chr)
    else false
  else false

/-- The function `q_init_parser` of the source. -/
def q_parser_init (chars : List Nat) (length : Nat) : qparser_t :=
  { chars := chars, length := length, index := 0, buffer := [] }

/-- The function `q_destroy_parser` of the source. -/
def q_parser_destroy (_ : qparser_t) : qparser_t :=
  { chars := [], length := 0, index := 0, buffer := [] }

/-- `q_eos`. -/
def q_eos (parser : qparser_t) : Bool := decide (parser.index ≥ parser.length)

/-- `q_peek`. -/
def q_peek (parser : qparser_t) : Nat :=
  if parser.index < parser.length then parser.chars.getD parser.index 0 else 0

/-- `q_read`: a zero byte is returned without moving the cursor. -/
def q_read (parser : qparser_t) (add_to_buffer : Bool) : Nat × qparser_t :=
  let ch := q_peek parser
  if ch ≠ 0 then
    let parser := { parser with index := parser.index + 1 }
    if add_to_buffer then
      (ch, { parser with buffer := parser.buffer ++ [ch] })
    else (ch, parser)
  else (ch, parser)

/-- `q_clear_buf` (through `q_set_buf_size(parser, 0)`). -/
def q_clear_buf (parser : qparser_t) : qparser_t := { parser with buffer := [] }

/-- `q_accept`. -/
def q_accept (parser : qparser_t) (chars : qchars_t) (add_to_buffer : Bool) : Nat × qparser_t :=
  if q_strnchr chars.chars chars.length (q_peek parser) then
    q_read parser add_to_buffer
  else (0, parser)

/-- The `while` loop of `q_accept_run`, `accepted` being the count so far. -/
def q_accept_run_loop (chars : qchars_t) (add_to_buffer : Bool) :
    Nat → qparser_t → Nat → Result Nat
  | 0, _, _ => Result.no_fuel
  | n + 1, parser, accepted =>
    let r := q_accept parser chars add_to_buffer
    if r.1 ≠ 0 then q_accept_run_loop chars add_to_buffer n r.2 (accepted + 1)
    else Result.ok accepted r.2

/-- `q_accept_run`. -/
def q_accept_run (fuel : Nat) (parser : qparser_t) (chars : qchars_t) (add_to_buffer : Bool) :
    Result Nat :=
  q_accept_run_loop chars add_to_buffer fuel parser 0

/-- The `while` loop of `q_accept_until`. -/
def q_accept_until_loop (chars : qchars_t) (add_to_buffer : Bool) :
    Nat → qparser_t → Nat → Result Nat
  | 0, _, _ => Result.no_fuel
  | n + 1, parser, accepted =>
    if !q_eos parser && !q_strnchr chars.chars chars.length (q_peek parser) then
      q_accept_until_loop chars add_to_buffer n (q_read parser add_to_buffer).2 (accepted + 1)
    else Result.ok accepted parser

/-- `q_accept_until`. -/
def q_accept_until (fuel : Nat) (parser : qparser_t) (chars : qchars_t) (add_to_buffer : Bool) :
    Result Nat :=
  q_accept_until_loop chars add_to_buffer fuel parser 0

/-- The `for (;;)` loop of `q_skip_whitespace`. -/
def q_skip_whitespace_loop : Nat → qparser_t → Result Unit
  | 0, _ => Result.no_fuel
  | n + 1, parser =>
    let c := q_peek parser
    if c = 32 ∨ c = 9 ∨ c = 13 ∨ c = 10 then
      q_skip_whitespace_loop n (q_read parser Q_DO_NOT_ADD_TO_BUFFER).2
    else Result.ok () parser

/-- `q_skip_whitespace`. -/
def q_skip_whitespace (fuel : Nat) (parser : qparser_t) : Result Unit :=
  q_skip_whitespace_loop fuel parser

/-! ## Literal readers -/

/-- `q_read_name`: the bytes up to the next name boundary, as a symbol or as a
string; `Qnil` when there are none. -/
def q_read_name (fuel : Nat) (parser : qparser_t) (as_symbol : Bool) : Result VALUE :=
  (q_accept_until fuel parser Q_NAME_BOUNDS Q_ADD_TO_BUFFER).andThen fun accepted parser =>
    if accepted ≠ 0 then
      let name := if as_symbol then VALUE.Symbol parser.buffer else VALUE.String parser.buffer
      Result.ok name (q_clear_buf parser)
    else Result.ok VALUE.Qnil parser

/-- The `for (;;)` loop of `q_read_string`. -/
def q_read_string_loop (fuel : Nat) : Nat → qparser_t → Result Unit
  | 0, _ => Result.no_fuel
  | n + 1, parser =>
    (q_accept_until fuel parser Q_QUOTE_OR_ESCAPE Q_ADD_TO_BUFFER).andThen fun _ parser =>
      let esc := q_accept parser Q_ESCAPE Q_DO_NOT_ADD_TO_BUFFER
      if esc.1 ≠ 0 then
        q_read_string_loop fuel n (q_read esc.2 Q_ADD_TO_BUFFER).2
      else Result.ok () esc.2

/-- `q_read_string`. -/
def q_read_string (fuel : Nat) (parser : qparser_t) : Result VALUE :=
  let open_quote := q_accept parser Q_QUOTE Q_DO_NOT_ADD_TO_BUFFER
  if open_quote.1 ≠ 0 then
    (q_read_string_loop fuel fuel open_quote.2).andThen fun _ parser =>
      let close_quote := q_accept parser Q_QUOTE Q_DO_NOT_ADD_TO_BUFFER
      if close_quote.1 ≠ 0 then
        Result.ok (VALUE.String close_quote.2.buffer) (q_clear_buf close_quote.2)
      else Result.raised Err.UnterminatedString
  else Result.ok VALUE.Qnil open_quote.2

/-- The C library's `isspace` in the "C" locale. -/
def c_isspace (c : Nat) : Bool := c = 32 || (9 ≤ c && c ≤ 13)

/-- Decimal value of the leading digit run of a C string, `acc` being the value
read so far. -/
def c_digit_run : List Nat → Nat → Nat
  | [], acc => acc
  | c :: t, acc => if 48 ≤ c ∧ c ≤ 57 then c_digit_run t (acc * 10 + (c - 48)) else acc

/-- The C library's `strtoll(nptr, NULL, 10)` on a NUL-terminated string:
optional white space, an optional sign, then the longest run of digits; a value
out of range is clamped to `LLONG_MIN` or `LLONG_MAX`. (Without
`HAVE_LONG_LONG` the source calls `strtol`, the same function on `long`.) -/
def strtoll (nptr : List Nat) : Int :=
  let s := nptr.dropWhile c_isspace
  match s with
  | 45 :: t => max (-(c_digit_run t 0 : Int)) (-(2 : Int) ^ 63)
  | 43 :: t => min (c_digit_run t 0 : Int) ((2 : Int) ^ 63 - 1)
  | _ => min (c_digit_run s 0 : Int) ((2 : Int) ^ 63 - 1)

/-- The text of a C string: the bytes before its terminating NUL. -/
def c_str (buffer : List Nat) : List Nat := buffer.takeWhile (fun c => c != 0)

/-- `q_read_number`. -/
def q_read_number (fuel : Nat) (parser : qparser_t) : Result VALUE :=
  (q_accept_run fuel parser Q_DIGITS Q_ADD_TO_BUFFER).andThen fun digits parser =>
    if digits ≠ 0 then
      let is_float := false
      let mark := q_accept parser Q_DECIMAL_MARK Q_ADD_TO_BUFFER
      (if mark.1 ≠ 0 then
        (q_accept_run fuel mark.2 Q_DIGITS Q_ADD_TO_BUFFER).andThen fun fraction parser =>
          if fraction = 0 then Result.raised Err.InvalidNumberFormatFraction
          else Result.ok true parser
      else Result.ok is_float mark.2).andThen fun is_float parser =>
      let exp := q_accept parser Q_EXPONENT_MARK Q_ADD_TO_BUFFER
      (if exp.1 ≠ 0 then
        let plusminus := q_accept exp.2 Q_EXP_PLUSMINUS_MARK Q_ADD_TO_BUFFER
        (q_accept_run fuel plusminus.2 Q_DIGITS Q_ADD_TO_BUFFER).andThen fun exponent parser =>
          if exponent = 0 then Result.raised Err.InvalidNumberFormatExponent
          else Result.ok (is_float || plusminus.1 = 45) parser
      else Result.ok is_float exp.2).andThen fun is_float parser =>
      let parser := { parser with buffer := parser.buffer ++ [0] }
      let result :=
        if is_float then VALUE.Float (c_str parser.buffer)
        else VALUE.Integer (strtoll parser.buffer)
      Result.ok result (q_clear_buf parser)
    else Result.ok VALUE.Qnil parser

/-- `q_read_operator`; the local `result` is `none` for the ID `0`. -/
def q_read_operator (parser : qparser_t) : Result (Option Operator) :=
  let neg := q_accept parser Q_NEGATION_MARK Q_DO_NOT_ADD_TO_BUFFER
  (if neg.1 ≠ 0 then
    let eq := q_accept neg.2 Q_EQUAL_MARK Q_DO_NOT_ADD_TO_BUFFER
    if eq.1 = 0 then Result.raised Err.InvalidOperatorExpectedEqual
    else Result.ok (some Operator.not_equal) eq.2
  else
    let eq := q_accept neg.2 Q_EQUAL_MARK Q_DO_NOT_ADD_TO_BUFFER
    if eq.1 ≠ 0 then Result.ok (some Operator.equal) eq.2
    else
      let gt := q_accept eq.2 Q_GREATER_MARK Q_DO_NOT_ADD_TO_BUFFER
      if gt.1 ≠ 0 then
        let eq2 := q_accept gt.2 Q_EQUAL_MARK Q_DO_NOT_ADD_TO_BUFFER
        if eq2.1 ≠ 0 then Result.ok (some Operator.greater_equal) eq2.2
        else Result.ok (some Operator.greater) eq2.2
      else
        let lt := q_accept gt.2 Q_LESSER_MARK Q_DO_NOT_ADD_TO_BUFFER
        if lt.1 ≠ 0 then
          let eq2 := q_accept lt.2 Q_EQUAL_MARK Q_DO_NOT_ADD_TO_BUFFER
          if eq2.1 ≠ 0 then Result.ok (some Operator.lesser_equal) eq2.2
          else
            let minus := q_accept eq2.2 Q_CONTAINS_MARK Q_DO_NOT_ADD_TO_BUFFER
            if minus.1 ≠ 0 then Result.ok (some Operator.contains) minus.2
            else Result.ok (some Operator.lesser) minus.2
        else Result.ok none lt.2).andThen fun result parser =>
  if result = none then Result.raised Err.InvalidOperator
  else Result.ok result parser

/-! ## Grammar productions -/

/-- The remapping of the operator in `q_read_attribute` when the attribute is
inverted by a leading `!`. -/
def q_invert_operator (operator : Operator) : Operator :=
  if operator = Operator.trueish then Operator.falseish
  else if operator = Operator.falseish then Operator.trueish
  else if operator = Operator.equal then Operator.not_equal
  else if operator = Operator.not_equal then Operator.equal
  else if operator = Operator.lesser then Operator.greater_equal
  else if operator = Operator.greater then Operator.lesser_equal
  else if operator = Operator.lesser_equal then Operator.greater
  else if operator = Operator.greater_equal then Operator.lesser
  else operator

/-- The part of `q_read_attribute` between the key and the label
`skip_operator_operand`: the operator and the operand. -/
def q_read_attribute_operation (fuel : Nat) (parser : qparser_t) :
    Result (Operator × VALUE) :=
  let close := q_accept parser Q_END_ATTR Q_DO_NOT_ADD_TO_BUFFER
  if close.1 ≠ 0 then Result.ok (Operator.trueish, VALUE.Qnil) close.2
  else
    (q_read_operator close.2).andThen fun operator parser =>
    match operator with
    | none => Result.raised Err.InvalidOperatorReturned
    | some operator =>
      (q_skip_whitespace fuel parser).andThen fun _ parser =>
      (q_read_string fuel parser).andThen fun operand parser =>
      (if !RTEST operand then
        (q_read_number fuel parser).andThen fun operand parser =>
          if !RTEST operand then q_read_name fuel parser Q_AS_STRING
          else Result.ok operand parser
      else Result.ok operand parser).andThen fun operand parser =>
      if NIL_P operand then Result.raised Err.InvalidAttributeOperand
      else
        (q_skip_whitespace fuel parser).andThen fun _ parser =>
        let close := q_accept parser Q_END_ATTR Q_DO_NOT_ADD_TO_BUFFER
        if close.1 ≠ 0 then Result.ok (operator, operand) close.2
        else Result.raised Err.UnclosedAttribute

/-- `q_read_attribute`; `none` is `Qnil`. -/
def q_read_attribute (fuel : Nat) (parser : qparser_t) : Result (Option Check) :=
  let start := q_accept parser Q_START_ATTR Q_DO_NOT_ADD_TO_BUFFER
  if start.1 ≠ 0 then
    (q_skip_whitespace fuel start.2).andThen fun _ parser =>
    let inverted := q_accept parser Q_NEGATION_MARK Q_DO_NOT_ADD_TO_BUFFER
    (if inverted.1 ≠ 0 then q_skip_whitespace fuel inverted.2
      else Result.ok () inverted.2).andThen fun _ parser =>
    (q_read_name fuel parser Q_AS_STRING).andThen fun key parser =>
    (q_skip_whitespace fuel parser).andThen fun _ parser =>
    (q_read_attribute_operation fuel parser).andThen fun operation parser =>
    let operator := if inverted.1 ≠ 0 then q_invert_operator operation.1 else operation.1
    Result.ok (some (Check.AttrCheck key operator operation.2)) parser
  else Result.ok none start.2

/-- The `while` loop of `q_read_multi_class_tag`. -/
def q_read_multi_class_tag_loop (fuel : Nat) : Nat → qparser_t → List VALUE → Result (List VALUE)
  | 0, _, _ => Result.no_fuel
  | n + 1, parser, names =>
    (q_read_name fuel parser Q_AS_SYMBOL).andThen fun name parser =>
      if RTEST name then
        let names := names ++ [name]
        (q_skip_whitespace fuel parser).andThen fun _ parser =>
          let sep := q_accept parser Q_MULTI_TAG_SEP Q_DO_NOT_ADD_TO_BUFFER
          if sep.1 = 0 then Result.ok names sep.2
          else q_read_multi_class_tag_loop fuel n sep.2 names
      else Result.ok names parser

/-- `q_read_multi_class_tag`; `none` is `Qnil`. -/
def q_read_multi_class_tag (fuel : Nat) (parser : qparser_t) : Result (Option Check) :=
  let start := q_accept parser Q_START_MULTI_TAG Q_DO_NOT_ADD_TO_BUFFER
  if start.1 ≠ 0 then
    (q_skip_whitespace fuel start.2).andThen fun _ parser =>
    (q_read_multi_class_tag_loop fuel fuel parser []).andThen fun names parser =>
    (q_skip_whitespace fuel parser).andThen fun _ parser =>
    let close := q_accept parser Q_END_MULTI_TAG Q_DO_NOT_ADD_TO_BUFFER
    if close.1 ≠ 0 then
      if names.length = 0 then Result.raised Err.EmptyMultiTag
      else Result.ok (some (view_class_check_of_names names)) close.2
    else Result.raised Err.UnclosedMultiTag
  else Result.ok none start.2

/-- `q_read_single_class_tag`. -/
def q_read_single_class_tag (fuel : Nat) (parser : qparser_t) : Result (Option Check) :=
  (q_read_name fuel parser Q_AS_SYMBOL).andThen fun name parser =>
    if RTEST name then Result.ok (some (view_class_check_of_name name)) parser
    else Result.ok none parser

/-- `q_read_id_tag`. -/
def q_read_id_tag (fuel : Nat) (parser : qparser_t) : Result (Option Check) :=
  let marker := q_accept parser Q_TAG_MARKER Q_DO_NOT_ADD_TO_BUFFER
  if marker.1 ≠ 0 then
    (q_read_name fuel marker.2 Q_AS_SYMBOL).andThen fun name parser =>
      if RTEST name then Result.ok (some (Check.TagCheck name)) parser
      else Result.ok none parser
  else Result.ok none marker.2

/-- The `while` loop of `q_read_selector` that collects the attribute checks. -/
def q_read_selector_loop (fuel : Nat) : Nat → qparser_t → List Check → Result (List Check)
  | 0, _, _ => Result.no_fuel
  | n + 1, parser, attributes_ary =>
    (q_read_attribute fuel parser).andThen fun type_check parser =>
      match type_check with
      | some check => q_read_selector_loop fuel n parser (attributes_ary ++ [check])
      | none => Result.ok attributes_ary parser

/-- `q_read_selector`; `none` is `Qnil`. The selector returned has no successor
yet. -/
def q_read_selector (fuel : Nat) (parser : qparser_t) : Result (Option Selector) :=
  (q_skip_whitespace fuel parser).andThen fun _ parser =>
  let glob := q_accept parser Q_ANY_TAG_MARK Q_DO_NOT_ADD_TO_BUFFER
  let globbed : Bool := glob.1 ≠ 0 || q_peek glob.2 = 35 || q_peek glob.2 = 91
  (if !globbed then
    (q_read_multi_class_tag fuel glob.2).andThen fun type_check parser =>
      if type_check.isNone then q_read_single_class_tag fuel parser
      else Result.ok type_check parser
  else Result.ok none glob.2).andThen fun type_check parser =>
  if !globbed && type_check.isNone then Result.ok none parser
  else
    let attributes_ary : List Check := []
    let attributes_ary := attributes_ary ++ type_check.toList
    (q_read_id_tag fuel parser).andThen fun id_check parser =>
    let attributes_ary := attributes_ary ++ id_check.toList
    (q_read_selector_loop fuel fuel parser attributes_ary).andThen fun attributes_ary parser =>
    (q_skip_whitespace fuel parser).andThen fun _ parser =>
    let direct := q_accept parser Q_DIRECT_FOLLOW Q_DO_NOT_ADD_TO_BUFFER
    Result.ok (some (Selector.mk attributes_ary (direct.1 ≠ 0) none)) direct.2

/-! ## Entry point -/

/-- The `while` loop of `q_rb_run_parser`; `selector` is the head of the chain
built so far and the C variable `succ` is its last selector. -/
def q_rb_parser_run_loop (fuel : Nat) : Nat → qparser_t → Selector → Result Selector
  | 0, _, _ => Result.no_fuel
  | n + 1, parser, selector =>
    if !q_eos parser then
      (q_read_selector fuel parser).andThen fun next_succ parser =>
        match next_succ with
        | some next_succ =>
          (q_skip_whitespace fuel parser).andThen fun _ parser =>
            q_rb_parser_run_loop fuel n parser (q_selector_set_succ selector next_succ)
        | none => Result.ok selector parser
    else Result.ok selector parser

/-- The function `q_rb_run_parser` of the source: the head of the parsed chain, with the parser state at the
`return`. -/
def q_rb_parser_run (fuel : Nat) (parser : qparser_t) : Result Selector :=
  (q_read_selector fuel parser).andThen fun selector parser =>
  match selector with
  | none => Result.raised Err.UnparsableSelector
  | some selector =>
    (q_skip_whitespace fuel parser).andThen fun _ parser =>
    (q_rb_parser_run_loop fuel fuel parser selector).andThen fun selector parser =>
    let succ := selector.last
    if q_eos parser && q_selector_is_direct succ && (q_selector_succ succ).isNone then
      Result.raised Err.DanglingDirectReference
    else if !q_eos parser then Result.raised Err.IncompleteParse
    else Result.ok selector parser

/-- `q_rb_parse_selector`, the method `GUI::SelectorParser.parse`: runs the
parser on the bytes of the string and destroys the parser afterwards. -/
def q_rb_parse_selector (fuel : Nat) (selector_rb_str : List Nat) : Result Selector :=
  match q_rb_parser_run fuel (q_parser_init selector_rb_str selector_rb_str.length) with
  | Result.ok selector parser => Result.ok selector (q_parser_destroy parser)
  | Result.raised e => Result.raised e
  | Result.no_fuel => Result.no_fuel

/-- The bytes of an ASCII string literal. -/
def bytes (s : String) : List Nat := s.data.map Char.toNat

/-! ## The cursor view of the parser state -/

/-- The parser state over the input `pre ++ rest` with `pre` consumed, `rest`
ahead and the buffer `buf`. -/
def cursor (pre rest buf : List Nat) : qparser_t :=
  { chars := pre ++ rest, length := (pre ++ rest).length, index := pre.length, buffer := buf }

/-- The whitespace bytes: space, tab, LF, CR. -/
def whitespace : List Nat := [32, 9, 10, 13]

/-- The name-boundary bytes: whitespace and `# " | > ( [ * ! = < - ) ]`. -/
def name_boundary : List Nat :=
  [32, 9, 10, 13, 35, 34, 124, 62, 40, 91, 42, 33, 61, 60, 45, 41, 93]

/-- A valid name: non-empty, no NUL byte and no name-boundary byte. -/
def valid_name (n : List Nat) : Prop :=
  n ≠ [] ∧ ∀ c ∈ n, c ≠ 0 ∧ c ∉ name_boundary

/-- A whitespace run (possibly empty). -/
def whitespace_run (w : List Nat) : Prop := ∀ c ∈ w, c ∈ whitespace

instance (n : List Nat) : Decidable (valid_name n) := by
  unfold valid_name; infer_instance

instance (w : List Nat) : Decidable (whitespace_run w) := by
  unfold whitespace_run; infer_instance

/-- The byte `q_peek` sees when `rest` is ahead: its first byte, `0` at the end. -/
def next_byte : List Nat → Nat
  | [] => 0
  | c :: _ => c

/-- Nothing or a name-boundary byte is ahead: where `q_read_name` stops. -/
def name_end (t : List Nat) : Prop := t = [] ∨ next_byte t ∈ name_boundary

instance (t : List Nat) : Decidable (name_end t) := by
  unfold name_end; infer_instance

/-- The text of presence attributes `[k]` for the keys `ks`, one after the
other. -/
def attr_text : List (List Nat) → List Nat
  | [] => []
  | k :: ks => 91 :: (k ++ 93 :: attr_text ks)

/-- The text `#i` of an id tag, empty when there is none. -/
def id_text : Option (List Nat) → List Nat
  | none => []
  | some i => 35 :: i

/-- The text `>` of a direct combinator, empty when there is none. -/
def direct_text (d : Bool) : List Nat := if d then [62] else []

/-- The names `ns` with the byte `sep` between neighbours. -/
def join_with (sep : Nat) : List (List Nat) → List Nat
  | [] => []
  | [n] => n
  | n :: m :: ms => n ++ sep :: join_with sep (m :: ms)

/-- The presence check `AttrCheck{k, trueish, absent}`. -/
def presence_check (k : List Nat) : Check :=
  Check.AttrCheck (VALUE.String k) Operator.trueish VALUE.Qnil

/-- The part of `q_read_selector` after the type check: id tag, attributes and
the direct mark (a name for the tail of the function body, used in proofs). -/
def q_read_selector_tail (fuel : Nat) (parser : qparser_t) (attributes_ary : List Check) :
    Result (Option Selector) :=
  (q_read_id_tag fuel parser).andThen fun id_check parser =>
  let attributes_ary := attributes_ary ++ id_check.toList
  (q_read_selector_loop fuel fuel parser attributes_ary).andThen fun attributes_ary parser =>
  (q_skip_whitespace fuel parser).andThen fun _ parser =>
  let direct := q_accept parser Q_DIRECT_FOLLOW Q_DO_NOT_ADD_TO_BUFFER
  Result.ok (some (Selector.mk attributes_ary (direct.1 ≠ 0) none)) direct.2

/-- The bytes at which `q_read_selector` finds no selector: they are name
boundaries that start neither a glob, an id tag, an attribute nor a multi-class
tag, and are not whitespace. -/
def selector_stop : List Nat := [34, 124, 62, 33, 61, 60, 45, 41, 93]

/-- The selector `q_read_selector` builds for a plain class name: one class
check, not direct, no successor yet. -/
def class_selector (n : List Nat) : Selector :=
  Selector.mk [Check.ClassCheck [VALUE.Symbol n]] false none

/-- The selectors of a chain in order, each by its checks and its `direct`
flag. -/
def chain_nodes (s : Selector) : List (List Check × Bool) :=
  s.toList.map fun x => (q_selector_attributes x, q_selector_is_direct x)

/-- The bytes `" | ! = < - ) ]`: the selector-stop bytes other than `>`. -/
def trailing_garbage : List Nat := [34, 124, 33, 61, 60, 45, 41, 93]

/-- Postcondition of a finished step: `Q` holds of the value and the parser state
whenever the outcome is `ok`. -/
structure Post {α : Type} (r : Result α) (Q : α → qparser_t → Prop) : Prop where
  out : ∀ v p, r = Result.ok v p → Q v p

/-- The parser state `p'` reads the same input as `p`: only the cursor and the
buffer may differ. -/
def same_input (p p' : qparser_t) : Prop := p'.chars = p.chars ∧ p'.length = p.length

/-- A step keeps the input: the state it ends in reads the same input as `p`. -/
abbrev Keeps {α : Type} (p : qparser_t) (r : Result α) : Prop :=
  Post r fun _ p' => same_input p p'

/-- The shape of the checks of every selector `q_read_selector` returns: at most
one class check (with a non-empty list of names), then at most one tag check,
then attribute checks only; the selector has no successor yet. -/
def selector_shape (s : Selector) : Prop :=
  ∃ types ids attrs d, s = Selector.mk (types ++ ids ++ attrs) d none
    ∧ types.length ≤ 1 ∧ (∀ c ∈ types, ∃ names, names ≠ [] ∧ c = Check.ClassCheck names)
    ∧ ids.length ≤ 1 ∧ (∀ c ∈ ids, ∃ name, c = Check.TagCheck name)
    ∧ ∀ c ∈ attrs, ∃ key operator operand, c = Check.AttrCheck key operator operand

/-- The text of an optional class name, empty when there is none. -/
def type_text : Option (List Nat) → List Nat
  | none => []
  | some t => t

/-- The digit bytes `0`..`9`. -/
def digits : List Nat := [48, 49, 50, 51, 52, 53, 54, 55, 56, 57]

/-- A digit run (possibly empty). -/
def digit_run (d : List Nat) : Prop := ∀ c ∈ d, c ∈ digits

instance (d : List Nat) : Decidable (digit_run d) := by
  unfold digit_run; infer_instance

/-- The operator tokens of the grammar with the operator each one stands for. -/
def operator_tokens : List (List Nat × Operator) :=
  [([61], Operator.equal), ([33, 61], Operator.not_equal), ([62], Operator.greater),
   ([62, 61], Operator.greater_equal), ([60], Operator.lesser),
   ([60, 61], Operator.lesser_equal), ([60, 45], Operator.contains)]

/-- The operand of an attribute as `q_read_attribute` reads it: a string, else a
number, else a name taken as a string (a name for that part of the function
body, used in proofs). -/
def q_read_operand (fuel : Nat) (parser : qparser_t) : Result VALUE :=
  (q_read_string fuel parser).andThen fun operand parser =>
    if !RTEST operand then
      (q_read_number fuel parser).andThen fun operand parser =>
        if !RTEST operand then q_read_name fuel parser Q_AS_STRING
        else Result.ok operand parser
    else Result.ok operand parser

/-- The text `!` of an inverted attribute, empty when it is not inverted. -/
def bang_text (inverted : Bool) : List Nat := if inverted then [33] else []

/-- The inversion table in the words of the specification: trueish and falseish,
equal and not_equal, lesser and greater_equal, greater and lesser_equal swap;
contains is its own image. -/
def spec_inversion : Operator → Operator
  | .trueish => .falseish
  | .falseish => .trueish
  | .equal => .not_equal
  | .not_equal => .equal
  | .lesser => .greater_equal
  | .greater_equal => .lesser
  | .greater => .lesser_equal
  | .lesser_equal => .greater
  | .contains => .contains

/-- The fractional part of `q_read_number`: the decimal mark and the digits it
requires; the value is the flag `is_float` after it (a name for that part of
the function body, used in proofs). -/
def q_read_number_fraction (fuel : Nat) (parser : qparser_t) : Result Bool :=
  let is_float := false
  let mark := q_accept parser Q_DECIMAL_MARK Q_ADD_TO_BUFFER
  if mark.1 ≠ 0 then
    (q_accept_run fuel mark.2 Q_DIGITS Q_ADD_TO_BUFFER).andThen fun fraction parser =>
      if fraction = 0 then Result.raised Err.InvalidNumberFormatFraction
      else Result.ok true parser
  else Result.ok is_float mark.2

/-- The exponent part of `q_read_number`: the exponent mark, an optional sign and
the digits it requires; the value is the flag `is_float` after it (a name for
that part of the function body, used in proofs). -/
def q_read_number_exponent (fuel : Nat) (parser : qparser_t) (is_float : Bool) : Result Bool :=
  let exp := q_accept parser Q_EXPONENT_MARK Q_ADD_TO_BUFFER
  if exp.1 ≠ 0 then
    let plusminus := q_accept exp.2 Q_EXP_PLUSMINUS_MARK Q_ADD_TO_BUFFER
    (q_accept_run fuel plusminus.2 Q_DIGITS Q_ADD_TO_BUFFER).andThen fun exponent parser =>
      if exponent = 0 then Result.raised Err.InvalidNumberFormatExponent
      else Result.ok (is_float || plusminus.1 = 45) parser
  else Result.ok is_float exp.2

/-- The text `.f` of a fractional part, empty when there is none. -/
def fraction_text : Option (List Nat) → List Nat
  | none => []
  | some f => 46 :: f

/-- The text `e`, sign, digits of an exponent part, empty when there is none. -/
def exponent_text : Option (List Nat × List Nat) → List Nat
  | none => []
  | some (sign, x) => 101 :: (sign ++ x)

/-- The text of a number literal: digits, an optional fractional part and an
optional exponent part. -/
def number_text (d : List Nat) (frac : Option (List Nat)) (exp : Option (List Nat × List Nat)) :
    List Nat :=
  d ++ (fraction_text frac ++ exponent_text exp)

/-- A fractional part is well formed: its digit run is not empty. -/
def fraction_ok : Option (List Nat) → Prop
  | none => True
  | some f => digit_run f ∧ f ≠ []

/-- An exponent part is well formed: the sign is empty, `+` or `-`, and its digit
run is not empty. -/
def exponent_ok : Option (List Nat × List Nat) → Prop
  | none => True
  | some (sign, x) => (sign = [] ∨ sign = [43] ∨ sign = [45]) ∧ digit_run x ∧ x ≠ []

instance (frac : Option (List Nat)) : Decidable (fraction_ok frac) := by
  cases frac <;> unfold fraction_ok <;> infer_instance

instance (exp : Option (List Nat × List Nat)) : Decidable (exponent_ok exp) := by
  rcases exp with _ | ⟨sign, x⟩ <;> unfold exponent_ok <;> infer_instance

/-- The tag the specification gives a number literal: float when it has a
fractional part or a negative exponent sign. -/
def literal_is_float (frac : Option (List Nat)) (exp : Option (List Nat × List Nat)) : Bool :=
  frac.isSome || (exp.map fun e => decide (e.1 = [45])).getD false

/-- The cursor of `p'` is not before the cursor of `p`. -/
def cursor_le (p p' : qparser_t) : Prop := p.index ≤ p'.index

/-- A step moves the cursor forward or leaves it: the state it ends in has its
cursor not before that of `p`. -/
abbrev Forward {α : Type} (p : qparser_t) (r : Result α) : Prop :=
  Post r fun _ p' => cursor_le p p'

/-- The attribute checks `cs` are what successive calls of `q_read_attribute`
return from the state `p` on: each call starts at a `[` of the input, ends
further right, and the next call starts where it ended. -/
def attr_reads (fuel : Nat) : qparser_t → List Check → Prop
  | _, [] => True
  | p, c :: cs =>
    ∃ p1, q_read_attribute fuel p = Result.ok (some c) p1 ∧ q_peek p = 91
      ∧ p.index < p1.index ∧ attr_reads fuel p1 cs

/-- The checks of a selector in the order of the grammar: at most one class
check, then at most one tag check, then the attribute checks, which are read
one after the other from the input of `p0`, left to right. -/
def ordered_checks (fuel : Nat) (p0 : qparser_t) (checks : List Check) : Prop :=
  ∃ types ids attrs p1, checks = types ++ ids ++ attrs
    ∧ types.length ≤ 1 ∧ (∀ c ∈ types, ∃ names, c = Check.ClassCheck names)
    ∧ ids.length ≤ 1 ∧ (∀ c ∈ ids, ∃ name, c = Check.TagCheck name)
    ∧ (∀ c ∈ attrs, ∃ key operator operand, c = Check.AttrCheck key operator operand)
    ∧ same_input p0 p1 ∧ attr_reads fuel p1 attrs

/-- The decimal value of a run of digits, in the words of the claim. -/
def decimal_value (d : List Nat) : Nat := d.foldl (fun a c => 10 * a + (c - 48)) 0

/-- The number of input bytes the cursor has not passed yet. -/
def unread (p : qparser_t) : Nat := p.length - p.index

/-- No byte of the input of `p` is NUL. -/
def nul_free (p : qparser_t) : Prop := ∀ i, i < p.length → p.chars.getD i 0 ≠ 0

/-- The outcome of a step is a value or an error: its loops did not use up the
fuel. -/
def Finishes {α : Type} (r : Result α) : Prop := r ≠ Result.no_fuel

/-- The state `p` reads an input without NUL bytes and has fewer than `fuel`
bytes left to read. -/
def ready (fuel : Nat) (p : qparser_t) : Prop := nul_free p ∧ unread p < fuel

/-- The state `p'` reads the same input as `p` with its cursor not before that
of `p`. -/
def moved (p p' : qparser_t) : Prop := same_input p p' ∧ cursor_le p p'

/-- A step keeps the input and does not move the cursor back. -/
abbrev Moves {α : Type} (p : qparser_t) (r : Result α) : Prop :=
  Post r fun _ p' => moved p p'

/-- A step from a ready state finishes and ends in a state moved on from `p`. -/
structure Total {α : Type} (fuel : Nat) (p : qparser_t) (r : Result α) : Prop where
  run : ready fuel p → Finishes r ∧ Moves p r

/-- The byte `c` does not occur in the input of `p`. -/
def byte_free (c : Nat) (p : qparser_t) : Prop := ∀ i, i < p.length → p.chars.getD i 0 ≠ c

/-! ## Lemmas and theorems -/

@[simp] theorem Result.andThen_ok {α β : Type} (v : α) (p : qparser_t)
    (f : α → qparser_t → Result β) : (Result.ok v p).andThen f = f v p := rfl

@[simp] theorem Result.andThen_raised {α β : Type} (e : Err)
    (f : α → qparser_t → Result β) : (Result.raised e : Result α).andThen f = Result.raised e :=
  rfl

@[simp] theorem Result.andThen_no_fuel {α β : Type}
    (f : α → qparser_t → Result β) : (Result.no_fuel : Result α).andThen f = Result.no_fuel :=
  rfl

theorem q_parser_init_cursor (s : List Nat) : q_parser_init s s.length = cursor [] s [] := by
  simp [q_parser_init, cursor]

@[simp] theorem next_byte_nil : next_byte [] = 0 := rfl

@[simp] theorem next_byte_cons (c : Nat) (t : List Nat) : next_byte (c :: t) = c := rfl

theorem q_peek_cursor (pre rest buf : List Nat) :
    q_peek (cursor pre rest buf) = next_byte rest := by
  cases rest with
  | nil => simp [q_peek, cursor]
  | cons c t =>
    have h : (pre ++ c :: t)[pre.length]? = some c := by
      rw [List.getElem?_append_right (Nat.le_refl _)]; simp
    simp [q_peek, cursor, List.getD_eq_getElem?_getD, h]

theorem q_eos_cursor (pre rest buf : List Nat) :
    q_eos (cursor pre rest buf) = decide (rest = []) := by
  cases rest with
  | nil => simp [q_eos, cursor]
  | cons c t => simp [q_eos, cursor]

theorem cursor_snoc (pre : List Nat) (c : Nat) (t buf : List Nat) :
    ({ chars := pre ++ c :: t, length := (pre ++ c :: t).length, index := pre.length + 1,
       buffer := buf } : qparser_t) = cursor (pre ++ [c]) t buf := by
  simp [cursor]

theorem q_read_cursor_nil (pre buf : List Nat) (add : Bool) :
    q_read (cursor pre [] buf) add = (0, cursor pre [] buf) := by
  simp [q_read, q_peek_cursor]

theorem q_read_cursor_cons (pre : List Nat) (c : Nat) (t buf : List Nat) (add : Bool)
    (hc : c ≠ 0) :
    q_read (cursor pre (c :: t) buf) add
      = (c, cursor (pre ++ [c]) t (if add then buf ++ [c] else buf)) := by
  have hp := q_peek_cursor pre (c :: t) buf
  simp only [next_byte_cons] at hp
  cases add <;> simp only [q_read, hp] <;> simp [hc, cursor]

theorem q_strnchr_zero (str : List Nat) (length : Nat) : q_strnchr str length 0 = false := by
  simp [q_strnchr]

theorem q_accept_cursor_nil (pre buf : List Nat) (chars : qchars_t) (add : Bool) :
    q_accept (cursor pre [] buf) chars add = (0, cursor pre [] buf) := by
  simp [q_accept, q_peek_cursor, q_strnchr_zero]

theorem q_accept_cursor_cons (pre : List Nat) (c : Nat) (t buf : List Nat) (chars : qchars_t)
    (add : Bool) :
    q_accept (cursor pre (c :: t) buf) chars add
      = if q_strnchr chars.chars chars.length c then
          (c, cursor (pre ++ [c]) t (if add then buf ++ [c] else buf))
        else (0, cursor pre (c :: t) buf) := by
  by_cases hc : c = 0
  · subst hc; simp [q_accept, q_peek_cursor, q_strnchr_zero]
  · simp [q_accept, q_peek_cursor, q_read_cursor_cons _ _ _ _ _ hc]

theorem q_skip_whitespace_loop_cursor (w : List Nat) (hw : whitespace_run w) :
    ∀ (n : Nat) (pre t buf : List Nat), w.length < n → next_byte t ∉ whitespace →
      q_skip_whitespace_loop n (cursor pre (w ++ t) buf) = Result.ok () (cursor (pre ++ w) t buf) := by
  induction w with
  | nil =>
    intro n pre t buf hn ht
    cases n with
    | zero => simp at hn
    | succ n =>
      simp only [whitespace, List.mem_cons, List.mem_singleton, List.not_mem_nil, or_false, not_or] at ht
      simp [q_skip_whitespace_loop, q_peek_cursor, ht]
  | cons c w ih =>
    intro n pre t buf hn ht
    cases n with
    | zero => simp at hn
    | succ n =>
      have hc : c ∈ whitespace := hw c (by simp)
      have hw2 : whitespace_run w := fun x hx => hw x (by simp [hx])
      have hc0 : c ≠ 0 := by
        simp only [whitespace, List.mem_cons, List.mem_singleton, List.not_mem_nil, or_false] at hc
        omega
      have hcc : c = 32 ∨ c = 9 ∨ c = 13 ∨ c = 10 := by
        simp only [whitespace, List.mem_cons, List.mem_singleton, List.not_mem_nil, or_false] at hc
        omega
      have hn2 : w.length < n := by simp at hn; omega
      simp only [q_skip_whitespace_loop, List.cons_append, q_peek_cursor, next_byte_cons, hcc,
        if_true, Q_DO_NOT_ADD_TO_BUFFER, q_read_cursor_cons _ _ _ _ _ hc0]
      simpa using ih hw2 n (pre ++ [c]) t buf hn2 ht

theorem q_skip_whitespace_cursor (fuel : Nat) (pre w t buf : List Nat) (hw : whitespace_run w)
    (hn : w.length < fuel) (ht : next_byte t ∉ whitespace) :
    q_skip_whitespace fuel (cursor pre (w ++ t) buf) = Result.ok () (cursor (pre ++ w) t buf) :=
  q_skip_whitespace_loop_cursor w hw fuel pre t buf hn ht

theorem q_skip_whitespace_none (fuel : Nat) (pre t buf : List Nat)
    (hn : 0 < fuel) (ht : next_byte t ∉ whitespace) :
    q_skip_whitespace fuel (cursor pre t buf) = Result.ok () (cursor pre t buf) := by
  have h := q_skip_whitespace_cursor fuel pre [] t buf (by simp [whitespace_run]) (by simpa using hn) ht
  simpa using h

theorem q_strnchr_one (x : Nat) (l : List Nat) (c : Nat) :
    q_strnchr (x :: l) 1 c = (decide (c = x) && decide (c ≠ 0)) := by
  by_cases hc : c = 0
  · subst hc; simp [q_strnchr]
  · by_cases hx : c = x
    · subst hx; simp [q_strnchr, hc]
    · have hx2 : ¬ x = c := fun h => hx h.symm
      simp [q_strnchr, hc, hx, hx2]

theorem q_strnchr_name_bounds (c : Nat) :
    q_strnchr Q_NAME_BOUNDS.chars Q_NAME_BOUNDS.length c = decide (c ∈ name_boundary) := by
  by_cases hc : c = 0
  · subst hc; simp [q_strnchr, name_boundary]
  · simp only [q_strnchr, Q_NAME_BOUNDS, name_boundary, hc]
    simp only [ne_eq, not_false_eq_true, if_true, gt_iff_lt, Nat.one_lt_ofNat, List.take, decide_eq_decide,
      List.mem_cons, List.mem_singleton, List.not_mem_nil, or_false]
    rw [if_pos hc, decide_eq_decide]
    constructor <;> intro h <;> omega

theorem q_accept_miss (pre rest buf : List Nat) (chars : qchars_t) (add : Bool)
    (h : q_strnchr chars.chars chars.length (next_byte rest) = false) :
    q_accept (cursor pre rest buf) chars add = (0, cursor pre rest buf) := by
  simp [q_accept, q_peek_cursor, h]

theorem q_accept_hit (pre : List Nat) (c : Nat) (t buf : List Nat) (chars : qchars_t) (add : Bool)
    (h : q_strnchr chars.chars chars.length c = true) :
    q_accept (cursor pre (c :: t) buf) chars add
      = (c, cursor (pre ++ [c]) t (if add then buf ++ [c] else buf)) := by
  rw [q_accept_cursor_cons, if_pos h]

theorem q_accept_until_loop_cursor (chars : qchars_t) (add : Bool) (n : List Nat)
    (hn : ∀ c ∈ n, c ≠ 0 ∧ q_strnchr chars.chars chars.length c = false) :
    ∀ (k : Nat) (pre t buf : List Nat) (accepted : Nat), n.length < k →
      (t = [] ∨ q_strnchr chars.chars chars.length (next_byte t) = true) →
      q_accept_until_loop chars add k (cursor pre (n ++ t) buf) accepted
        = Result.ok (accepted + n.length)
            (cursor (pre ++ n) t (if add then buf ++ n else buf)) := by
  induction n with
  | nil =>
    intro k pre t buf accepted hk ht
    cases k with
    | zero => simp at hk
    | succ k =>
      rcases ht with ht | ht
      · subst ht; simp [q_accept_until_loop, q_eos_cursor]
      · simp [q_accept_until_loop, q_peek_cursor, ht]
  | cons c n ih =>
    intro k pre t buf accepted hk ht
    cases k with
    | zero => simp at hk
    | succ k =>
      have hc := hn c (by simp)
      have hn2 : ∀ x ∈ n, x ≠ 0 ∧ q_strnchr chars.chars chars.length x = false :=
        fun x hx => hn x (by simp [hx])
      have hk2 : n.length < k := by simp at hk; omega
      simp only [q_accept_until_loop, List.cons_append, q_eos_cursor, q_peek_cursor, next_byte_cons,
        hc.2, q_read_cursor_cons _ _ _ _ _ hc.1]
      have h := ih hn2 k (pre ++ [c]) t (if add then buf ++ [c] else buf) (accepted + 1) hk2 ht
      cases add <;> simp at h ⊢ <;> rw [h] <;> simp <;> omega

theorem q_read_name_some (fuel : Nat) (pre n t : List Nat) (as_symbol : Bool)
    (hn : valid_name n) (ht : name_end t) (hf : n.length < fuel) :
    q_read_name fuel (cursor pre (n ++ t) []) as_symbol
      = Result.ok (if as_symbol then VALUE.Symbol n else VALUE.String n)
          (cursor (pre ++ n) t []) := by
  have hn2 : ∀ c ∈ n, c ≠ 0 ∧
      q_strnchr Q_NAME_BOUNDS.chars Q_NAME_BOUNDS.length c = false := by
    intro c hc
    have h := hn.2 c hc
    exact ⟨h.1, by rw [q_strnchr_name_bounds]; simpa using h.2⟩
  have ht2 : t = [] ∨ q_strnchr Q_NAME_BOUNDS.chars Q_NAME_BOUNDS.length (next_byte t) = true := by
    rcases ht with ht | ht
    · exact Or.inl ht
    · exact Or.inr (by rw [q_strnchr_name_bounds]; simpa using ht)
  have h := q_accept_until_loop_cursor Q_NAME_BOUNDS true n hn2 fuel pre t [] 0 hf ht2
  have hlen : n.length ≠ 0 := by
    have := hn.1
    cases n with
    | nil => exact absurd rfl this
    | cons => simp
  simp only [q_read_name, q_accept_until, Q_ADD_TO_BUFFER, h, Result.andThen]
  simp [hlen, cursor, q_clear_buf]

theorem q_read_name_none (fuel : Nat) (pre t buf : List Nat) (as_symbol : Bool)
    (ht : name_end t) (hf : 0 < fuel) :
    q_read_name fuel (cursor pre t buf) as_symbol = Result.ok VALUE.Qnil (cursor pre t buf) := by
  have ht2 : t = [] ∨ q_strnchr Q_NAME_BOUNDS.chars Q_NAME_BOUNDS.length (next_byte t) = true := by
    rcases ht with ht | ht
    · exact Or.inl ht
    · exact Or.inr (by rw [q_strnchr_name_bounds]; simpa using ht)
  have h := q_accept_until_loop_cursor Q_NAME_BOUNDS true [] (by simp) fuel pre t buf 0
    (by simpa using hf) ht2
  simp only [List.nil_append] at h
  simp only [q_read_name, q_accept_until, Q_ADD_TO_BUFFER, h, Result.andThen]
  simp

theorem q_accept_one_miss (pre rest buf : List Nat) (x : Nat) (l : List Nat) (add : Bool)
    (h : next_byte rest ≠ x) :
    q_accept (cursor pre rest buf) ⟨1, x :: l⟩ add = (0, cursor pre rest buf) := by
  apply q_accept_miss
  simp [q_strnchr_one, h]

theorem q_accept_one_hit (pre : List Nat) (x : Nat) (t buf l : List Nat) (add : Bool)
    (h : x ≠ 0) :
    q_accept (cursor pre (x :: t) buf) ⟨1, x :: l⟩ add
      = (x, cursor (pre ++ [x]) t (if add then buf ++ [x] else buf)) := by
  apply q_accept_hit
  simp [q_strnchr_one, h]

/-- The first byte of a valid name is neither NUL nor a name boundary. -/
theorem valid_name_next (n t : List Nat) (hn : valid_name n) :
    next_byte (n ++ t) ≠ 0 ∧ next_byte (n ++ t) ∉ name_boundary := by
  obtain ⟨h0, h⟩ := hn
  cases n with
  | nil => exact absurd rfl h0
  | cons c n => simpa using h c (by simp)

theorem not_boundary_not_whitespace (c : Nat) (h : c ∉ name_boundary) : c ∉ whitespace := by
  simp only [name_boundary, whitespace, List.mem_cons, List.mem_singleton, List.not_mem_nil,
    or_false, not_or] at h ⊢
  omega

theorem q_read_id_tag_none (fuel : Nat) (pre rest buf : List Nat) (h : next_byte rest ≠ 35) :
    q_read_id_tag fuel (cursor pre rest buf) = Result.ok none (cursor pre rest buf) := by
  simp [q_read_id_tag, Q_TAG_MARKER, q_accept_one_miss _ _ _ _ _ _ h]

theorem q_read_id_tag_some (fuel : Nat) (pre i t : List Nat) (hi : valid_name i)
    (ht : name_end t) (hf : i.length < fuel) :
    q_read_id_tag fuel (cursor pre (35 :: (i ++ t)) [])
      = Result.ok (some (Check.TagCheck (VALUE.Symbol i))) (cursor (pre ++ 35 :: i) t []) := by
  simp only [q_read_id_tag, Q_TAG_MARKER, Q_DO_NOT_ADD_TO_BUFFER,
    q_accept_one_hit pre 35 (i ++ t) [] [] false (by decide)]
  simp [q_read_name_some fuel (pre ++ [35]) i t _ hi ht hf, RTEST, Q_AS_SYMBOL]

theorem q_read_attribute_none (fuel : Nat) (pre rest buf : List Nat) (h : next_byte rest ≠ 91) :
    q_read_attribute fuel (cursor pre rest buf) = Result.ok none (cursor pre rest buf) := by
  simp [q_read_attribute, Q_START_ATTR, q_accept_one_miss _ _ _ _ _ _ h]

theorem q_read_attribute_operation_close (fuel : Nat) (pre t buf : List Nat) :
    q_read_attribute_operation fuel (cursor pre (93 :: t) buf)
      = Result.ok (Operator.trueish, VALUE.Qnil) (cursor (pre ++ [93]) t buf) := by
  simp [q_read_attribute_operation, Q_END_ATTR, Q_DO_NOT_ADD_TO_BUFFER,
    q_accept_one_hit pre 93 t buf [] false (by decide)]

theorem q_read_attribute_presence (fuel : Nat) (pre k t : List Nat) (hk : valid_name k)
    (hf : k.length < fuel) :
    q_read_attribute fuel (cursor pre (91 :: (k ++ 93 :: t)) [])
      = Result.ok (some (Check.AttrCheck (VALUE.String k) Operator.trueish VALUE.Qnil))
          (cursor (pre ++ 91 :: (k ++ [93])) t []) := by
  have hk1 := valid_name_next k (93 :: t) hk
  have hws := not_boundary_not_whitespace _ hk1.2
  have h33 : next_byte (k ++ 93 :: t) ≠ 33 := by
    intro h; apply hk1.2; rw [h]; decide
  have hf0 : 0 < fuel := by omega
  have he : name_end (93 :: t) := Or.inr (by simp [name_boundary])
  have hw93 : next_byte (93 :: t) ∉ whitespace := by simp [whitespace]
  simp only [q_read_attribute, Q_START_ATTR, Q_DO_NOT_ADD_TO_BUFFER, Q_NEGATION_MARK,
    q_accept_one_hit pre 91 (k ++ 93 :: t) [] [] false (by decide)]
  simp only [Bool.false_eq_true, if_false, ne_eq, OfNat.ofNat_ne_zero, not_false_eq_true, if_true,
    q_skip_whitespace_none fuel (pre ++ [91]) (k ++ 93 :: t) [] hf0 hws, Result.andThen_ok,
    q_accept_one_miss _ _ _ _ _ _ h33, not_true_eq_false, Q_AS_STRING,
    q_read_name_some fuel (pre ++ [91]) k (93 :: t) false hk he hf,
    q_skip_whitespace_none fuel (pre ++ [91] ++ k) (93 :: t) [] hf0 hw93,
    q_read_attribute_operation_close]
  simp [cursor]

theorem q_read_selector_loop_presence (fuel : Nat) (keys : List (List Nat))
    (hkeys : ∀ k ∈ keys, valid_name k ∧ k.length < fuel) :
    ∀ (n : Nat) (pre t : List Nat) (acc : List Check), keys.length < n → next_byte t ≠ 91 →
      q_read_selector_loop fuel n (cursor pre (attr_text keys ++ t) []) acc
        = Result.ok (acc ++ keys.map presence_check) (cursor (pre ++ attr_text keys) t []) := by
  induction keys with
  | nil =>
    intro n pre t acc hn ht
    cases n with
    | zero => simp at hn
    | succ n =>
      simp [q_read_selector_loop, attr_text, q_read_attribute_none fuel pre t [] ht]
  | cons k ks ih =>
    intro n pre t acc hn ht
    cases n with
    | zero => simp at hn
    | succ n =>
      have hk := hkeys k (by simp)
      have hks : ∀ x ∈ ks, valid_name x ∧ x.length < fuel := fun x hx => hkeys x (by simp [hx])
      have hn2 : ks.length < n := by simp at hn; omega
      have h := ih hks n (pre ++ 91 :: (k ++ [93])) t (acc ++ [presence_check k]) hn2 ht
      simp only [q_read_selector_loop, attr_text, List.cons_append, List.append_assoc,
        q_read_attribute_presence fuel pre k (attr_text ks ++ t) hk.1 hk.2, Result.andThen_ok]
      rw [← presence_check, h]
      simp

theorem attr_text_length (keys : List (List Nat)) :
    keys.length ≤ (attr_text keys).length ∧ ∀ k ∈ keys, k.length < (attr_text keys).length := by
  induction keys with
  | nil => simp [attr_text]
  | cons k ks ih =>
    refine ⟨by simp [attr_text]; omega, ?_⟩
    intro x hx
    simp only [List.mem_cons] at hx
    rcases hx with hx | hx
    · subst hx; simp [attr_text]; omega
    · have := ih.2 x hx
      simp [attr_text]; omega

theorem attr_text_next (keys : List (List Nat)) (u : List Nat) (hk : keys ≠ []) :
    next_byte (attr_text keys ++ u) = 91 := by
  cases keys with
  | nil => exact absurd rfl hk
  | cons k ks => simp [attr_text]

theorem q_read_selector_tail_cursor (fuel : Nat) (pre : List Nat) (i : Option (List Nat))
    (keys : List (List Nat)) (w : List Nat) (d : Bool) (t : List Nat) (acc : List Check)
    (hi : ∀ x, i = some x → valid_name x) (hkeys : ∀ k ∈ keys, valid_name k)
    (hw : whitespace_run w)
    (hu1 : name_end (w ++ (direct_text d ++ t)))
    (hu2 : next_byte (w ++ (direct_text d ++ t)) ≠ 91)
    (hu3 : next_byte (w ++ (direct_text d ++ t)) ≠ 35)
    (hd : d = false → next_byte t ∉ whitespace ∧ next_byte t ≠ 62)
    (hf : (id_text i ++ (attr_text keys ++ (w ++ (direct_text d ++ t)))).length < fuel) :
    q_read_selector_tail fuel
        (cursor pre (id_text i ++ (attr_text keys ++ (w ++ (direct_text d ++ t)))) []) acc
      = Result.ok
          (some (Selector.mk
            (acc ++ (i.map fun x => Check.TagCheck (VALUE.Symbol x)).toList
              ++ keys.map presence_check) d none))
          (cursor (pre ++ (id_text i ++ (attr_text keys ++ (w ++ direct_text d)))) t []) := by
  have hlen := attr_text_length keys
  have hkeys2 : ∀ k ∈ keys, valid_name k ∧ k.length < fuel := by
    intro k hk
    refine ⟨hkeys k hk, ?_⟩
    have := hlen.2 k hk
    simp only [List.length_append] at hf
    omega
  have hkl : keys.length < fuel := by
    simp only [List.length_append] at hf
    omega
  have hwl : w.length < fuel := by
    simp only [List.length_append] at hf
    omega
  have hne : name_end (attr_text keys ++ (w ++ (direct_text d ++ t))) := by
    by_cases hk : keys = []
    · subst hk; simpa [attr_text] using hu1
    · exact Or.inr (by rw [attr_text_next _ _ hk]; simp [name_boundary])
  have h35 : next_byte (attr_text keys ++ (w ++ (direct_text d ++ t))) ≠ 35 := by
    by_cases hk : keys = []
    · subst hk; simpa [attr_text] using hu3
    · rw [attr_text_next _ _ hk]; decide
  have hdw : next_byte (direct_text d ++ t) ∉ whitespace := by
    cases d with
    | false => simpa [direct_text] using (hd rfl).1
    | true => simp [direct_text, whitespace]
  have hacc : ∀ (p : List Nat) (a : List Check),
      (q_skip_whitespace fuel (cursor p (w ++ (direct_text d ++ t)) [])).andThen
        (fun _ parser =>
          let direct := q_accept parser Q_DIRECT_FOLLOW Q_DO_NOT_ADD_TO_BUFFER
          Result.ok (some (Selector.mk a (direct.1 ≠ 0) none)) direct.2)
        = Result.ok (some (Selector.mk a d none)) (cursor (p ++ (w ++ direct_text d)) t []) := by
    intro p a
    rw [q_skip_whitespace_cursor fuel p w (direct_text d ++ t) [] hw hwl hdw]
    cases d with
    | false =>
      have h62 : next_byte t ≠ 62 := (hd rfl).2
      simp [direct_text, Q_DIRECT_FOLLOW, q_accept_one_miss _ _ _ _ _ _ h62]
    | true =>
      simp [direct_text, Q_DIRECT_FOLLOW, Q_DO_NOT_ADD_TO_BUFFER,
        q_accept_one_hit (p ++ w) 62 t [] [] false (by decide)]
  unfold q_read_selector_tail
  cases i with
  | none =>
    simp only [id_text, List.nil_append, Option.map_none', Option.toList_none, List.append_nil]
    rw [q_read_id_tag_none fuel pre _ [] h35]
    simp only [Result.andThen_ok, Option.toList_none, List.append_nil]
    rw [q_read_selector_loop_presence fuel keys hkeys2 fuel pre _ acc hkl hu2]
    simp only [Result.andThen_ok]
    rw [hacc]
    simp
  | some x =>
    have hx := hi x rfl
    have hxl : x.length < fuel := by
      simp only [id_text, List.length_append, List.length_cons] at hf
      omega
    simp only [id_text, List.cons_append, Option.map_some', Option.toList_some]
    rw [q_read_id_tag_some fuel pre x _ hx hne hxl]
    simp only [Result.andThen_ok, Option.toList_some]
    rw [q_read_selector_loop_presence fuel keys hkeys2 fuel _ _ _ hkl hu2]
    simp only [Result.andThen_ok]
    rw [hacc]
    simp

theorem q_read_selector_unfold (fuel : Nat) (parser : qparser_t) :
    q_read_selector fuel parser
      = (q_skip_whitespace fuel parser).andThen fun _ parser =>
        let glob := q_accept parser Q_ANY_TAG_MARK Q_DO_NOT_ADD_TO_BUFFER
        let globbed : Bool := glob.1 ≠ 0 || q_peek glob.2 = 35 || q_peek glob.2 = 91
        (if !globbed then
          (q_read_multi_class_tag fuel glob.2).andThen fun type_check parser =>
            if type_check.isNone then q_read_single_class_tag fuel parser
            else Result.ok type_check parser
        else Result.ok none glob.2).andThen fun type_check parser =>
        if !globbed && type_check.isNone then Result.ok none parser
        else q_read_selector_tail fuel parser ([] ++ type_check.toList) := rfl

theorem q_read_multi_class_tag_none (fuel : Nat) (pre rest buf : List Nat)
    (h : next_byte rest ≠ 40) :
    q_read_multi_class_tag fuel (cursor pre rest buf) = Result.ok none (cursor pre rest buf) := by
  simp [q_read_multi_class_tag, Q_START_MULTI_TAG, q_accept_one_miss _ _ _ _ _ _ h]

theorem q_read_single_class_tag_some (fuel : Nat) (pre n t : List Nat)
    (hn : valid_name n) (ht : name_end t) (hf : n.length < fuel) :
    q_read_single_class_tag fuel (cursor pre (n ++ t) [])
      = Result.ok (some (Check.ClassCheck [VALUE.Symbol n])) (cursor (pre ++ n) t []) := by
  simp [q_read_single_class_tag, q_read_name_some fuel pre n t _ hn ht hf, RTEST, Q_AS_SYMBOL,
    view_class_check_of_name]

theorem q_read_single_class_tag_none (fuel : Nat) (pre t buf : List Nat)
    (ht : name_end t) (hf : 0 < fuel) :
    q_read_single_class_tag fuel (cursor pre t buf) = Result.ok none (cursor pre t buf) := by
  simp [q_read_single_class_tag, q_read_name_none fuel pre t buf _ ht hf, RTEST]

theorem q_read_selector_named (fuel : Nat) (pre n t : List Nat)
    (hn : valid_name n) (ht : name_end t) (hf : n.length < fuel) :
    q_read_selector fuel (cursor pre (n ++ t) [])
      = q_read_selector_tail fuel (cursor (pre ++ n) t []) [Check.ClassCheck [VALUE.Symbol n]] := by
  have h1 := valid_name_next n t hn
  have hws := not_boundary_not_whitespace _ h1.2
  have hb := h1.2
  simp only [name_boundary, List.mem_cons, List.mem_singleton, List.not_mem_nil, or_false,
    not_or] at hb
  have h42 : next_byte (n ++ t) ≠ 42 := by omega
  have h40 : next_byte (n ++ t) ≠ 40 := by omega
  have h35 : next_byte (n ++ t) ≠ 35 := by omega
  have h91 : next_byte (n ++ t) ≠ 91 := by omega
  rw [q_read_selector_unfold, q_skip_whitespace_none fuel pre _ [] (by omega) hws]
  simp only [Result.andThen_ok, Q_ANY_TAG_MARK, q_accept_one_miss _ _ _ _ _ _ h42, q_peek_cursor]
  simp [h35, h91, q_read_multi_class_tag_none fuel pre _ [] h40,
    q_read_single_class_tag_some fuel pre n t hn ht hf]

theorem q_read_selector_lookahead (fuel : Nat) (pre rest : List Nat)
    (h : next_byte rest = 35 ∨ next_byte rest = 91) (hf : 0 < fuel) :
    q_read_selector fuel (cursor pre rest [])
      = q_read_selector_tail fuel (cursor pre rest []) [] := by
  have hws : next_byte rest ∉ whitespace := by
    simp only [whitespace, List.mem_cons, List.mem_singleton, List.not_mem_nil, or_false, not_or]
    omega
  have h42 : next_byte rest ≠ 42 := by omega
  rw [q_read_selector_unfold, q_skip_whitespace_none fuel pre _ [] hf hws]
  simp only [Result.andThen_ok, Q_ANY_TAG_MARK, q_accept_one_miss _ _ _ _ _ _ h42, q_peek_cursor]
  rcases h with h | h <;> simp [h]

theorem q_read_selector_none (fuel : Nat) (pre w t buf : List Nat) (hw : whitespace_run w)
    (ht : t = [] ∨ next_byte t ∈ selector_stop) (hf : w.length < fuel) :
    q_read_selector fuel (cursor pre (w ++ t) buf) = Result.ok none (cursor (pre ++ w) t buf) := by
  have hb : next_byte t = 0 ∨ next_byte t ∈ selector_stop := by
    rcases ht with ht | ht
    · subst ht; exact Or.inl rfl
    · exact Or.inr ht
  simp only [selector_stop, List.mem_cons, List.mem_singleton, List.not_mem_nil, or_false] at hb
  have hws : next_byte t ∉ whitespace := by
    simp only [whitespace, List.mem_cons, List.mem_singleton, List.not_mem_nil, or_false, not_or]
    omega
  have h42 : next_byte t ≠ 42 := by omega
  have h40 : next_byte t ≠ 40 := by omega
  have h35 : next_byte t ≠ 35 := by omega
  have h91 : next_byte t ≠ 91 := by omega
  have hne : name_end t := by
    rcases ht with ht | ht
    · exact Or.inl ht
    · refine Or.inr ?_
      simp only [selector_stop, List.mem_cons, List.mem_singleton, List.not_mem_nil, or_false] at ht
      simp only [name_boundary, List.mem_cons, List.mem_singleton, List.not_mem_nil, or_false]
      omega
  rw [q_read_selector_unfold, q_skip_whitespace_cursor fuel pre w t buf hw hf hws]
  simp only [Result.andThen_ok, Q_ANY_TAG_MARK, q_accept_one_miss _ _ _ _ _ _ h42, q_peek_cursor]
  simp [h35, h91, q_read_multi_class_tag_none fuel _ _ buf h40,
    q_read_single_class_tag_none fuel _ t buf hne (by omega)]

theorem join_with_cons (sep : Nat) (n : List Nat) (ns : List (List Nat)) :
    join_with sep (n :: ns) = n ++ (if ns = [] then [] else sep :: join_with sep ns) := by
  cases ns with
  | nil => simp [join_with]
  | cons m ms => simp [join_with]

theorem join_with_next (sep : Nat) (ns : List (List Nat)) (t : List Nat)
    (hv : ∀ n ∈ ns, valid_name n) (hne : ns ≠ []) :
    next_byte (join_with sep ns ++ t) ≠ 0 ∧ next_byte (join_with sep ns ++ t) ∉ name_boundary := by
  cases ns with
  | nil => exact absurd rfl hne
  | cons m ms =>
    rw [join_with_cons, List.append_assoc]
    exact valid_name_next m _ (hv m (by simp))

theorem join_with_length (sep : Nat) (ns : List (List Nat)) :
    ns.length ≤ (join_with sep ns).length + 1 ∧ ∀ n ∈ ns, n.length ≤ (join_with sep ns).length := by
  induction ns with
  | nil => simp [join_with]
  | cons m ms ih =>
    rw [join_with_cons]
    by_cases h : ms = []
    · subst h; simp
    · simp only [h, if_false, List.length_append, List.length_cons, List.mem_cons]
      refine ⟨by omega, ?_⟩
      intro n hn
      rcases hn with hn | hn
      · subst hn; omega
      · have := ih.2 n hn; omega

/-- One class name of a space-separated list, read by `q_read_selector`: the
name and the space after it are consumed. -/
theorem q_read_selector_joined (fuel : Nat) (pre n : List Nat) (ns : List (List Nat))
    (hn : valid_name n) (hv : ∀ m ∈ ns, valid_name m)
    (hf : (join_with 32 (n :: ns)).length < fuel) :
    ∃ pre', q_read_selector fuel (cursor pre (join_with 32 (n :: ns)) [])
      = Result.ok (some (class_selector n)) (cursor pre' (join_with 32 ns) []) := by
  rw [join_with_cons] at hf ⊢
  by_cases h : ns = []
  · subst h
    simp only [if_true, List.append_nil, List.length_append, List.length_nil, Nat.add_zero] at hf
    have ht := q_read_selector_tail_cursor fuel (pre ++ n) none [] [] false []
      [Check.ClassCheck [VALUE.Symbol n]] (by simp) (by simp) (by simp [whitespace_run])
      (Or.inl (by simp [direct_text])) (by simp [direct_text]) (by simp [direct_text])
      (by simp [whitespace]) (by simp [id_text, attr_text, direct_text]; omega)
    simp only [id_text, attr_text, direct_text, List.append_nil, List.nil_append, Bool.false_eq_true,
      if_false, Option.map_none', Option.toList_none, List.map_nil] at ht
    refine ⟨pre ++ n, ?_⟩
    have h1 := q_read_selector_named fuel pre n [] hn (Or.inl rfl) (by simpa using hf)
    simp only [List.append_nil] at h1
    simp only [if_true, List.append_nil, join_with, h1, ht, class_selector]
  · have hnext := join_with_next 32 ns [] hv h
    simp only [List.append_nil] at hnext
    have hws := not_boundary_not_whitespace _ hnext.2
    have h62 : next_byte (join_with 32 ns) ≠ 62 := by
      intro h'; apply hnext.2; rw [h']; simp [name_boundary]
    simp only [h, if_false, List.length_append, List.length_cons] at hf
    have ht := q_read_selector_tail_cursor fuel (pre ++ n) none [] [32] false (join_with 32 ns)
      [Check.ClassCheck [VALUE.Symbol n]] (by simp) (by simp) (by simp [whitespace_run, whitespace])
      (Or.inr (by simp [name_boundary])) (by simp) (by simp)
      (fun _ => ⟨hws, h62⟩) (by simp [id_text, attr_text, direct_text]; omega)
    simp only [id_text, attr_text, direct_text, List.append_nil, List.nil_append, Bool.false_eq_true,
      if_false, Option.map_none', Option.toList_none, List.map_nil, List.singleton_append] at ht
    refine ⟨pre ++ n ++ [32], ?_⟩
    have h1 := q_read_selector_named fuel pre n (32 :: join_with 32 ns) hn
      (Or.inr (by simp [name_boundary])) (by omega)
    simp only [h, if_false, h1, ht, class_selector]

theorem q_rb_parser_run_loop_joined (fuel : Nat) (ns : List (List Nat))
    (hv : ∀ m ∈ ns, valid_name m) (hf : (join_with 32 ns).length < fuel) :
    ∀ (k : Nat) (pre : List Nat) (selector : Selector), ns.length < k →
      ∃ pre', q_rb_parser_run_loop fuel k (cursor pre (join_with 32 ns) []) selector
        = Result.ok (ns.foldl (fun s m => q_selector_set_succ s (class_selector m)) selector)
            (cursor pre' [] []) := by
  induction ns with
  | nil =>
    intro k pre selector hk
    cases k with
    | zero => simp at hk
    | succ k => exact ⟨pre, by simp [q_rb_parser_run_loop, join_with, q_eos_cursor]⟩
  | cons n ns ih =>
    intro k pre selector hk
    cases k with
    | zero => simp at hk
    | succ k =>
      have hn := hv n (by simp)
      have hv2 : ∀ m ∈ ns, valid_name m := fun m hm => hv m (by simp [hm])
      have hf2 : (join_with 32 ns).length < fuel := by
        rw [join_with_cons] at hf
        by_cases h : ns = []
        · subst h; simp [join_with]; omega
        · simp only [h, if_false, List.length_append, List.length_cons] at hf; omega
      obtain ⟨p1, h1⟩ := q_read_selector_joined fuel pre n ns hn hv2 hf
      have hne : join_with 32 (n :: ns) ≠ [] := by
        have := valid_name_next n (if ns = [] then [] else 32 :: join_with 32 ns) hn
        rw [← join_with_cons] at this
        intro h; rw [h] at this; simp at this
      have hws : next_byte (join_with 32 ns) ∉ whitespace := by
        by_cases h : ns = []
        · subst h; simp [join_with, whitespace]
        · have := join_with_next 32 ns [] hv2 h
          simp only [List.append_nil] at this
          exact not_boundary_not_whitespace _ this.2
      obtain ⟨p2, h2⟩ := ih hv2 hf2 k p1 (q_selector_set_succ selector (class_selector n))
        (by simp at hk; omega)
      refine ⟨p2, ?_⟩
      simp only [q_rb_parser_run_loop, q_eos_cursor, hne, decide_False, Bool.not_false, if_true, h1,
        Result.andThen_ok, q_skip_whitespace_none fuel p1 _ [] (by omega) hws, h2, List.foldl_cons]

@[simp] theorem q_selector_attributes_mk (a : List Check) (d : Bool) (s : Option Selector) :
    q_selector_attributes (Selector.mk a d s) = a := rfl

@[simp] theorem q_selector_is_direct_mk (a : List Check) (d : Bool) (s : Option Selector) :
    q_selector_is_direct (Selector.mk a d s) = d := rfl

@[simp] theorem q_selector_succ_mk (a : List Check) (d : Bool) (s : Option Selector) :
    q_selector_succ (Selector.mk a d s) = s := rfl

theorem chain_nodes_mk_none (a : List Check) (d : Bool) :
    chain_nodes (Selector.mk a d none) = [(a, d)] := by
  simp [chain_nodes, Selector.toList]

theorem chain_nodes_mk_some (a : List Check) (d : Bool) (s : Selector) :
    chain_nodes (Selector.mk a d (some s)) = (a, d) :: chain_nodes s := by
  simp [chain_nodes, Selector.toList]

theorem chain_nodes_set_succ : ∀ (h x : Selector),
    chain_nodes (q_selector_set_succ h x) = chain_nodes h ++ chain_nodes x
  | .mk a d none, x => by
    simp [q_selector_set_succ, chain_nodes_mk_none, chain_nodes_mk_some]
  | .mk a d (some s), x => by
    have ih := chain_nodes_set_succ s x
    simp [q_selector_set_succ, chain_nodes_mk_some, ih]

theorem last_set_succ : ∀ (h x : Selector), (q_selector_set_succ h x).last = x.last
  | .mk a d none, x => by simp [q_selector_set_succ, Selector.last]
  | .mk a d (some s), x => by
    have ih := last_set_succ s x
    simp [q_selector_set_succ, Selector.last, ih]

theorem last_succ : ∀ (s : Selector), q_selector_succ s.last = none
  | .mk a d none => by simp [Selector.last, q_selector_succ]
  | .mk a d (some s) => by
    have ih := last_succ s
    simp [Selector.last, ih]

theorem chain_nodes_foldl_class (ns : List (List Nat)) : ∀ (h : Selector),
    chain_nodes (ns.foldl (fun s m => q_selector_set_succ s (class_selector m)) h)
      = chain_nodes h ++ ns.map (fun n => ([Check.ClassCheck [VALUE.Symbol n]], false)) := by
  induction ns with
  | nil => intro h; simp
  | cons n ns ih =>
    intro h
    simp only [List.foldl_cons, ih, chain_nodes_set_succ, List.map_cons, List.append_assoc]
    simp [class_selector, chain_nodes_mk_none]

theorem last_foldl_class (ns : List (List Nat)) : ∀ (h : Selector),
    q_selector_is_direct h.last = false →
    q_selector_is_direct
      (ns.foldl (fun s m => q_selector_set_succ s (class_selector m)) h).last = false := by
  induction ns with
  | nil => intro h hh; simpa using hh
  | cons n ns ih =>
    intro h _
    simp only [List.foldl_cons]
    apply ih
    simp [last_set_succ, class_selector, Selector.last, q_selector_is_direct]

/-- C1: a non-empty list of valid names joined by single spaces parses to a chain
with one selector per name, in input order; the i-th selector has the single
check `ClassCheck{[n_i]}` and `direct = false`, and the last one has no
successor. -/
theorem C1_names_chain (names : List (List Nat)) (fuel : Nat)
    (hne : names ≠ []) (hv : ∀ n ∈ names, valid_name n)
    (hf : (join_with 32 names).length < fuel) :
    ∃ chain, q_rb_parse_selector fuel (join_with 32 names)
        = Result.ok chain (q_parser_destroy (q_parser_init [] 0))
      ∧ chain_nodes chain = names.map (fun n => ([Check.ClassCheck [VALUE.Symbol n]], false))
      ∧ chain.toList.length = names.length
      ∧ q_selector_succ chain.last = none := by
  cases names with
  | nil => exact absurd rfl hne
  | cons n ns =>
    have hn := hv n (by simp)
    have hv2 : ∀ m ∈ ns, valid_name m := fun m hm => hv m (by simp [hm])
    have hf2 : (join_with 32 ns).length < fuel := by
      rw [join_with_cons] at hf
      by_cases h : ns = []
      · subst h; simp [join_with]; omega
      · simp only [h, if_false, List.length_append, List.length_cons] at hf; omega
    have hl := (join_with_length 32 ns).1
    have hl2 : (join_with 32 ns).length + 1 ≤ (join_with 32 (n :: ns)).length := by
      have h0 : n.length ≠ 0 := by
        intro h; exact hn.1 (List.length_eq_zero.mp h)
      rw [join_with_cons]
      by_cases h : ns = []
      · subst h; simp [join_with]; omega
      · simp only [h, if_false, List.length_append, List.length_cons]; omega
    obtain ⟨p1, h1⟩ := q_read_selector_joined fuel [] n ns hn hv2 hf
    have hws : next_byte (join_with 32 ns) ∉ whitespace := by
      by_cases h : ns = []
      · subst h; simp [join_with, whitespace]
      · have := join_with_next 32 ns [] hv2 h
        simp only [List.append_nil] at this
        exact not_boundary_not_whitespace _ this.2
    obtain ⟨p2, h2⟩ := q_rb_parser_run_loop_joined fuel ns hv2 hf2 fuel p1 (class_selector n)
      (by omega)
    have hd := last_foldl_class ns (class_selector n)
      (by simp [class_selector, Selector.last, q_selector_is_direct])
    have hnodes := chain_nodes_foldl_class ns (class_selector n)
    refine ⟨ns.foldl (fun s m => q_selector_set_succ s (class_selector m)) (class_selector n),
      ?_, ?_, ?_, last_succ _⟩
    · simp only [q_rb_parse_selector, q_parser_init_cursor, q_rb_parser_run, h1, Result.andThen_ok,
        q_skip_whitespace_none fuel p1 _ [] (by omega) hws, h2, q_eos_cursor, hd]
      simp [q_parser_destroy]
    · rw [hnodes]
      simp [class_selector, chain_nodes_mk_none]
    · have := congrArg List.length hnodes
      simp only [chain_nodes, List.length_map, List.length_append] at this
      rw [this]
      simp [class_selector, Selector.toList]; omega

/-- C1 at the input `Button Label`. -/
theorem C1_names_chain_witness :
    ∃ chain, q_rb_parse_selector 20 (join_with 32 [bytes "Button", bytes "Label"])
        = Result.ok chain (q_parser_destroy (q_parser_init [] 0))
      ∧ chain_nodes chain
          = [bytes "Button", bytes "Label"].map
              (fun n => ([Check.ClassCheck [VALUE.Symbol n]], false))
      ∧ chain.toList.length = [bytes "Button", bytes "Label"].length
      ∧ q_selector_succ chain.last = none :=
  C1_names_chain [bytes "Button", bytes "Label"] 20 (by decide) (by decide) (by decide)

theorem next_after_whitespace (w t : List Nat) (hw : whitespace_run w) :
    next_byte (w ++ t) = next_byte t ∨ next_byte (w ++ t) ∈ whitespace := by
  cases w with
  | nil => exact Or.inl rfl
  | cons c w => exact Or.inr (by simpa using hw c (by simp))

/-- A class name followed by whitespace and possibly `>`: the selector
`q_read_selector` returns and where it stops. -/
theorem q_read_selector_class (fuel : Nat) (pre n w : List Nat) (d : Bool) (t : List Nat)
    (hn : valid_name n) (hw : whitespace_run w)
    (hd : d = false → w = [] → t = [] ∨ next_byte t ∈ selector_stop)
    (hd2 : d = false → next_byte t ∉ whitespace ∧ next_byte t ≠ 62)
    (hf : (n ++ (w ++ (direct_text d ++ t))).length < fuel) :
    q_read_selector fuel (cursor pre (n ++ (w ++ (direct_text d ++ t))) [])
      = Result.ok (some (Selector.mk [Check.ClassCheck [VALUE.Symbol n]] d none))
          (cursor (pre ++ (n ++ (w ++ direct_text d))) t []) := by
  have hu : (w ++ (direct_text d ++ t)) = [] ∨
      next_byte (w ++ (direct_text d ++ t)) ∈ whitespace ∨
      next_byte (w ++ (direct_text d ++ t)) = 62 ∨
      next_byte (w ++ (direct_text d ++ t)) ∈ selector_stop := by
    rcases next_after_whitespace w (direct_text d ++ t) hw with h | h
    · cases d with
      | true => right; right; left; rw [h]; simp [direct_text]
      | false =>
        cases w with
        | nil =>
          rcases hd rfl rfl with h2 | h2
          · left; simp [direct_text, h2]
          · right; right; right; simpa [direct_text] using h2
        | cons c w => right; left; simpa using hw c (by simp)
    · exact Or.inr (Or.inl h)
  have hu1 : name_end (w ++ (direct_text d ++ t)) := by
    rcases hu with h | h
    · exact Or.inl h
    · refine Or.inr ?_
      simp only [whitespace, selector_stop, List.mem_cons, List.mem_singleton, List.not_mem_nil,
        or_false] at h
      simp only [name_boundary, List.mem_cons, List.mem_singleton, List.not_mem_nil, or_false]
      omega
  have hu2 : next_byte (w ++ (direct_text d ++ t)) ≠ 91 ∧
      next_byte (w ++ (direct_text d ++ t)) ≠ 35 := by
    rcases hu with h | h
    · rw [h]; simp
    · simp only [whitespace, selector_stop, List.mem_cons, List.mem_singleton, List.not_mem_nil,
        or_false] at h
      omega
  have hnl : n.length < fuel := by
    simp only [List.length_append] at hf; omega
  have ht := q_read_selector_tail_cursor fuel (pre ++ n) none [] w d t
    [Check.ClassCheck [VALUE.Symbol n]] (by simp) (by simp) hw hu1 hu2.1 hu2.2 hd2
    (by simp only [id_text, attr_text, List.nil_append]
        simp only [List.length_append] at hf ⊢; omega)
  simp only [id_text, attr_text, List.nil_append, Option.map_none', Option.toList_none,
    List.map_nil, List.append_nil] at ht
  rw [q_read_selector_named fuel pre n _ hn hu1 hnl, ht]
  simp

/-- C2: two valid names around `>` (with optional whitespace on both sides)
parse to a chain of two selectors, the first direct with the second as its
successor, the second not direct and without successor. -/
theorem C2_direct_pair (fuel : Nat) (a w1 w2 b : List Nat)
    (ha : valid_name a) (hb : valid_name b)
    (hw1 : whitespace_run w1) (hw2 : whitespace_run w2)
    (hf : (a ++ w1 ++ [62] ++ w2 ++ b).length < fuel) :
    q_rb_parse_selector fuel (a ++ w1 ++ [62] ++ w2 ++ b)
      = Result.ok
          (Selector.mk [Check.ClassCheck [VALUE.Symbol a]] true
            (some (Selector.mk [Check.ClassCheck [VALUE.Symbol b]] false none)))
          (q_parser_destroy (q_parser_init [] 0)) := by
  have hin : a ++ w1 ++ [62] ++ w2 ++ b = a ++ (w1 ++ (direct_text true ++ (w2 ++ b))) := by
    simp [direct_text]
  rw [hin] at hf ⊢
  have hlen : a.length + w1.length + 1 + w2.length + b.length < fuel := by
    simp [direct_text] at hf; omega
  have hb0 : b.length ≠ 0 := fun h => hb.1 (List.length_eq_zero.mp h)
  have h1 := q_read_selector_class fuel [] a w1 true (w2 ++ b) ha hw1 (by simp) (by simp) hf
  have hbn := valid_name_next b [] hb
  simp only [List.append_nil] at hbn
  have hbws := not_boundary_not_whitespace _ hbn.2
  have hb2 := q_read_selector_class fuel ([] ++ (a ++ (w1 ++ direct_text true)) ++ w2) b [] false []
    hb (by simp [whitespace_run]) (by simp) (by simp [whitespace])
    (by simp [direct_text]; omega)
  simp only [direct_text, Bool.false_eq_true, if_false, List.append_nil, List.nil_append] at hb2
  have hbne : b ≠ [] := hb.1
  obtain ⟨k, hk⟩ : ∃ k, fuel = k + 2 := ⟨fuel - 2, by omega⟩
  simp only [q_rb_parse_selector, q_parser_init_cursor, q_rb_parser_run, h1, Result.andThen_ok,
    q_skip_whitespace_cursor fuel _ w2 b [] hw2 (by omega) hbws]
  rw [hk, q_rb_parser_run_loop, ← hk]
  simp only [q_eos_cursor, hbne, decide_False, Bool.not_false, if_true, List.nil_append] at hb2 ⊢
  simp only [direct_text, if_true] at hb2 ⊢
  rw [hb2]
  simp only [Result.andThen_ok, q_skip_whitespace_none fuel _ [] [] (by omega)
    (by simp [whitespace])]
  simp [q_rb_parser_run_loop, q_eos_cursor, q_selector_set_succ, Selector.last, q_parser_destroy]

/-- C2 at the input `View > Button`. -/
theorem C2_direct_pair_witness :
    q_rb_parse_selector 20 (bytes "View" ++ bytes " " ++ [62] ++ bytes " " ++ bytes "Button")
      = Result.ok
          (Selector.mk [Check.ClassCheck [VALUE.Symbol (bytes "View")]] true
            (some (Selector.mk [Check.ClassCheck [VALUE.Symbol (bytes "Button")]] false none)))
          (q_parser_destroy (q_parser_init [] 0)) :=
  C2_direct_pair 20 (bytes "View") (bytes " ") (bytes " ") (bytes "Button")
    (by decide) (by decide) (by decide) (by decide) (by decide)

theorem Result.andThen_eq_ok {α β : Type} (r : Result α) (f : α → qparser_t → Result β)
    (v : β) (p : qparser_t) :
    r.andThen f = Result.ok v p ↔ ∃ v1 p1, r = Result.ok v1 p1 ∧ f v1 p1 = Result.ok v p := by
  cases r with
  | ok v1 p1 =>
    constructor
    · intro h; exact ⟨v1, p1, rfl, h⟩
    · rintro ⟨v2, p2, h1, h2⟩
      cases h1; exact h2
  | raised e => simp
  | no_fuel => simp

/-- The two checks at the end of `q_rb_parser_run`: a returned chain has its last
selector not direct and the cursor at the end of the input. -/
theorem q_rb_parser_run_ok (fuel : Nat) (parser : qparser_t) (chain : Selector) (p : qparser_t)
    (h : q_rb_parser_run fuel parser = Result.ok chain p) :
    q_selector_is_direct chain.last = false ∧ q_eos p = true := by
  simp only [q_rb_parser_run, Result.andThen_eq_ok] at h
  obtain ⟨s1, p1, _, h⟩ := h
  cases s1 with
  | none => simp at h
  | some s1 =>
    simp only [Result.andThen_eq_ok] at h
    obtain ⟨_, p2, _, s3, p3, _, h⟩ := h
    have hl := last_succ s3
    by_cases he : q_eos p3 = true
    · by_cases hd : q_selector_is_direct s3.last = true
      · simp [he, hd, hl] at h
      · simp only [he, hd, hl] at h
        simp at h
        obtain ⟨h1, h2⟩ := h
        subst h1; subst h2
        exact ⟨by simpa using hd, he⟩
    · simp [he] at h

theorem q_rb_parse_selector_ok (fuel : Nat) (s : List Nat) (chain : Selector) (p : qparser_t)
    (h : q_rb_parse_selector fuel s = Result.ok chain p) :
    ∃ p', q_rb_parser_run fuel (q_parser_init s s.length) = Result.ok chain p' := by
  unfold q_rb_parse_selector at h
  split at h
  · rename_i sel p' heq
    simp at h
    exact ⟨p', by rw [heq, h.1]⟩
  · simp at h
  · simp at h

/-- C3: whenever parse returns a chain, the last selector of the chain (the one
without successor) has `direct = false`. -/
theorem C3_last_not_direct (fuel : Nat) (s : List Nat) (chain : Selector) (p : qparser_t)
    (h : q_rb_parse_selector fuel s = Result.ok chain p) :
    q_selector_succ chain.last = none ∧ q_selector_is_direct chain.last = false := by
  obtain ⟨p', h'⟩ := q_rb_parse_selector_ok fuel s chain p h
  exact ⟨last_succ chain, (q_rb_parser_run_ok fuel _ chain p' h').1⟩

/-- C3 at the input `View > Button`. -/
theorem C3_last_not_direct_witness :
    q_rb_parse_selector 20 (bytes "View > Button")
        = Result.ok
          (Selector.mk [Check.ClassCheck [VALUE.Symbol (bytes "View")]] true
            (some (Selector.mk [Check.ClassCheck [VALUE.Symbol (bytes "Button")]] false none)))
          (q_parser_destroy (q_parser_init [] 0))
      ∧ q_selector_succ
        (Selector.mk [Check.ClassCheck [VALUE.Symbol (bytes "View")]] true
          (some (Selector.mk [Check.ClassCheck [VALUE.Symbol (bytes "Button")]] false
            none))).last = none
      ∧ q_selector_is_direct
        (Selector.mk [Check.ClassCheck [VALUE.Symbol (bytes "View")]] true
          (some (Selector.mk [Check.ClassCheck [VALUE.Symbol (bytes "Button")]] false
            none))).last = false :=
  ⟨rfl, C3_last_not_direct 20 (bytes "View > Button") _ (q_parser_destroy (q_parser_init [] 0)) rfl⟩

/-- C4: a valid name followed by `>` (with optional whitespace around it) and
nothing else fails with the DanglingDirectReference error. -/
theorem C4_dangling_direct (fuel : Nat) (n w1 w2 : List Nat)
    (hn : valid_name n) (hw1 : whitespace_run w1) (hw2 : whitespace_run w2)
    (hf : (n ++ w1 ++ [62] ++ w2).length < fuel) :
    q_rb_parse_selector fuel (n ++ w1 ++ [62] ++ w2)
        = Result.raised Err.DanglingDirectReference
      ∧ Err.DanglingDirectReference.message = "No selector following direct reference (>)" := by
  refine ⟨?_, rfl⟩
  have hin : n ++ w1 ++ [62] ++ w2 = n ++ (w1 ++ (direct_text true ++ (w2 ++ []))) := by
    simp [direct_text]
  rw [hin] at hf ⊢
  have hlen : n.length + w1.length + 1 + w2.length < fuel := by
    simp [direct_text] at hf; omega
  have h1 := q_read_selector_class fuel [] n w1 true (w2 ++ []) hn hw1 (by simp) (by simp) hf
  obtain ⟨k, hk⟩ : ∃ k, fuel = k + 1 := ⟨fuel - 1, by omega⟩
  simp only [q_rb_parse_selector, q_parser_init_cursor, q_rb_parser_run, h1, Result.andThen_ok,
    q_skip_whitespace_cursor fuel _ w2 [] [] hw2 (by omega) (by simp [whitespace])]
  rw [hk, q_rb_parser_run_loop, ← hk]
  simp [q_eos_cursor, Selector.last]

/-- C4 at the input `Button >`. -/
theorem C4_dangling_direct_witness :
    q_rb_parse_selector 20 (bytes "Button" ++ bytes " " ++ [62] ++ [])
        = Result.raised Err.DanglingDirectReference
      ∧ Err.DanglingDirectReference.message = "No selector following direct reference (>)" :=
  C4_dangling_direct 20 (bytes "Button") (bytes " ") [] (by decide) (by decide) (by decide)
    (by decide)

/-- C6: an input that is empty or all whitespace, or whose first non-whitespace
byte is one of `" | > ! = < - ) ]`, fails with the UnparsableSelector error. -/
theorem C6_unparsable (fuel : Nat) (w t : List Nat) (hw : whitespace_run w)
    (ht : t = [] ∨ next_byte t ∈ selector_stop) (hf : w.length < fuel) :
    q_rb_parse_selector fuel (w ++ t) = Result.raised Err.UnparsableSelector
      ∧ Err.UnparsableSelector.message = "Unable to parse selector string" := by
  refine ⟨?_, rfl⟩
  simp only [q_rb_parse_selector, q_parser_init_cursor, q_rb_parser_run,
    q_read_selector_none fuel [] w t [] hw ht hf, Result.andThen_ok]

/-- C6 at the inputs of two spaces and of ` =x`. -/
theorem C6_unparsable_witness :
    (q_rb_parse_selector 5 (bytes "  " ++ []) = Result.raised Err.UnparsableSelector
      ∧ Err.UnparsableSelector.message = "Unable to parse selector string")
    ∧ (q_rb_parse_selector 5 (bytes " " ++ bytes "=x") = Result.raised Err.UnparsableSelector
      ∧ Err.UnparsableSelector.message = "Unable to parse selector string") :=
  ⟨C6_unparsable 5 (bytes "  ") [] (by decide) (by decide) (by decide),
   C6_unparsable 5 (bytes " ") (bytes "=x") (by decide) (by decide) (by decide)⟩

theorem Post.ok {α : Type} {Q : α → qparser_t → Prop} {v : α} {p : qparser_t} (h : Q v p) :
    Post (Result.ok v p) Q := by
  constructor
  intro v' p' h'
  cases h'
  exact h

theorem Post.raised {α : Type} (Q : α → qparser_t → Prop) (e : Err) :
    Post (Result.raised e : Result α) Q := by
  constructor
  intro v' p' h'; cases h'

theorem Post.no_fuel {α : Type} (Q : α → qparser_t → Prop) :
    Post (Result.no_fuel : Result α) Q := by
  constructor
  intro v' p' h'; cases h'

theorem Post.andThen {α β : Type} {r : Result α} {f : α → qparser_t → Result β}
    {R : α → qparser_t → Prop} {Q : β → qparser_t → Prop}
    (h1 : Post r R) (h2 : ∀ v p, R v p → Post (f v p) Q) : Post (r.andThen f) Q := by
  constructor
  intro v p h
  rw [Result.andThen_eq_ok] at h
  obtain ⟨v1, p1, hr, hf⟩ := h
  exact (h2 v1 p1 (h1.out v1 p1 hr)).out v p hf

theorem Post.ite {α : Type} {Q : α → qparser_t → Prop} {c : Prop} [Decidable c]
    {a b : Result α} (ha : Post a Q) (hb : Post b Q) : Post (if c then a else b) Q := by
  split
  · exact ha
  · exact hb

theorem Post.mono {α : Type} {r : Result α} {Q1 Q : α → qparser_t → Prop}
    (h1 : Post r Q1) (h2 : ∀ v p, Q1 v p → Q v p) : Post r Q :=
  ⟨fun v p h => h2 v p (h1.out v p h)⟩

theorem same_input.refl (p : qparser_t) : same_input p p := ⟨rfl, rfl⟩

theorem same_input.trans {p p1 p2 : qparser_t} (h1 : same_input p p1) (h2 : same_input p1 p2) :
    same_input p p2 := ⟨h2.1.trans h1.1, h2.2.trans h1.2⟩

theorem q_read_same (p : qparser_t) (add : Bool) : same_input p (q_read p add).2 := by
  unfold q_read same_input
  simp only []
  split
  · split <;> simp
  · simp

theorem q_accept_same (p : qparser_t) (chars : qchars_t) (add : Bool) :
    same_input p (q_accept p chars add).2 := by
  unfold q_accept
  split
  · exact q_read_same p add
  · exact same_input.refl p

theorem q_clear_buf_same (p : qparser_t) : same_input p (q_clear_buf p) := ⟨rfl, rfl⟩

theorem Keeps.of_same {α : Type} {p p1 : qparser_t} {r : Result α}
    (h : same_input p p1) (h1 : Keeps p1 r) : Keeps p r :=
  Post.mono h1 fun _ _ h2 => same_input.trans h h2

theorem q_accept_run_loop_keeps (chars : qchars_t) (add : Bool) :
    ∀ (n : Nat) (p : qparser_t) (accepted : Nat),
      Keeps p (q_accept_run_loop chars add n p accepted) := by
  intro n
  induction n with
  | zero => intro p accepted; exact Post.no_fuel _
  | succ n ih =>
    intro p accepted
    simp only [q_accept_run_loop]
    apply Post.ite
    · exact Keeps.of_same (q_accept_same _ _ _) (ih _ _)
    · exact Post.ok (q_accept_same _ _ _)

theorem q_accept_until_loop_keeps (chars : qchars_t) (add : Bool) :
    ∀ (n : Nat) (p : qparser_t) (accepted : Nat),
      Keeps p (q_accept_until_loop chars add n p accepted) := by
  intro n
  induction n with
  | zero => intro p accepted; exact Post.no_fuel _
  | succ n ih =>
    intro p accepted
    simp only [q_accept_until_loop]
    apply Post.ite
    · exact Keeps.of_same (q_read_same _ _) (ih _ _)
    · exact Post.ok (same_input.refl _)

theorem q_skip_whitespace_keeps (fuel : Nat) : ∀ (p : qparser_t),
    Keeps p (q_skip_whitespace fuel p) := by
  unfold q_skip_whitespace
  induction fuel with
  | zero => intro p; exact Post.no_fuel _
  | succ n ih =>
    intro p
    simp only [q_skip_whitespace_loop]
    apply Post.ite
    · exact Keeps.of_same (q_read_same _ _) (ih _)
    · exact Post.ok (same_input.refl _)

theorem q_read_name_keeps (fuel : Nat) (p : qparser_t) (as_symbol : Bool) :
    Keeps p (q_read_name fuel p as_symbol) := by
  unfold q_read_name
  apply Post.andThen (q_accept_until_loop_keeps _ _ _ _ _)
  intro v p1 h1
  apply Post.ite
  · exact Post.ok (same_input.trans h1 (q_clear_buf_same _))
  · exact Post.ok h1

theorem same_input.accept {p p1 : qparser_t} (h : same_input p p1) (chars : qchars_t)
    (add : Bool) : same_input p (q_accept p1 chars add).2 :=
  same_input.trans h (q_accept_same _ _ _)

theorem same_input.read {p p1 : qparser_t} (h : same_input p p1) (add : Bool) :
    same_input p (q_read p1 add).2 :=
  same_input.trans h (q_read_same _ _)

theorem same_input.clear {p p1 : qparser_t} (h : same_input p p1) :
    same_input p (q_clear_buf p1) :=
  same_input.trans h (q_clear_buf_same _)

theorem q_accept_run_keeps (fuel : Nat) (p : qparser_t) (chars : qchars_t) (add : Bool) :
    Keeps p (q_accept_run fuel p chars add) :=
  q_accept_run_loop_keeps _ _ _ _ _

theorem q_accept_until_keeps (fuel : Nat) (p : qparser_t) (chars : qchars_t) (add : Bool) :
    Keeps p (q_accept_until fuel p chars add) :=
  q_accept_until_loop_keeps _ _ _ _ _

theorem q_read_string_loop_keeps (fuel : Nat) : ∀ (n : Nat) (p : qparser_t),
    Keeps p (q_read_string_loop fuel n p) := by
  intro n
  induction n with
  | zero => intro p; exact Post.no_fuel _
  | succ n ih =>
    intro p
    simp only [q_read_string_loop]
    apply Post.andThen (q_accept_until_keeps _ _ _ _)
    intro _ p1 h1
    apply Post.ite
    · exact Keeps.of_same ((h1.accept _ _).read _) (ih _)
    · exact Post.ok (h1.accept _ _)

theorem q_read_string_keeps (fuel : Nat) (p : qparser_t) : Keeps p (q_read_string fuel p) := by
  unfold q_read_string
  apply Post.ite
  · apply Post.andThen (Keeps.of_same (q_accept_same _ _ _) (q_read_string_loop_keeps _ _ _))
    intro _ p1 h1
    apply Post.ite
    · exact Post.ok ((h1.accept _ _).clear)
    · exact Post.raised _ _
  · exact Post.ok (q_accept_same _ _ _)

theorem q_read_number_keeps (fuel : Nat) (p : qparser_t) : Keeps p (q_read_number fuel p) := by
  unfold q_read_number
  apply Post.andThen (q_accept_run_keeps _ _ _ _)
  intro _ p1 h1
  apply Post.ite
  · apply Post.andThen (R := fun _ p' => same_input p p')
    · apply Post.ite
      · apply Post.andThen (Keeps.of_same (h1.accept _ _) (q_accept_run_keeps _ _ _ _))
        intro _ p2 h2
        apply Post.ite
        · exact Post.raised _ _
        · exact Post.ok h2
      · exact Post.ok (h1.accept _ _)
    · intro _ p2 h2
      apply Post.andThen (R := fun _ p' => same_input p p')
      · apply Post.ite
        · apply Post.andThen
            (Keeps.of_same ((h2.accept _ _).accept _ _) (q_accept_run_keeps _ _ _ _))
          intro _ p3 h3
          apply Post.ite
          · exact Post.raised _ _
          · exact Post.ok h3
        · exact Post.ok (h2.accept _ _)
      · intro _ p3 h3
        exact Post.ok (same_input.trans h3 ⟨rfl, rfl⟩)
  · exact Post.ok h1

theorem q_read_operator_keeps (p : qparser_t) : Keeps p (q_read_operator p) := by
  have h0 := same_input.refl p
  unfold q_read_operator
  apply Post.andThen (R := fun _ p' => same_input p p')
  · apply Post.ite
    · apply Post.ite
      · exact Post.raised _ _
      · exact Post.ok ((h0.accept _ _).accept _ _)
    · apply Post.ite
      · exact Post.ok ((h0.accept _ _).accept _ _)
      · apply Post.ite
        · apply Post.ite
          · exact Post.ok ((((h0.accept _ _).accept _ _).accept _ _).accept _ _)
          · exact Post.ok ((((h0.accept _ _).accept _ _).accept _ _).accept _ _)
        · apply Post.ite
          · apply Post.ite
            · exact Post.ok
                (((((h0.accept _ _).accept _ _).accept _ _).accept _ _).accept _ _)
            · apply Post.ite
              · exact Post.ok
                  ((((((h0.accept _ _).accept _ _).accept _ _).accept _ _).accept _ _).accept _ _)
              · exact Post.ok
                  ((((((h0.accept _ _).accept _ _).accept _ _).accept _ _).accept _ _).accept _ _)
          · exact Post.ok ((((h0.accept _ _).accept _ _).accept _ _).accept _ _)
  · intro _ p1 h1
    apply Post.ite
    · exact Post.raised _ _
    · exact Post.ok h1

theorem q_read_attribute_operation_keeps (fuel : Nat) (p : qparser_t) :
    Keeps p (q_read_attribute_operation fuel p) := by
  unfold q_read_attribute_operation
  apply Post.ite
  · exact Post.ok (q_accept_same _ _ _)
  · apply Post.andThen (Keeps.of_same (q_accept_same _ _ _) (q_read_operator_keeps _))
    intro operator p1 h1
    cases operator with
    | none => exact Post.raised _ _
    | some operator =>
      apply Post.andThen (Keeps.of_same h1 (q_skip_whitespace_keeps _ _))
      intro _ p2 h2
      apply Post.andThen (Keeps.of_same h2 (q_read_string_keeps _ _))
      intro _ p3 h3
      apply Post.andThen (R := fun _ p' => same_input p p')
      · apply Post.ite
        · apply Post.andThen (Keeps.of_same h3 (q_read_number_keeps _ _))
          intro _ p4 h4
          apply Post.ite
          · exact Keeps.of_same h4 (q_read_name_keeps _ _ _)
          · exact Post.ok h4
        · exact Post.ok h3
      · intro _ p4 h4
        apply Post.ite
        · exact Post.raised _ _
        · apply Post.andThen (Keeps.of_same h4 (q_skip_whitespace_keeps _ _))
          intro _ p5 h5
          apply Post.ite
          · exact Post.ok (h5.accept _ _)
          · exact Post.raised _ _

theorem q_read_attribute_keeps (fuel : Nat) (p : qparser_t) :
    Keeps p (q_read_attribute fuel p) := by
  unfold q_read_attribute
  apply Post.ite
  · apply Post.andThen (Keeps.of_same (q_accept_same _ _ _) (q_skip_whitespace_keeps _ _))
    intro _ p1 h1
    apply Post.andThen (R := fun _ p' => same_input p p')
    · apply Post.ite
      · exact Keeps.of_same (h1.accept _ _) (q_skip_whitespace_keeps _ _)
      · exact Post.ok (h1.accept _ _)
    · intro _ p2 h2
      apply Post.andThen (Keeps.of_same h2 (q_read_name_keeps _ _ _))
      intro _ p3 h3
      apply Post.andThen (Keeps.of_same h3 (q_skip_whitespace_keeps _ _))
      intro _ p4 h4
      apply Post.andThen (Keeps.of_same h4 (q_read_attribute_operation_keeps _ _))
      intro _ p5 h5
      exact Post.ok h5
  · exact Post.ok (q_accept_same _ _ _)

theorem q_read_multi_class_tag_loop_keeps (fuel : Nat) :
    ∀ (n : Nat) (p : qparser_t) (names : List VALUE),
      Keeps p (q_read_multi_class_tag_loop fuel n p names) := by
  intro n
  induction n with
  | zero => intro p names; exact Post.no_fuel _
  | succ n ih =>
    intro p names
    simp only [q_read_multi_class_tag_loop]
    apply Post.andThen (q_read_name_keeps _ _ _)
    intro _ p1 h1
    apply Post.ite
    · apply Post.andThen (Keeps.of_same h1 (q_skip_whitespace_keeps _ _))
      intro _ p2 h2
      apply Post.ite
      · exact Post.ok (h2.accept _ _)
      · exact Keeps.of_same (h2.accept _ _) (ih _ _)
    · exact Post.ok h1

theorem q_read_multi_class_tag_keeps (fuel : Nat) (p : qparser_t) :
    Keeps p (q_read_multi_class_tag fuel p) := by
  unfold q_read_multi_class_tag
  apply Post.ite
  · apply Post.andThen (Keeps.of_same (q_accept_same _ _ _) (q_skip_whitespace_keeps _ _))
    intro _ p1 h1
    apply Post.andThen (Keeps.of_same h1 (q_read_multi_class_tag_loop_keeps _ _ _ _))
    intro _ p2 h2
    apply Post.andThen (Keeps.of_same h2 (q_skip_whitespace_keeps _ _))
    intro _ p3 h3
    apply Post.ite
    · apply Post.ite
      · exact Post.raised _ _
      · exact Post.ok (h3.accept _ _)
    · exact Post.raised _ _
  · exact Post.ok (q_accept_same _ _ _)

theorem q_read_single_class_tag_keeps (fuel : Nat) (p : qparser_t) :
    Keeps p (q_read_single_class_tag fuel p) := by
  unfold q_read_single_class_tag
  apply Post.andThen (q_read_name_keeps _ _ _)
  intro _ p1 h1
  apply Post.ite
  · exact Post.ok h1
  · exact Post.ok h1

theorem q_read_id_tag_keeps (fuel : Nat) (p : qparser_t) : Keeps p (q_read_id_tag fuel p) := by
  unfold q_read_id_tag
  apply Post.ite
  · apply Post.andThen (Keeps.of_same (q_accept_same _ _ _) (q_read_name_keeps _ _ _))
    intro _ p1 h1
    apply Post.ite
    · exact Post.ok h1
    · exact Post.ok h1
  · exact Post.ok (q_accept_same _ _ _)

theorem q_read_selector_loop_keeps (fuel : Nat) :
    ∀ (n : Nat) (p : qparser_t) (attributes_ary : List Check),
      Keeps p (q_read_selector_loop fuel n p attributes_ary) := by
  intro n
  induction n with
  | zero => intro p a; exact Post.no_fuel _
  | succ n ih =>
    intro p a
    simp only [q_read_selector_loop]
    apply Post.andThen (q_read_attribute_keeps _ _)
    intro c p1 h1
    cases c with
    | none => exact Post.ok h1
    | some c => exact Keeps.of_same h1 (ih _ _)

theorem q_read_selector_tail_keeps (fuel : Nat) (p : qparser_t) (attributes_ary : List Check) :
    Keeps p (q_read_selector_tail fuel p attributes_ary) := by
  unfold q_read_selector_tail
  apply Post.andThen (q_read_id_tag_keeps _ _)
  intro _ p1 h1
  apply Post.andThen (Keeps.of_same h1 (q_read_selector_loop_keeps _ _ _ _))
  intro _ p2 h2
  apply Post.andThen (Keeps.of_same h2 (q_skip_whitespace_keeps _ _))
  intro _ p3 h3
  exact Post.ok (h3.accept _ _)

theorem q_read_selector_keeps (fuel : Nat) (p : qparser_t) :
    Keeps p (q_read_selector fuel p) := by
  rw [q_read_selector_unfold]
  apply Post.andThen (q_skip_whitespace_keeps _ _)
  intro _ p1 h1
  apply Post.andThen (R := fun _ p' => same_input p p')
  · apply Post.ite
    · apply Post.andThen (Keeps.of_same (h1.accept _ _) (q_read_multi_class_tag_keeps _ _))
      intro _ p2 h2
      apply Post.ite
      · exact Keeps.of_same h2 (q_read_single_class_tag_keeps _ _)
      · exact Post.ok h2
    · exact Post.ok (h1.accept _ _)
  · intro _ p2 h2
    apply Post.ite
    · exact Post.ok h2
    · exact Keeps.of_same h2 (q_read_selector_tail_keeps _ _ _)

theorem q_rb_parser_run_loop_keeps (fuel : Nat) :
    ∀ (n : Nat) (p : qparser_t) (selector : Selector),
      Keeps p (q_rb_parser_run_loop fuel n p selector) := by
  intro n
  induction n with
  | zero => intro p s; exact Post.no_fuel _
  | succ n ih =>
    intro p s
    simp only [q_rb_parser_run_loop]
    apply Post.ite
    · apply Post.andThen (q_read_selector_keeps _ _)
      intro next p1 h1
      cases next with
      | none => exact Post.ok h1
      | some next =>
        apply Post.andThen (Keeps.of_same h1 (q_skip_whitespace_keeps _ _))
        intro _ p2 h2
        exact Keeps.of_same h2 (ih _ _)
    · exact Post.ok (same_input.refl _)

theorem q_rb_parser_run_keeps (fuel : Nat) (p : qparser_t) :
    Keeps p (q_rb_parser_run fuel p) := by
  unfold q_rb_parser_run
  apply Post.andThen (q_read_selector_keeps _ _)
  intro selector p1 h1
  cases selector with
  | none => exact Post.raised _ _
  | some selector =>
    apply Post.andThen (Keeps.of_same h1 (q_skip_whitespace_keeps _ _))
    intro _ p2 h2
    apply Post.andThen (Keeps.of_same h2 (q_rb_parser_run_loop_keeps _ _ _ _))
    intro _ p3 h3
    apply Post.ite
    · exact Post.raised _ _
    · apply Post.ite
      · exact Post.raised _ _
      · exact Post.ok h3

/-- C5: parse returns a chain only with the cursor at or past the end of the
input it was given; and a valid name, a space and then one of the bytes
`" | ! = < - ) ]` (followed by anything) fails with the IncompleteParse
error. -/
theorem C5_incomplete_parse (fuel1 : Nat) (s : List Nat) (chain : Selector) (p : qparser_t)
    (fuel2 : Nat) (n : List Nat) (c : Nat) (r : List Nat)
    (h : q_rb_parse_selector fuel1 s = Result.ok chain p)
    (hn : valid_name n) (hc : c ∈ trailing_garbage)
    (hf : (n ++ [32] ++ [c] ++ r).length < fuel2) :
    (∃ p', q_rb_parser_run fuel1 (q_parser_init s s.length) = Result.ok chain p'
        ∧ p'.chars = s ∧ p'.length = s.length ∧ p'.index ≥ s.length)
      ∧ q_rb_parse_selector fuel2 (n ++ [32] ++ [c] ++ r) = Result.raised Err.IncompleteParse
      ∧ Err.IncompleteParse.message = "Unable to completely parse selector string" := by
  refine ⟨?_, ?_, rfl⟩
  · obtain ⟨p', h'⟩ := q_rb_parse_selector_ok fuel1 s chain p h
    have hk := (q_rb_parser_run_keeps fuel1 _).out chain p' h'
    have he := (q_rb_parser_run_ok fuel1 _ chain p' h').2
    simp only [q_eos, decide_eq_true_eq] at he
    simp only [same_input, q_parser_init] at hk
    exact ⟨p', h', hk.1, hk.2, by omega⟩
  · have hin : n ++ [32] ++ [c] ++ r = n ++ ([32] ++ (direct_text false ++ (c :: r))) := by
      simp [direct_text]
    rw [hin] at hf ⊢
    have hlen : n.length + 1 + 1 + r.length < fuel2 := by
      simp [direct_text] at hf; omega
    have hc2 := hc
    simp only [trailing_garbage, List.mem_cons, List.mem_singleton, List.not_mem_nil,
      or_false] at hc2
    have hcs : c ∈ selector_stop := by
      simp only [selector_stop, List.mem_cons, List.mem_singleton, List.not_mem_nil, or_false]
      omega
    have hcw : c ∉ whitespace := by
      simp only [whitespace, List.mem_cons, List.mem_singleton, List.not_mem_nil, or_false]
      omega
    have h1 := q_read_selector_class fuel2 [] n [32] false (c :: r) hn
      (by simp [whitespace_run, whitespace]) (by simp)
      (fun _ => ⟨by simpa using hcw, by simp; omega⟩) hf
    have h2 := q_read_selector_none fuel2 ([] ++ (n ++ ([32] ++ direct_text false))) [] (c :: r) []
      (by simp [whitespace_run]) (Or.inr (by simpa using hcs)) (by simp; omega)
    obtain ⟨k, hk⟩ : ∃ k, fuel2 = k + 1 := ⟨fuel2 - 1, by omega⟩
    simp only [direct_text, Bool.false_eq_true, if_false, List.append_nil, List.nil_append]
      at h1 h2 ⊢
    simp only [q_rb_parse_selector, q_parser_init_cursor, q_rb_parser_run, h1, Result.andThen_ok,
      q_skip_whitespace_none fuel2 _ (c :: r) [] (by omega) (by simpa using hcw)]
    rw [hk, q_rb_parser_run_loop, ← hk]
    simp only [q_eos_cursor, h2]
    simp [q_eos_cursor]

/-- C5 at the parse of `Button` and at the input `Button =x`. -/
theorem C5_incomplete_parse_witness :
    (∃ p', q_rb_parser_run 20 (q_parser_init (bytes "Button") (bytes "Button").length)
          = Result.ok (class_selector (bytes "Button")) p'
        ∧ p'.chars = bytes "Button" ∧ p'.length = (bytes "Button").length
        ∧ p'.index ≥ (bytes "Button").length)
      ∧ q_rb_parse_selector 20 (bytes "Button" ++ [32] ++ [61] ++ bytes "x")
          = Result.raised Err.IncompleteParse
      ∧ Err.IncompleteParse.message = "Unable to completely parse selector string" :=
  C5_incomplete_parse 20 (bytes "Button") (class_selector (bytes "Button"))
    (q_parser_destroy (q_parser_init [] 0)) 20 (bytes "Button") 61 (bytes "x")
    rfl (by decide) (by decide) (by decide)

theorem q_read_multi_class_tag_loop_names (fuel : Nat) (names : List (List Nat))
    (hne : names ≠ []) (hv : ∀ n ∈ names, valid_name n ∧ n.length < fuel) :
    ∀ (k : Nat) (pre t : List Nat) (acc : List VALUE), names.length < k →
      name_end t → next_byte t ∉ whitespace → next_byte t ≠ 124 →
      q_read_multi_class_tag_loop fuel k (cursor pre (join_with 124 names ++ t) []) acc
        = Result.ok (acc ++ names.map VALUE.Symbol)
            (cursor (pre ++ join_with 124 names) t []) := by
  induction names with
  | nil => exact absurd rfl hne
  | cons n ns ih =>
    intro k pre t acc hk ht hw hsep
    have hn := hv n (by simp)
    have hf0 : 0 < fuel := by omega
    cases k with
    | zero => simp at hk
    | succ k =>
      rw [join_with_cons]
      by_cases hns : ns = []
      · subst hns
        simp only [if_true, List.append_nil, q_read_multi_class_tag_loop, Q_AS_SYMBOL,
          q_read_name_some fuel pre n t true hn.1 ht hn.2, Result.andThen_ok, RTEST,
          q_skip_whitespace_none fuel (pre ++ n) t [] hf0 hw, Q_MULTI_TAG_SEP,
          q_accept_one_miss _ _ _ _ _ _ hsep]
        simp
      · have hv2 : ∀ m ∈ ns, valid_name m ∧ m.length < fuel := fun m hm => hv m (by simp [hm])
        have h := ih hns hv2 k (pre ++ n ++ [124]) t (acc ++ [VALUE.Symbol n])
          (by simp at hk; omega) ht hw hsep
        have he : name_end (124 :: (join_with 124 ns ++ t)) := Or.inr (by simp [name_boundary])
        have hw2 : next_byte (124 :: (join_with 124 ns ++ t)) ∉ whitespace := by
          simp [whitespace]
        simp only [hns, if_false, List.append_assoc, List.cons_append, q_read_multi_class_tag_loop,
          Q_AS_SYMBOL, q_read_name_some fuel pre n _ true hn.1 he hn.2, Result.andThen_ok, RTEST,
          q_skip_whitespace_none fuel (pre ++ n) _ [] hf0 hw2, Q_MULTI_TAG_SEP,
          Q_DO_NOT_ADD_TO_BUFFER,
          q_accept_one_hit (pre ++ n) 124 (join_with 124 ns ++ t) [] [] false (by decide)]
        simp only [if_true, bne_iff_ne, ne_eq, not_false_eq_true, reduceCtorEq, Bool.false_eq_true,
          if_false, OfNat.ofNat_ne_zero, List.append_assoc, List.singleton_append] at h ⊢
        rw [h]
        simp

/-- A multi-class tag `(n1|...|nk)` without whitespace, read by
`q_read_multi_class_tag`. -/
theorem q_read_multi_class_tag_names (fuel : Nat) (pre : List Nat) (names : List (List Nat))
    (t : List Nat) (hne : names ≠ []) (hv : ∀ n ∈ names, valid_name n)
    (hf : (join_with 124 names).length + 1 < fuel) :
    q_read_multi_class_tag fuel (cursor pre (40 :: (join_with 124 names ++ 41 :: t)) [])
      = Result.ok (some (Check.ClassCheck (names.map VALUE.Symbol)))
          (cursor (pre ++ 40 :: (join_with 124 names ++ [41])) t []) := by
  have hl := join_with_length 124 names
  have hv2 : ∀ n ∈ names, valid_name n ∧ n.length < fuel := by
    intro n hn
    have := hl.2 n hn
    exact ⟨hv n hn, by omega⟩
  have hnext := join_with_next 124 names (41 :: t) hv hne
  have hws := not_boundary_not_whitespace _ hnext.2
  have hloop := q_read_multi_class_tag_loop_names fuel names hne hv2 fuel (pre ++ [40]) (41 :: t)
    [] (by omega) (Or.inr (by simp [name_boundary])) (by simp [whitespace]) (by simp)
  have hlen : (names.map VALUE.Symbol).length ≠ 0 := by
    cases names with
    | nil => exact absurd rfl hne
    | cons => simp
  simp only [q_read_multi_class_tag, Q_START_MULTI_TAG, Q_DO_NOT_ADD_TO_BUFFER,
    q_accept_one_hit pre 40 _ [] [] false (by decide)]
  simp only [ne_eq, OfNat.ofNat_ne_zero, not_false_eq_true, if_true, Bool.false_eq_true, if_false,
    q_skip_whitespace_none fuel (pre ++ [40]) _ [] (by omega) hws, Result.andThen_ok, hloop,
    List.nil_append,
    q_skip_whitespace_none fuel (pre ++ [40] ++ join_with 124 names) (41 :: t) [] (by omega)
      (by simp [whitespace]), Q_END_MULTI_TAG,
    q_accept_one_hit (pre ++ [40] ++ join_with 124 names) 41 t [] [] false (by decide), hlen,
    view_class_check_of_names]
  simp

/-- C7: `(n1|...|nk)` for a non-empty list of valid names parses to one selector
whose only check is `ClassCheck{[n1, ..., nk]}`, names in input order with
duplicates kept; the selector is not direct and has no successor. -/
theorem C7_multi_class (fuel : Nat) (names : List (List Nat))
    (hne : names ≠ []) (hv : ∀ n ∈ names, valid_name n)
    (hf : ([40] ++ join_with 124 names ++ [41]).length < fuel) :
    q_rb_parse_selector fuel ([40] ++ join_with 124 names ++ [41])
      = Result.ok (Selector.mk [Check.ClassCheck (names.map VALUE.Symbol)] false none)
          (q_parser_destroy (q_parser_init [] 0)) := by
  have hin : [40] ++ join_with 124 names ++ [41] = 40 :: (join_with 124 names ++ 41 :: []) := by
    simp
  rw [hin] at hf ⊢
  have hlen : (join_with 124 names).length + 2 < fuel := by
    simp at hf; omega
  have hm := q_read_multi_class_tag_names fuel [] names [] hne hv (by omega)
  have ht := q_read_selector_tail_cursor fuel ([] ++ 40 :: (join_with 124 names ++ [41])) none []
    [] false [] [Check.ClassCheck (names.map VALUE.Symbol)] (by simp) (by simp)
    (by simp [whitespace_run]) (Or.inl (by simp [direct_text])) (by simp [direct_text])
    (by simp [direct_text]) (by simp [whitespace])
    (by simp [id_text, attr_text, direct_text]; omega)
  simp only [id_text, attr_text, direct_text, List.nil_append, List.append_nil, Bool.false_eq_true,
    if_false, Option.map_none', Option.toList_none, List.map_nil] at ht hm
  obtain ⟨k, hk⟩ : ∃ k, fuel = k + 1 := ⟨fuel - 1, by omega⟩
  simp only [q_rb_parse_selector, q_parser_init_cursor, q_rb_parser_run, q_read_selector_unfold,
    q_skip_whitespace_none fuel [] (40 :: (join_with 124 names ++ [41])) [] (by omega)
      (by simp [whitespace]), Result.andThen_ok, Q_ANY_TAG_MARK,
    q_accept_one_miss [] (40 :: (join_with 124 names ++ [41])) [] 42 [] _ (by simp),
    q_peek_cursor, next_byte_cons]
  simp only [hm, Result.andThen_ok]
  simp [ht, q_skip_whitespace_none fuel _ [] [] (by omega) (by simp [whitespace])]
  rw [hk, q_rb_parser_run_loop, ← hk]
  simp [q_eos_cursor, Selector.last, q_parser_destroy]

/-- C7 at the input `(Button|Label|Button)`. -/
theorem C7_multi_class_witness :
    q_rb_parse_selector 30
        ([40] ++ join_with 124 [bytes "Button", bytes "Label", bytes "Button"] ++ [41])
      = Result.ok
          (Selector.mk
            [Check.ClassCheck
              ([bytes "Button", bytes "Label", bytes "Button"].map VALUE.Symbol)] false none)
          (q_parser_destroy (q_parser_init [] 0)) :=
  C7_multi_class 30 [bytes "Button", bytes "Label", bytes "Button"] (by decide) (by decide)
    (by decide)

theorem Post.trivial {α : Type} (r : Result α) : Post r fun _ _ => True :=
  ⟨fun _ _ _ => True.intro⟩

theorem q_read_multi_class_tag_loop_nonempty (fuel : Nat) :
    ∀ (n : Nat) (p : qparser_t) (names : List VALUE),
      Post (q_read_multi_class_tag_loop fuel n p names) fun v _ => ∃ more, v = names ++ more := by
  intro n
  induction n with
  | zero => intro p names; exact Post.no_fuel _
  | succ n ih =>
    intro p names
    simp only [q_read_multi_class_tag_loop]
    apply Post.andThen (Post.trivial _)
    intro name p1 _
    apply Post.ite
    · apply Post.andThen (Post.trivial _)
      intro _ p2 _
      apply Post.ite
      · exact Post.ok ⟨[name], rfl⟩
      · apply Post.mono (ih _ _)
        rintro v _ ⟨more, hm⟩
        exact ⟨name :: more, by simp [hm]⟩
    · exact Post.ok ⟨[], by simp⟩

theorem q_read_multi_class_tag_kind (fuel : Nat) (p : qparser_t) :
    Post (q_read_multi_class_tag fuel p) fun v _ =>
      ∀ c, v = some c → ∃ names, names ≠ [] ∧ c = Check.ClassCheck names := by
  unfold q_read_multi_class_tag
  apply Post.ite
  · apply Post.andThen (Post.trivial _)
    intro _ p1 _
    apply Post.andThen (Post.trivial _)
    intro names p2 _
    apply Post.andThen (Post.trivial _)
    intro _ p3 _
    apply Post.ite
    · by_cases hn : names.length = 0
      · simp only [hn, if_true]; exact Post.raised _ _
      · simp only [hn, if_false]
        apply Post.ok
        intro c hc
        refine ⟨names, ?_, by simpa [view_class_check_of_names] using hc.symm⟩
        intro h; subst h; simp at hn
    · exact Post.raised _ _
  · exact Post.ok (by simp)

theorem q_read_single_class_tag_kind (fuel : Nat) (p : qparser_t) :
    Post (q_read_single_class_tag fuel p) fun v _ =>
      ∀ c, v = some c → ∃ names, names ≠ [] ∧ c = Check.ClassCheck names := by
  unfold q_read_single_class_tag
  apply Post.andThen (Post.trivial _)
  intro name p1 _
  apply Post.ite
  · exact Post.ok (by
      intro c hc
      exact ⟨[name], by simp, by simpa [view_class_check_of_name] using hc.symm⟩)
  · exact Post.ok (by simp)

theorem q_read_id_tag_kind (fuel : Nat) (p : qparser_t) :
    Post (q_read_id_tag fuel p) fun v _ => ∀ c, v = some c → ∃ name, c = Check.TagCheck name := by
  unfold q_read_id_tag
  apply Post.ite
  · apply Post.andThen (Post.trivial _)
    intro name p1 _
    apply Post.ite
    · exact Post.ok (by intro c hc; exact ⟨name, by simpa using hc.symm⟩)
    · exact Post.ok (by simp)
  · exact Post.ok (by simp)

theorem q_read_attribute_kind (fuel : Nat) (p : qparser_t) :
    Post (q_read_attribute fuel p) fun v _ =>
      ∀ c, v = some c → ∃ key operator operand, c = Check.AttrCheck key operator operand := by
  unfold q_read_attribute
  apply Post.ite
  · apply Post.andThen (Post.trivial _)
    intro _ p1 _
    apply Post.andThen (Post.trivial _)
    intro _ p2 _
    apply Post.andThen (Post.trivial _)
    intro key p3 _
    apply Post.andThen (Post.trivial _)
    intro _ p4 _
    apply Post.andThen (Post.trivial _)
    intro operation p5 _
    exact Post.ok (by intro c hc; exact ⟨_, _, _, by simpa using hc.symm⟩)
  · exact Post.ok (by simp)

theorem q_read_selector_loop_kind (fuel : Nat) :
    ∀ (n : Nat) (p : qparser_t) (attributes_ary : List Check),
      Post (q_read_selector_loop fuel n p attributes_ary) fun v _ =>
        ∃ more, v = attributes_ary ++ more ∧
          ∀ c ∈ more, ∃ key operator operand, c = Check.AttrCheck key operator operand := by
  intro n
  induction n with
  | zero => intro p a; exact Post.no_fuel _
  | succ n ih =>
    intro p a
    simp only [q_read_selector_loop]
    apply Post.andThen (q_read_attribute_kind _ _)
    intro c p1 hc
    cases c with
    | none => exact Post.ok ⟨[], by simp⟩
    | some c =>
      apply Post.mono (ih _ _)
      rintro v _ ⟨more, hm, hk⟩
      refine ⟨c :: more, by simp [hm], ?_⟩
      intro x hx
      simp only [List.mem_cons] at hx
      rcases hx with hx | hx
      · subst hx; exact hc _ rfl
      · exact hk x hx

/-- The checks `q_read_selector_tail` collects: the given ones, then at most one
tag check, then attribute checks only. -/
theorem q_read_selector_tail_kind (fuel : Nat) (p : qparser_t) (attributes_ary : List Check) :
    Post (q_read_selector_tail fuel p attributes_ary) fun v _ =>
      ∃ ids attrs d, v = some (Selector.mk (attributes_ary ++ ids ++ attrs) d none)
        ∧ ids.length ≤ 1 ∧ (∀ c ∈ ids, ∃ name, c = Check.TagCheck name)
        ∧ ∀ c ∈ attrs, ∃ key operator operand, c = Check.AttrCheck key operator operand := by
  unfold q_read_selector_tail
  apply Post.andThen (q_read_id_tag_kind _ _)
  intro id_check p1 hid
  apply Post.andThen (q_read_selector_loop_kind _ _ _ _)
  rintro v p2 ⟨more, hm, hk⟩
  apply Post.andThen (Post.trivial _)
  intro _ p3 _
  apply Post.ok
  refine ⟨id_check.toList, more, _, by rw [hm], ?_, ?_, hk⟩
  · cases id_check <;> simp
  · intro c hc
    cases id_check with
    | none => simp at hc
    | some x => simp at hc; subst hc; exact hid _ rfl

theorem q_read_selector_shape (fuel : Nat) (p : qparser_t) :
    Post (q_read_selector fuel p) fun v _ => ∀ s, v = some s → selector_shape s := by
  rw [q_read_selector_unfold]
  apply Post.andThen (Post.trivial _)
  intro _ p1 _
  apply Post.andThen
    (R := fun v _ => ∀ c, v = some c → ∃ names, names ≠ [] ∧ c = Check.ClassCheck names)
  · apply Post.ite
    · apply Post.andThen (q_read_multi_class_tag_kind _ _)
      intro type_check p2 h2
      apply Post.ite
      · exact q_read_single_class_tag_kind _ _
      · exact Post.ok h2
    · exact Post.ok (by simp)
  · intro type_check p2 h2
    apply Post.ite
    · exact Post.ok (by simp)
    · apply Post.mono (q_read_selector_tail_kind _ _ _)
      rintro v _ ⟨ids, attrs, d, hv, hl, hids, hattrs⟩ s hs
      rw [hv] at hs
      simp only [Option.some.injEq] at hs
      subst hs
      refine ⟨type_check.toList, ids, attrs, d, by simp, ?_, ?_, hl, hids, hattrs⟩
      · cases type_check <;> simp
      · intro c hc
        cases type_check with
        | none => simp at hc
        | some x => simp at hc; subst hc; exact h2 _ rfl

/-- A property of the selectors `q_read_selector` returns holds of every
selector of the chain `q_rb_parser_run` returns. -/
theorem q_rb_parser_run_loop_nodes (P : List Check × Bool → Prop)
    (hP : ∀ fuel p, Post (q_read_selector fuel p) fun v _ =>
      ∀ s, v = some s → ∀ node ∈ chain_nodes s, P node) (fuel : Nat) :
    ∀ (n : Nat) (p : qparser_t) (selector : Selector),
      (∀ node ∈ chain_nodes selector, P node) →
      Post (q_rb_parser_run_loop fuel n p selector) fun chain _ =>
        ∀ node ∈ chain_nodes chain, P node := by
  intro n
  induction n with
  | zero => intro p s _; exact Post.no_fuel _
  | succ n ih =>
    intro p s hs
    simp only [q_rb_parser_run_loop]
    apply Post.ite
    · apply Post.andThen (hP _ _)
      intro next p1 h1
      cases next with
      | none => exact Post.ok hs
      | some next =>
        apply Post.andThen (Post.trivial _)
        intro _ p2 _
        apply ih
        intro node hn
        rw [chain_nodes_set_succ, List.mem_append] at hn
        rcases hn with hn | hn
        · exact hs node hn
        · exact h1 next rfl node hn
    · exact Post.ok hs

theorem q_rb_parser_run_nodes (P : List Check × Bool → Prop)
    (hP : ∀ fuel p, Post (q_read_selector fuel p) fun v _ =>
      ∀ s, v = some s → ∀ node ∈ chain_nodes s, P node) (fuel : Nat) (p : qparser_t) :
    Post (q_rb_parser_run fuel p) fun chain _ => ∀ node ∈ chain_nodes chain, P node := by
  unfold q_rb_parser_run
  apply Post.andThen (hP _ _)
  intro selector p1 h1
  cases selector with
  | none => exact Post.raised _ _
  | some selector =>
    apply Post.andThen (Post.trivial _)
    intro _ p2 _
    apply Post.andThen (q_rb_parser_run_loop_nodes P hP fuel _ _ _ (h1 selector rfl))
    intro chain p3 h3
    apply Post.ite
    · exact Post.raised _ _
    · apply Post.ite
      · exact Post.raised _ _
      · exact Post.ok h3

theorem q_read_selector_no_empty_class_check (fuel : Nat) (p : qparser_t) :
    Post (q_read_selector fuel p) fun v _ =>
      ∀ s, v = some s → ∀ node ∈ chain_nodes s, Check.ClassCheck [] ∉ node.1 := by
  apply Post.mono (q_read_selector_shape fuel p)
  rintro v _ h s hs node hn
  obtain ⟨types, ids, attrs, d, rfl, _, ht, _, hi, ha⟩ := h s hs
  rw [chain_nodes_mk_none, List.mem_singleton] at hn
  subst hn
  simp only [List.mem_append, not_or]
  refine ⟨⟨?_, ?_⟩, ?_⟩
  · intro hc
    obtain ⟨names, hne, he⟩ := ht _ hc
    simp only [Check.ClassCheck.injEq] at he
    exact hne he.symm
  · intro hc
    obtain ⟨name, he⟩ := hi _ hc
    simp at he
  · intro hc
    obtain ⟨_, _, _, he⟩ := ha _ hc
    simp at he

/-- C9: `(`, whitespace, `)` and then anything fails with the EmptyMultiTag
error, and no selector of a parsed chain carries a class check with an empty
list of names. -/
theorem C9_empty_multi_tag (fuel1 : Nat) (w r : List Nat) (fuel2 : Nat) (s : List Nat)
    (chain : Selector) (p : qparser_t)
    (hw : whitespace_run w) (hf : w.length + 1 < fuel1)
    (h : q_rb_parse_selector fuel2 s = Result.ok chain p) :
    (q_rb_parse_selector fuel1 ([40] ++ w ++ [41] ++ r) = Result.raised Err.EmptyMultiTag
      ∧ Err.EmptyMultiTag.message = "Cannot have an empty multi-tag selector")
    ∧ ∀ node ∈ chain_nodes chain, Check.ClassCheck [] ∉ node.1 := by
  refine ⟨⟨?_, rfl⟩, ?_⟩
  · have hin : [40] ++ w ++ [41] ++ r = 40 :: (w ++ 41 :: r) := by simp
    rw [hin]
    have he : name_end (41 :: r) := Or.inr (by simp [name_boundary])
    have hws : next_byte (41 :: r) ∉ whitespace := by simp [whitespace]
    obtain ⟨k, hk⟩ : ∃ k, fuel1 = k + 1 := ⟨fuel1 - 1, by omega⟩
    have hm : q_read_multi_class_tag fuel1 (cursor [] (40 :: (w ++ 41 :: r)) [])
        = Result.raised Err.EmptyMultiTag := by
      simp only [q_read_multi_class_tag, Q_START_MULTI_TAG, Q_DO_NOT_ADD_TO_BUFFER,
        q_accept_one_hit [] 40 _ [] [] false (by decide)]
      simp only [ne_eq, OfNat.ofNat_ne_zero, not_false_eq_true, if_true, Bool.false_eq_true,
        if_false, q_skip_whitespace_cursor fuel1 ([] ++ [40]) w (41 :: r) [] hw (by omega) hws,
        Result.andThen_ok]
      rw [hk, q_read_multi_class_tag_loop, ← hk]
      rw [q_read_name_none fuel1 _ (41 :: r) [] _ he (by omega)]
      simp only [Result.andThen_ok, RTEST, bne_self_eq_false, Bool.false_eq_true, if_false]
      rw [q_skip_whitespace_none fuel1 _ (41 :: r) [] (by omega) hws]
      simp only [Result.andThen_ok, Q_END_MULTI_TAG,
        q_accept_one_hit _ 41 r [] [] false (by decide)]
      simp
    simp only [q_rb_parse_selector, q_parser_init_cursor, q_rb_parser_run, q_read_selector_unfold,
      q_skip_whitespace_none fuel1 [] (40 :: (w ++ 41 :: r)) [] (by omega)
        (by simp [whitespace]), Result.andThen_ok, Q_ANY_TAG_MARK,
      q_accept_one_miss [] (40 :: (w ++ 41 :: r)) [] 42 [] _ (by simp),
      q_peek_cursor, next_byte_cons]
    simp [hm]
  · obtain ⟨p', h'⟩ := q_rb_parse_selector_ok fuel2 s chain p h
    exact (q_rb_parser_run_nodes _ q_read_selector_no_empty_class_check fuel2 _).out chain p' h'

/-- C9 at the input `( )x` and at the parse of `(Button)`. -/
theorem C9_empty_multi_tag_witness :
    (q_rb_parse_selector 5 ([40] ++ bytes " " ++ [41] ++ bytes "x")
        = Result.raised Err.EmptyMultiTag
      ∧ Err.EmptyMultiTag.message = "Cannot have an empty multi-tag selector")
    ∧ ∀ node ∈ chain_nodes (Selector.mk [Check.ClassCheck [VALUE.Symbol (bytes "Button")]]
          false none),
        Check.ClassCheck [] ∉ node.1 :=
  C9_empty_multi_tag 5 (bytes " ") (bytes "x") 20 (bytes "(Button)") _
    (q_parser_destroy (q_parser_init [] 0)) (by decide) (by decide) rfl

/-- C8 at its own example: whitespace before the separator is accepted, but
`(Button | Label)`, with a space after `|`, is rejected as an unclosed
multi-class tag. -/
theorem C8_space_after_separator :
    q_rb_parse_selector 20 (bytes "(Button |Label)")
        = Result.ok
            (Selector.mk
              [Check.ClassCheck [VALUE.Symbol (bytes "Button"), VALUE.Symbol (bytes "Label")]]
              false none)
            (q_parser_destroy (q_parser_init [] 0))
      ∧ q_rb_parse_selector 20 (bytes "(Button | Label)") = Result.raised Err.UnclosedMultiTag :=
  ⟨rfl, rfl⟩

/-- C10: an optional class name, an optional id tag and presence attributes
(at least one of the three) parse to one selector whose checks are, in this
order, the class check, the tag check and one `AttrCheck{k, trueish, absent}`
per key; it is not direct and has no successor. -/
theorem C10_type_id_attributes (fuel : Nat) (ty id : Option (List Nat))
    (keys : List (List Nat))
    (hty : ∀ x, ty = some x → valid_name x) (hid : ∀ x, id = some x → valid_name x)
    (hkeys : ∀ k ∈ keys, valid_name k)
    (hsome : ty ≠ none ∨ id ≠ none ∨ keys ≠ [])
    (hf : (type_text ty ++ id_text id ++ attr_text keys).length < fuel) :
    q_rb_parse_selector fuel (type_text ty ++ id_text id ++ attr_text keys)
      = Result.ok
          (Selector.mk
            ((ty.map fun x => Check.ClassCheck [VALUE.Symbol x]).toList
              ++ (id.map fun x => Check.TagCheck (VALUE.Symbol x)).toList
              ++ keys.map fun k => Check.AttrCheck (VALUE.String k) Operator.trueish VALUE.Qnil)
            false none)
          (q_parser_destroy (q_parser_init [] 0)) := by
  have hin : type_text ty ++ id_text id ++ attr_text keys
      = type_text ty ++ (id_text id ++ (attr_text keys ++ ([] ++ (direct_text false ++ [])))) := by
    simp [direct_text]
  rw [hin] at hf ⊢
  have hf0 : 0 < fuel := by omega
  have hrest : ∀ pre acc, q_read_selector_tail fuel
        (cursor pre (id_text id ++ (attr_text keys ++ ([] ++ (direct_text false ++ [])))) []) acc
      = Result.ok
          (some (Selector.mk
            (acc ++ (id.map fun x => Check.TagCheck (VALUE.Symbol x)).toList
              ++ keys.map presence_check) false none))
          (cursor (pre ++ (id_text id ++ (attr_text keys ++ ([] ++ direct_text false)))) [] []) := by
    intro pre acc
    exact q_read_selector_tail_cursor fuel pre id keys [] false [] acc hid hkeys
      (by simp [whitespace_run]) (Or.inl (by simp [direct_text])) (by simp [direct_text])
      (by simp [direct_text]) (by simp [whitespace])
      (by simp only [List.length_append] at hf ⊢; omega)
  have hrun : ∀ (sel : Selector) (pre : List Nat),
      q_read_selector fuel (cursor []
        (type_text ty ++ (id_text id ++ (attr_text keys ++ ([] ++ (direct_text false ++ []))))) [])
        = Result.ok (some sel) (cursor pre [] []) →
      q_selector_is_direct sel.last = false →
      q_rb_parse_selector fuel
        (type_text ty ++ (id_text id ++ (attr_text keys ++ ([] ++ (direct_text false ++ [])))))
        = Result.ok sel (q_parser_destroy (q_parser_init [] 0)) := by
    intro sel pre h1 h2
    obtain ⟨k, hk⟩ : ∃ k, fuel = k + 1 := ⟨fuel - 1, by omega⟩
    simp only [q_rb_parse_selector, q_parser_init_cursor, q_rb_parser_run, h1, Result.andThen_ok,
      q_skip_whitespace_none fuel pre [] [] hf0 (by simp [whitespace])]
    rw [hk, q_rb_parser_run_loop, ← hk]
    simp [q_eos_cursor, h2, q_parser_destroy]
  cases ty with
  | some t =>
    have ht := hty t rfl
    have he : name_end (id_text id ++ (attr_text keys ++ ([] ++ (direct_text false ++ [])))) := by
      cases id with
      | some i => exact Or.inr (by simp [id_text, name_boundary])
      | none =>
        cases keys with
        | nil => exact Or.inl (by simp [id_text, attr_text, direct_text])
        | cons k ks => exact Or.inr (by simp [id_text, attr_text, name_boundary])
    refine hrun _ ([] ++ t ++ (id_text id ++ (attr_text keys ++ ([] ++ direct_text false))))
      ?_ (by simp [Selector.last])
    simp only [type_text]
    rw [q_read_selector_named fuel [] t _ ht he
      (by simp only [type_text, List.length_append] at hf; omega), hrest]
    rfl
  | none =>
    have hl : next_byte (id_text id ++ (attr_text keys ++ ([] ++ (direct_text false ++ [])))) = 35
        ∨ next_byte (id_text id ++ (attr_text keys ++ ([] ++ (direct_text false ++ [])))) = 91 := by
      cases id with
      | some i => exact Or.inl (by simp [id_text])
      | none =>
        cases keys with
        | nil => simp at hsome
        | cons k ks => exact Or.inr (by simp [id_text, attr_text])
    refine hrun _ ([] ++ (id_text id ++ (attr_text keys ++ ([] ++ direct_text false))))
      ?_ (by simp [Selector.last])
    show q_read_selector fuel
      (cursor [] (id_text id ++ (attr_text keys ++ ([] ++ (direct_text false ++ [])))) []) = _
    rw [q_read_selector_lookahead fuel [] _ hl hf0, hrest]
    rfl

/-- C10 at the inputs `#main` and `Button[enabled]`. -/
theorem C10_type_id_attributes_witness :
    q_rb_parse_selector 20 (type_text none ++ id_text (some (bytes "main")) ++ attr_text [])
        = Result.ok (Selector.mk [Check.TagCheck (VALUE.Symbol (bytes "main"))] false none)
            (q_parser_destroy (q_parser_init [] 0))
    ∧ q_rb_parse_selector 20
          (type_text (some (bytes "Button")) ++ id_text none ++ attr_text [bytes "enabled"])
        = Result.ok
            (Selector.mk
              [Check.ClassCheck [VALUE.Symbol (bytes "Button")],
               Check.AttrCheck (VALUE.String (bytes "enabled")) Operator.trueish VALUE.Qnil]
              false none)
            (q_parser_destroy (q_parser_init [] 0)) :=
  ⟨C10_type_id_attributes 20 none (some (bytes "main")) [] (by decide) (by decide) (by decide)
      (by decide) (by decide),
   C10_type_id_attributes 20 (some (bytes "Button")) none [bytes "enabled"] (by decide)
      (by decide) (by decide) (by decide) (by decide)⟩

theorem q_strnchr_digits (c : Nat) :
    q_strnchr Q_DIGITS.chars Q_DIGITS.length c = decide (c ∈ digits) := by
  by_cases hc : c = 0
  · subst hc; simp [q_strnchr, digits]
  · simp only [q_strnchr, Q_DIGITS, digits, hc]
    simp only [ne_eq, not_false_eq_true, if_true, gt_iff_lt, Nat.one_lt_ofNat, List.take,
      List.mem_cons, List.mem_singleton, List.not_mem_nil, or_false]
    rw [if_pos hc]

theorem q_accept_run_loop_cursor (chars : qchars_t) (add : Bool) (n : List Nat)
    (hn : ∀ c ∈ n, q_strnchr chars.chars chars.length c = true) :
    ∀ (k : Nat) (pre t buf : List Nat) (accepted : Nat), n.length < k →
      q_strnchr chars.chars chars.length (next_byte t) = false →
      q_accept_run_loop chars add k (cursor pre (n ++ t) buf) accepted
        = Result.ok (accepted + n.length)
            (cursor (pre ++ n) t (if add then buf ++ n else buf)) := by
  induction n with
  | nil =>
    intro k pre t buf accepted hk ht
    cases k with
    | zero => simp at hk
    | succ k => simp [q_accept_run_loop, q_accept_miss _ _ _ _ _ ht]
  | cons c n ih =>
    intro k pre t buf accepted hk ht
    cases k with
    | zero => simp at hk
    | succ k =>
      have hc := hn c (by simp)
      have hc0 : c ≠ 0 := by
        intro h; subst h; simp [q_strnchr_zero] at hc
      have hn2 : ∀ x ∈ n, q_strnchr chars.chars chars.length x = true :=
        fun x hx => hn x (by simp [hx])
      have hk2 : n.length < k := by simp at hk; omega
      have h := ih hn2 k (pre ++ [c]) t (if add then buf ++ [c] else buf) (accepted + 1) hk2 ht
      simp only [q_accept_run_loop, List.cons_append, q_accept_hit _ _ _ _ _ _ hc, ne_eq, hc0,
        not_false_eq_true, if_true]
      cases add <;> simp at h ⊢ <;> rw [h] <;> simp <;> omega

theorem q_accept_run_digits (fuel : Nat) (pre d t buf : List Nat) (hd : digit_run d)
    (hf : d.length < fuel) (ht : next_byte t ∉ digits) :
    q_accept_run fuel (cursor pre (d ++ t) buf) Q_DIGITS true
      = Result.ok d.length (cursor (pre ++ d) t (buf ++ d)) := by
  have h := q_accept_run_loop_cursor Q_DIGITS true d
    (by intro c hc; rw [q_strnchr_digits]; simpa using hd c hc) fuel pre t buf 0 hf
    (by rw [q_strnchr_digits]; simpa using ht)
  simpa [q_accept_run] using h

theorem q_read_operator_token (pre rest buf : List Nat) (tok : List Nat) (op : Operator)
    (htok : (tok, op) ∈ operator_tokens)
    (hrest : next_byte rest ≠ 61 ∧ next_byte rest ≠ 45) :
    q_read_operator (cursor pre (tok ++ rest) buf)
      = Result.ok (some op) (cursor (pre ++ tok) rest buf) := by
  have h61 := hrest.1
  have h45 := hrest.2
  simp only [operator_tokens, List.mem_cons, List.mem_singleton, Prod.mk.injEq,
    List.not_mem_nil, or_false] at htok
  rcases htok with ⟨rfl, rfl⟩ | ⟨rfl, rfl⟩ | ⟨rfl, rfl⟩ | ⟨rfl, rfl⟩ | ⟨rfl, rfl⟩ | ⟨rfl, rfl⟩ |
    ⟨rfl, rfl⟩
  · simp [q_read_operator, Q_NEGATION_MARK, Q_EQUAL_MARK, Q_DO_NOT_ADD_TO_BUFFER,
      q_accept_one_miss pre (61 :: rest) buf 33 [] false (by simp),
      q_accept_one_hit pre 61 rest buf [] false (by decide)]
  · simp [q_read_operator, Q_NEGATION_MARK, Q_EQUAL_MARK, Q_DO_NOT_ADD_TO_BUFFER,
      q_accept_one_hit pre 33 (61 :: rest) buf [] false (by decide),
      q_accept_one_hit (pre ++ [33]) 61 rest buf [] false (by decide)]
  · simp [q_read_operator, Q_NEGATION_MARK, Q_EQUAL_MARK, Q_GREATER_MARK, Q_DO_NOT_ADD_TO_BUFFER,
      q_accept_one_miss pre (62 :: rest) buf 33 [] false (by simp),
      q_accept_one_miss pre (62 :: rest) buf 61 [] false (by simp),
      q_accept_one_hit pre 62 rest buf [] false (by decide),
      q_accept_one_miss (pre ++ [62]) rest buf 61 [] false h61]
  · simp [q_read_operator, Q_NEGATION_MARK, Q_EQUAL_MARK, Q_GREATER_MARK, Q_DO_NOT_ADD_TO_BUFFER,
      q_accept_one_miss pre (62 :: 61 :: rest) buf 33 [] false (by simp),
      q_accept_one_miss pre (62 :: 61 :: rest) buf 61 [] false (by simp),
      q_accept_one_hit pre 62 (61 :: rest) buf [] false (by decide),
      q_accept_one_hit (pre ++ [62]) 61 rest buf [] false (by decide)]
  · simp [q_read_operator, Q_NEGATION_MARK, Q_EQUAL_MARK, Q_GREATER_MARK, Q_LESSER_MARK,
      Q_CONTAINS_MARK, Q_DO_NOT_ADD_TO_BUFFER,
      q_accept_one_miss pre (60 :: rest) buf 33 [] false (by simp),
      q_accept_one_miss pre (60 :: rest) buf 61 [] false (by simp),
      q_accept_one_miss pre (60 :: rest) buf 62 [] false (by simp),
      q_accept_one_hit pre 60 rest buf [] false (by decide),
      q_accept_one_miss (pre ++ [60]) rest buf 61 [] false h61,
      q_accept_one_miss (pre ++ [60]) rest buf 45 [] false h45]
  · simp [q_read_operator, Q_NEGATION_MARK, Q_EQUAL_MARK, Q_GREATER_MARK, Q_LESSER_MARK,
      Q_CONTAINS_MARK, Q_DO_NOT_ADD_TO_BUFFER,
      q_accept_one_miss pre (60 :: 61 :: rest) buf 33 [] false (by simp),
      q_accept_one_miss pre (60 :: 61 :: rest) buf 61 [] false (by simp),
      q_accept_one_miss pre (60 :: 61 :: rest) buf 62 [] false (by simp),
      q_accept_one_hit pre 60 (61 :: rest) buf [] false (by decide),
      q_accept_one_hit (pre ++ [60]) 61 rest buf [] false (by decide)]
  · simp [q_read_operator, Q_NEGATION_MARK, Q_EQUAL_MARK, Q_GREATER_MARK, Q_LESSER_MARK,
      Q_CONTAINS_MARK, Q_DO_NOT_ADD_TO_BUFFER,
      q_accept_one_miss pre (60 :: 45 :: rest) buf 33 [] false (by simp),
      q_accept_one_miss pre (60 :: 45 :: rest) buf 61 [] false (by simp),
      q_accept_one_miss pre (60 :: 45 :: rest) buf 62 [] false (by simp),
      q_accept_one_hit pre 60 (45 :: rest) buf [] false (by decide),
      q_accept_one_miss (pre ++ [60]) (45 :: rest) buf 61 [] false (by simp),
      q_accept_one_hit (pre ++ [60]) 45 rest buf [] false (by decide)]

theorem Result.andThen_assoc {α β γ : Type} (r : Result α) (f : α → qparser_t → Result β)
    (g : β → qparser_t → Result γ) :
    (r.andThen f).andThen g = r.andThen fun v p => (f v p).andThen g := by
  cases r <;> rfl

theorem q_read_attribute_operation_unfold (fuel : Nat) (parser : qparser_t) :
    q_read_attribute_operation fuel parser
      = (let close := q_accept parser Q_END_ATTR Q_DO_NOT_ADD_TO_BUFFER
         if close.1 ≠ 0 then Result.ok (Operator.trueish, VALUE.Qnil) close.2
         else
          (q_read_operator close.2).andThen fun operator parser =>
          match operator with
          | none => Result.raised Err.InvalidOperatorReturned
          | some operator =>
            (q_skip_whitespace fuel parser).andThen fun _ parser =>
            (q_read_operand fuel parser).andThen fun operand parser =>
            if NIL_P operand then Result.raised Err.InvalidAttributeOperand
            else
              (q_skip_whitespace fuel parser).andThen fun _ parser =>
              let close := q_accept parser Q_END_ATTR Q_DO_NOT_ADD_TO_BUFFER
              if close.1 ≠ 0 then Result.ok (operator, operand) close.2
              else Result.raised Err.UnclosedAttribute) := by
  unfold q_read_attribute_operation q_read_operand
  simp only [Result.andThen_assoc]

/-- The operator and operand part of an attribute whose operand reader returns
a value and stops right before `]`. -/
theorem q_read_attribute_operation_value (fuel : Nat) (pre tok rest : List Nat) (op : Operator)
    (operand : VALUE) (pre' t : List Nat)
    (htok : (tok, op) ∈ operator_tokens)
    (hrest : next_byte rest ≠ 61 ∧ next_byte rest ≠ 45 ∧ next_byte rest ∉ whitespace)
    (hf : 0 < fuel) (hv : operand ≠ VALUE.Qnil)
    (hop : q_read_operand fuel (cursor (pre ++ tok) rest [])
      = Result.ok operand (cursor pre' (93 :: t) [])) :
    q_read_attribute_operation fuel (cursor pre (tok ++ rest) [])
      = Result.ok (op, operand) (cursor (pre' ++ [93]) t []) := by
  have h93 : next_byte (tok ++ rest) ≠ 93 := by
    simp only [operator_tokens, List.mem_cons, List.mem_singleton, Prod.mk.injEq,
      List.not_mem_nil, or_false] at htok
    rcases htok with ⟨rfl, _⟩ | ⟨rfl, _⟩ | ⟨rfl, _⟩ | ⟨rfl, _⟩ | ⟨rfl, _⟩ | ⟨rfl, _⟩ | ⟨rfl, _⟩ <;>
      simp
  rw [q_read_attribute_operation_unfold]
  simp only [Q_END_ATTR, q_accept_one_miss _ _ _ _ _ _ h93, ne_eq, not_true_eq_false, if_false,
    q_read_operator_token pre rest [] tok op htok ⟨hrest.1, hrest.2.1⟩, Result.andThen_ok,
    q_skip_whitespace_none fuel _ rest [] hf hrest.2.2, hop, NIL_P]
  have hv2 : (operand == VALUE.Qnil) = false := by simpa using hv
  simp only [hv2, Bool.false_eq_true, if_false,
    q_skip_whitespace_none fuel pre' (93 :: t) [] hf (by simp [whitespace]), Result.andThen_ok,
    Q_DO_NOT_ADD_TO_BUFFER, q_accept_one_hit pre' 93 t [] [] false (by decide)]
  simp

/-- The operator and operand part of an attribute whose operand reader raises. -/
theorem q_read_attribute_operation_raised (fuel : Nat) (pre tok rest : List Nat) (op : Operator)
    (e : Err) (htok : (tok, op) ∈ operator_tokens)
    (hrest : next_byte rest ≠ 61 ∧ next_byte rest ≠ 45 ∧ next_byte rest ∉ whitespace)
    (hf : 0 < fuel)
    (hop : q_read_operand fuel (cursor (pre ++ tok) rest []) = Result.raised e) :
    q_read_attribute_operation fuel (cursor pre (tok ++ rest) []) = Result.raised e := by
  have h93 : next_byte (tok ++ rest) ≠ 93 := by
    simp only [operator_tokens, List.mem_cons, List.mem_singleton, Prod.mk.injEq,
      List.not_mem_nil, or_false] at htok
    rcases htok with ⟨rfl, _⟩ | ⟨rfl, _⟩ | ⟨rfl, _⟩ | ⟨rfl, _⟩ | ⟨rfl, _⟩ | ⟨rfl, _⟩ | ⟨rfl, _⟩ <;>
      simp
  rw [q_read_attribute_operation_unfold]
  simp only [Q_END_ATTR, q_accept_one_miss _ _ _ _ _ _ h93, ne_eq, not_true_eq_false, if_false,
    q_read_operator_token pre rest [] tok op htok ⟨hrest.1, hrest.2.1⟩, Result.andThen_ok,
    q_skip_whitespace_none fuel _ rest [] hf hrest.2.2, hop, Result.andThen_raised]

/-- The first byte of an operator token followed by anything is a name boundary
and not whitespace. -/
theorem operator_token_next (tok rest : List Nat) (op : Operator)
    (htok : (tok, op) ∈ operator_tokens) :
    name_end (tok ++ rest) ∧ next_byte (tok ++ rest) ∉ whitespace := by
  simp only [operator_tokens, List.mem_cons, List.mem_singleton, Prod.mk.injEq,
    List.not_mem_nil, or_false] at htok
  rcases htok with ⟨rfl, _⟩ | ⟨rfl, _⟩ | ⟨rfl, _⟩ | ⟨rfl, _⟩ | ⟨rfl, _⟩ | ⟨rfl, _⟩ | ⟨rfl, _⟩ <;>
    simp [name_end, name_boundary, whitespace]

/-- An attribute up to its key: `[`, an optional `!`, the key; what follows is
read by `q_read_attribute_operation`. -/
theorem q_read_attribute_key (fuel : Nat) (pre : List Nat) (inverted : Bool) (k rest : List Nat)
    (hk : valid_name k) (hrest : name_end rest ∧ next_byte rest ∉ whitespace)
    (hf : k.length < fuel) :
    q_read_attribute fuel (cursor pre (91 :: (bang_text inverted ++ (k ++ rest))) [])
      = (q_read_attribute_operation fuel
          (cursor (pre ++ 91 :: (bang_text inverted ++ k)) rest [])).andThen
          fun operation parser =>
            Result.ok (some (Check.AttrCheck (VALUE.String k)
              (if inverted then q_invert_operator operation.1 else operation.1) operation.2))
              parser := by
  have hk1 := valid_name_next k rest hk
  have hws := not_boundary_not_whitespace _ hk1.2
  have h33 : next_byte (k ++ rest) ≠ 33 := by
    intro h; apply hk1.2; rw [h]; decide
  have hf0 : 0 < fuel := by omega
  cases inverted with
  | false =>
    simp only [q_read_attribute, Q_START_ATTR, Q_DO_NOT_ADD_TO_BUFFER, Q_NEGATION_MARK,
      bang_text, Bool.false_eq_true, if_false, List.nil_append,
      q_accept_one_hit pre 91 (k ++ rest) [] [] false (by decide)]
    simp only [Bool.false_eq_true, if_false, ne_eq, OfNat.ofNat_ne_zero, not_false_eq_true,
      if_true, q_skip_whitespace_none fuel (pre ++ [91]) (k ++ rest) [] hf0 hws,
      Result.andThen_ok, q_accept_one_miss _ _ _ _ _ _ h33, not_true_eq_false, Q_AS_STRING,
      q_read_name_some fuel (pre ++ [91]) k rest false hk hrest.1 hf,
      q_skip_whitespace_none fuel (pre ++ [91] ++ k) rest [] hf0 hrest.2]
    simp
  | true =>
    simp only [q_read_attribute, Q_START_ATTR, Q_DO_NOT_ADD_TO_BUFFER, Q_NEGATION_MARK,
      bang_text, if_true, List.cons_append, List.nil_append,
      q_accept_one_hit pre 91 (33 :: (k ++ rest)) [] [] false (by decide)]
    simp only [Bool.false_eq_true, if_false, ne_eq, OfNat.ofNat_ne_zero, not_false_eq_true,
      if_true, q_skip_whitespace_none fuel (pre ++ [91]) (33 :: (k ++ rest)) [] hf0
        (by simp [whitespace]),
      Result.andThen_ok, q_accept_one_hit (pre ++ [91]) 33 (k ++ rest) [] [] false (by decide),
      q_skip_whitespace_none fuel (pre ++ [91] ++ [33]) (k ++ rest) [] hf0 hws, Q_AS_STRING,
      q_read_name_some fuel (pre ++ [91] ++ [33]) k rest false hk hrest.1 hf,
      q_skip_whitespace_none fuel (pre ++ [91] ++ [33] ++ k) rest [] hf0 hrest.2]
    simp

theorem q_read_string_none (fuel : Nat) (pre rest buf : List Nat) (h : next_byte rest ≠ 34) :
    q_read_string fuel (cursor pre rest buf) = Result.ok VALUE.Qnil (cursor pre rest buf) := by
  simp [q_read_string, Q_QUOTE, q_accept_one_miss _ _ _ _ _ _ h]

theorem q_read_number_none (fuel : Nat) (pre rest buf : List Nat) (h : next_byte rest ∉ digits)
    (hf : 0 < fuel) :
    q_read_number fuel (cursor pre rest buf) = Result.ok VALUE.Qnil (cursor pre rest buf) := by
  have h0 := q_accept_run_digits fuel pre [] rest buf (by simp [digit_run]) (by simpa using hf) h
  simp only [List.nil_append, List.append_nil, List.length_nil] at h0
  simp [q_read_number, Q_ADD_TO_BUFFER, h0]

/-- A bareword operand: neither a string nor a number, read as a name. -/
theorem q_read_operand_bareword (fuel : Nat) (pre v t : List Nat) (hv : valid_name v)
    (hd : next_byte v ∉ digits) (ht : name_end t) (hf : v.length < fuel) :
    q_read_operand fuel (cursor pre (v ++ t) [])
      = Result.ok (VALUE.String v) (cursor (pre ++ v) t []) := by
  have hv1 := valid_name_next v t hv
  have hnb : next_byte (v ++ t) = next_byte v := by
    obtain ⟨h0, _⟩ := hv
    cases v with
    | nil => exact absurd rfl h0
    | cons c v => rfl
  have h34 : next_byte (v ++ t) ≠ 34 := by
    intro h; apply hv1.2; rw [h]; decide
  have hd2 : next_byte (v ++ t) ∉ digits := by rw [hnb]; exact hd
  simp only [q_read_operand, q_read_string_none fuel pre _ [] h34, Result.andThen_ok, RTEST,
    q_read_number_none fuel pre _ [] hd2 (by omega), Q_AS_STRING,
    q_read_name_some fuel pre v t false hv ht hf]
  simp

theorem q_read_selector_tail_attribute (fuel : Nat) (pre rest : List Nat) (acc : List Check)
    (c : Check) (pre' : List Nat) (hf : 1 < fuel)
    (hattr : q_read_attribute fuel (cursor pre (91 :: rest) [])
      = Result.ok (some c) (cursor pre' [] [])) :
    q_read_selector_tail fuel (cursor pre (91 :: rest) []) acc
      = Result.ok (some (Selector.mk (acc ++ [c]) false none)) (cursor pre' [] []) := by
  obtain ⟨k, hk⟩ : ∃ k, fuel = k + 2 := ⟨fuel - 2, by omega⟩
  have hloop : q_read_selector_loop fuel fuel (cursor pre (91 :: rest) []) acc
      = Result.ok (acc ++ [c]) (cursor pre' [] []) := by
    conv => lhs; arg 2; rw [hk]
    simp only [q_read_selector_loop, hattr, Result.andThen_ok,
      q_read_attribute_none fuel pre' [] [] (by simp)]
  simp only [q_read_selector_tail, q_read_id_tag_none fuel pre (91 :: rest) [] (by simp),
    Result.andThen_ok, Option.toList_none, List.append_nil, hloop,
    q_skip_whitespace_none fuel pre' [] [] (by omega) (by simp [whitespace]), Q_DIRECT_FOLLOW,
    q_accept_one_miss pre' [] [] 62 [] _ (by simp)]
  simp

theorem q_read_selector_tail_attribute_raised (fuel : Nat) (pre rest : List Nat)
    (acc : List Check) (e : Err) (hf : 0 < fuel)
    (hattr : q_read_attribute fuel (cursor pre (91 :: rest) []) = Result.raised e) :
    q_read_selector_tail fuel (cursor pre (91 :: rest) []) acc = Result.raised e := by
  obtain ⟨k, hk⟩ : ∃ k, fuel = k + 1 := ⟨fuel - 1, by omega⟩
  have hloop : q_read_selector_loop fuel fuel (cursor pre (91 :: rest) []) acc
      = Result.raised e := by
    conv => lhs; arg 2; rw [hk]
    simp only [q_read_selector_loop, hattr, Result.andThen_raised]
  simp only [q_read_selector_tail, q_read_id_tag_none fuel pre (91 :: rest) [] (by simp),
    Result.andThen_ok, Option.toList_none, List.append_nil, hloop, Result.andThen_raised]

/-- A class name and one attribute that ends the input: the parse is the
selector with the class check and the check `q_read_attribute` returns. -/
theorem q_rb_parse_selector_class_attribute (fuel : Nat) (n rest : List Nat) (c : Check)
    (pre' : List Nat) (hn : valid_name n) (hf : n.length < fuel) (hf1 : 1 < fuel)
    (hattr : q_read_attribute fuel (cursor ([] ++ n) (91 :: rest) [])
      = Result.ok (some c) (cursor pre' [] [])) :
    q_rb_parse_selector fuel (n ++ 91 :: rest)
      = Result.ok (Selector.mk [Check.ClassCheck [VALUE.Symbol n], c] false none)
          (q_parser_destroy (q_parser_init [] 0)) := by
  have ht := q_read_selector_tail_attribute fuel ([] ++ n) rest
    [Check.ClassCheck [VALUE.Symbol n]] c pre' hf1 hattr
  have h1 := q_read_selector_named fuel [] n (91 :: rest) hn
    (Or.inr (by simp [name_boundary])) hf
  obtain ⟨k, hk⟩ : ∃ k, fuel = k + 1 := ⟨fuel - 1, by omega⟩
  simp only [q_rb_parse_selector, q_parser_init_cursor, q_rb_parser_run, h1, ht,
    Result.andThen_ok, q_skip_whitespace_none fuel pre' [] [] (by omega) (by simp [whitespace])]
  rw [hk, q_rb_parser_run_loop, ← hk]
  simp [q_eos_cursor, Selector.last, q_parser_destroy]

/-- A class name and one attribute on which `q_read_attribute` raises: the parse
raises the same error. -/
theorem q_rb_parse_selector_class_attribute_raised (fuel : Nat) (n rest : List Nat) (e : Err)
    (hn : valid_name n) (hf : n.length < fuel)
    (hattr : q_read_attribute fuel (cursor ([] ++ n) (91 :: rest) []) = Result.raised e) :
    q_rb_parse_selector fuel (n ++ 91 :: rest) = Result.raised e := by
  have ht := q_read_selector_tail_attribute_raised fuel ([] ++ n) rest
    [Check.ClassCheck [VALUE.Symbol n]] e (by omega) hattr
  have h1 := q_read_selector_named fuel [] n (91 :: rest) hn
    (Or.inr (by simp [name_boundary])) hf
  simp only [q_rb_parse_selector, q_parser_init_cursor, q_rb_parser_run, h1, ht,
    Result.andThen_raised]

/-- The attribute `[k tok v]` or `[!k tok v]` with a bareword operand. -/
theorem q_read_attribute_bareword (fuel : Nat) (pre : List Nat) (inverted : Bool)
    (k tok v t : List Nat) (op : Operator)
    (hk : valid_name k) (hv : valid_name v) (hd : next_byte v ∉ digits)
    (htok : (tok, op) ∈ operator_tokens) (hf : k.length < fuel) (hfv : v.length < fuel) :
    q_read_attribute fuel
        (cursor pre (91 :: (bang_text inverted ++ (k ++ (tok ++ (v ++ 93 :: t))))) [])
      = Result.ok
          (some (Check.AttrCheck (VALUE.String k)
            (if inverted then q_invert_operator op else op) (VALUE.String v)))
          (cursor (pre ++ 91 :: (bang_text inverted ++ k) ++ tok ++ v ++ [93]) t []) := by
  have hv1 := valid_name_next v (93 :: t) hv
  have hvw := not_boundary_not_whitespace _ hv1.2
  have hvb := hv1.2
  simp only [name_boundary, List.mem_cons, List.mem_singleton, List.not_mem_nil, or_false,
    not_or] at hvb
  have hop := q_read_operand_bareword fuel (pre ++ 91 :: (bang_text inverted ++ k) ++ tok) v
    (93 :: t) hv hd (Or.inr (by simp [name_boundary])) hfv
  have h := q_read_attribute_operation_value fuel (pre ++ 91 :: (bang_text inverted ++ k)) tok
    (v ++ 93 :: t) op (VALUE.String v) _ t htok ⟨by omega, by omega, hvw⟩ (by omega) (by simp)
    hop
  rw [q_read_attribute_key fuel pre inverted k _ hk (operator_token_next tok _ op htok) hf, h]
  simp

/-- A class name and the attribute `[k tok v]` or `[!k tok v]` with a bareword
operand: the parse. -/
theorem q_rb_parse_selector_bareword (fuel : Nat) (inverted : Bool) (n k tok v : List Nat)
    (op : Operator) (hn : valid_name n) (hk : valid_name k) (hv : valid_name v)
    (hd : next_byte v ∉ digits) (htok : (tok, op) ∈ operator_tokens)
    (hf : n.length + k.length + v.length + 1 < fuel) :
    q_rb_parse_selector fuel (n ++ 91 :: (bang_text inverted ++ (k ++ (tok ++ (v ++ [93])))))
      = Result.ok
          (Selector.mk
            [Check.ClassCheck [VALUE.Symbol n],
             Check.AttrCheck (VALUE.String k) (if inverted then q_invert_operator op else op)
               (VALUE.String v)] false none)
          (q_parser_destroy (q_parser_init [] 0)) :=
  q_rb_parse_selector_class_attribute fuel n _ _ _ hn (by omega) (by omega)
    (q_read_attribute_bareword fuel ([] ++ n) inverted k tok v [] op hk hv hd htok (by omega)
      (by omega))

/-- C11: a class name and an attribute `[K tok V]` with a bareword operand `V`
(a valid name not starting with a digit) parse to one selector whose second
check is `AttrCheck{K, op(tok), V}`, for each of the seven operator tokens. -/
theorem C11_operator_tokens (fuel : Nat) (t k v tok : List Nat) (op : Operator)
    (ht : valid_name t) (hk : valid_name k) (hv : valid_name v)
    (hd : next_byte v ∉ digits) (htok : (tok, op) ∈ operator_tokens)
    (hf : (t ++ [91] ++ k ++ tok ++ v ++ [93]).length < fuel) :
    q_rb_parse_selector fuel (t ++ [91] ++ k ++ tok ++ v ++ [93])
      = Result.ok
          (Selector.mk
            [Check.ClassCheck [VALUE.Symbol t],
             Check.AttrCheck (VALUE.String k) op (VALUE.String v)] false none)
          (q_parser_destroy (q_parser_init [] 0)) := by
  have hin : t ++ [91] ++ k ++ tok ++ v ++ [93]
      = t ++ 91 :: (bang_text false ++ (k ++ (tok ++ (v ++ [93])))) := by
    simp [bang_text]
  have hlen : t.length + k.length + v.length + 1 < fuel := by
    simp only [List.length_append, List.length_singleton] at hf; omega
  rw [hin, q_rb_parse_selector_bareword fuel false t k tok v op ht hk hv hd htok hlen]
  simp

/-- C11 at the inputs `Button[k<-abc]` and `Button[k<=abc]`. -/
theorem C11_operator_tokens_witness :
    q_rb_parse_selector 20 (bytes "Button" ++ [91] ++ bytes "k" ++ [60, 45] ++ bytes "abc" ++ [93])
        = Result.ok
            (Selector.mk
              [Check.ClassCheck [VALUE.Symbol (bytes "Button")],
               Check.AttrCheck (VALUE.String (bytes "k")) Operator.contains
                 (VALUE.String (bytes "abc"))] false none)
            (q_parser_destroy (q_parser_init [] 0))
    ∧ q_rb_parse_selector 20
          (bytes "Button" ++ [91] ++ bytes "k" ++ [60, 61] ++ bytes "abc" ++ [93])
        = Result.ok
            (Selector.mk
              [Check.ClassCheck [VALUE.Symbol (bytes "Button")],
               Check.AttrCheck (VALUE.String (bytes "k")) Operator.lesser_equal
                 (VALUE.String (bytes "abc"))] false none)
            (q_parser_destroy (q_parser_init [] 0)) :=
  ⟨C11_operator_tokens 20 (bytes "Button") (bytes "k") (bytes "abc") [60, 45] Operator.contains
      (by decide) (by decide) (by decide) (by decide) (by decide) (by decide),
   C11_operator_tokens 20 (bytes "Button") (bytes "k") (bytes "abc") [60, 61]
      Operator.lesser_equal (by decide) (by decide) (by decide) (by decide) (by decide)
      (by decide)⟩

theorem q_invert_operator_spec (op : Operator) : q_invert_operator op = spec_inversion op := by
  cases op <;> rfl

/-- C12: a leading `!` in an attribute inverts the operator and changes nothing
else: `T[!K tok V]` parses like `T[K tok V]` with the operator replaced by its
image under the inversion table, and `T[!K]` yields
`AttrCheck{K, falseish, absent}`. -/
theorem C12_inverted_attribute (fuel : Nat) (t k v tok : List Nat) (op : Operator)
    (ht : valid_name t) (hk : valid_name k) (hv : valid_name v)
    (hd : next_byte v ∉ digits) (htok : (tok, op) ∈ operator_tokens)
    (hf : (t ++ [91, 33] ++ k ++ tok ++ v ++ [93]).length < fuel) :
    q_rb_parse_selector fuel (t ++ [91, 33] ++ k ++ tok ++ v ++ [93])
        = Result.ok
            (Selector.mk
              [Check.ClassCheck [VALUE.Symbol t],
               Check.AttrCheck (VALUE.String k) (spec_inversion op) (VALUE.String v)] false none)
            (q_parser_destroy (q_parser_init [] 0))
    ∧ q_rb_parse_selector fuel (t ++ [91] ++ k ++ tok ++ v ++ [93])
        = Result.ok
            (Selector.mk
              [Check.ClassCheck [VALUE.Symbol t],
               Check.AttrCheck (VALUE.String k) op (VALUE.String v)] false none)
            (q_parser_destroy (q_parser_init [] 0))
    ∧ q_rb_parse_selector fuel (t ++ [91, 33] ++ k ++ [93])
        = Result.ok
            (Selector.mk
              [Check.ClassCheck [VALUE.Symbol t],
               Check.AttrCheck (VALUE.String k) Operator.falseish VALUE.Qnil] false none)
            (q_parser_destroy (q_parser_init [] 0)) := by
  have hlen : t.length + k.length + v.length + 2 < fuel := by
    simp only [List.length_append, List.length_singleton, List.length_cons, List.length_nil]
      at hf
    omega
  refine ⟨?_, ?_, ?_⟩
  · have hin : t ++ [91, 33] ++ k ++ tok ++ v ++ [93]
        = t ++ 91 :: (bang_text true ++ (k ++ (tok ++ (v ++ [93])))) := by
      simp [bang_text]
    rw [hin, q_rb_parse_selector_bareword fuel true t k tok v op ht hk hv hd htok (by omega)]
    simp [q_invert_operator_spec]
  · have hin : t ++ [91] ++ k ++ tok ++ v ++ [93]
        = t ++ 91 :: (bang_text false ++ (k ++ (tok ++ (v ++ [93])))) := by
      simp [bang_text]
    rw [hin, q_rb_parse_selector_bareword fuel false t k tok v op ht hk hv hd htok (by omega)]
    simp
  · have hin : t ++ [91, 33] ++ k ++ [93] = t ++ 91 :: (bang_text true ++ (k ++ [93])) := by
      simp [bang_text]
    have hattr : q_read_attribute fuel (cursor ([] ++ t) (91 :: (bang_text true ++ (k ++ [93]))) [])
        = Result.ok (some (Check.AttrCheck (VALUE.String k) Operator.falseish VALUE.Qnil))
            (cursor ([] ++ t ++ 91 :: (bang_text true ++ k) ++ [93]) [] []) := by
      rw [q_read_attribute_key fuel _ true k [93] hk
        ⟨Or.inr (by simp [name_boundary]), by simp [whitespace]⟩ (by omega),
        q_read_attribute_operation_close]
      simp [q_invert_operator]
    rw [hin]
    exact q_rb_parse_selector_class_attribute fuel t _ _ _ ht (by omega) (by omega) hattr

/-- C12 at the inputs `Button[!k>=abc]`, `Button[k>=abc]` and `Button[!k]`. -/
theorem C12_inverted_attribute_witness :
    q_rb_parse_selector 20
          (bytes "Button" ++ [91, 33] ++ bytes "k" ++ [62, 61] ++ bytes "abc" ++ [93])
        = Result.ok
            (Selector.mk
              [Check.ClassCheck [VALUE.Symbol (bytes "Button")],
               Check.AttrCheck (VALUE.String (bytes "k")) (spec_inversion Operator.greater_equal)
                 (VALUE.String (bytes "abc"))] false none)
            (q_parser_destroy (q_parser_init [] 0))
    ∧ q_rb_parse_selector 20
          (bytes "Button" ++ [91] ++ bytes "k" ++ [62, 61] ++ bytes "abc" ++ [93])
        = Result.ok
            (Selector.mk
              [Check.ClassCheck [VALUE.Symbol (bytes "Button")],
               Check.AttrCheck (VALUE.String (bytes "k")) Operator.greater_equal
                 (VALUE.String (bytes "abc"))] false none)
            (q_parser_destroy (q_parser_init [] 0))
    ∧ q_rb_parse_selector 20 (bytes "Button" ++ [91, 33] ++ bytes "k" ++ [93])
        = Result.ok
            (Selector.mk
              [Check.ClassCheck [VALUE.Symbol (bytes "Button")],
               Check.AttrCheck (VALUE.String (bytes "k")) Operator.falseish VALUE.Qnil]
              false none)
            (q_parser_destroy (q_parser_init [] 0)) :=
  C12_inverted_attribute 20 (bytes "Button") (bytes "k") (bytes "abc") [62, 61]
    Operator.greater_equal (by decide) (by decide) (by decide) (by decide) (by decide)
    (by decide)

/-- C13: the operator inversion of `q_read_attribute` is the table of the
specification (trueish and falseish, equal and not_equal, lesser and
greater_equal, greater and lesser_equal swap, contains maps to itself), and
inverting twice gives back each of the nine operators. -/
theorem C13_inversion_involution (op : Operator) :
    q_invert_operator op = spec_inversion op
      ∧ q_invert_operator (q_invert_operator op) = op := by
  cases op <;> exact ⟨rfl, rfl⟩

/-- C14 at its own examples: `Button[]` and `Button[=3]` do not fail; the parser
returns an attribute check whose key is `Qnil`. -/
theorem C14_missing_key_accepted :
    q_rb_parse_selector 20 (bytes "Button[]")
        = Result.ok
            (Selector.mk
              [Check.ClassCheck [VALUE.Symbol (bytes "Button")],
               Check.AttrCheck VALUE.Qnil Operator.trueish VALUE.Qnil] false none)
            (q_parser_destroy (q_parser_init [] 0))
    ∧ q_rb_parse_selector 20 (bytes "Button[=3]")
        = Result.ok
            (Selector.mk
              [Check.ClassCheck [VALUE.Symbol (bytes "Button")],
               Check.AttrCheck VALUE.Qnil Operator.equal (VALUE.Integer 3)] false none)
            (q_parser_destroy (q_parser_init [] 0)) :=
  ⟨rfl, rfl⟩

/-- C15 at its own example `Button[k="a\"b"]` (operand bytes: quote, `a`,
backslash, quote, `b`, quote): the string ends at the quote after the backslash,
so the parse fails at `b`; and in `Button[k="a\"]` the backslash is kept in the
operand. -/
theorem C15_backslash_not_an_escape :
    q_rb_parse_selector 30 (bytes "Button[k=" ++ [34, 97, 92, 34, 98, 34] ++ bytes "]")
        = Result.raised Err.UnclosedAttribute
    ∧ q_rb_parse_selector 30 (bytes "Button[k=" ++ [34, 97, 92, 34] ++ bytes "]")
        = Result.ok
            (Selector.mk
              [Check.ClassCheck [VALUE.Symbol (bytes "Button")],
               Check.AttrCheck (VALUE.String (bytes "k")) Operator.equal
                 (VALUE.String [97, 92])] false none)
            (q_parser_destroy (q_parser_init [] 0))
    ∧ q_strnchr Q_QUOTE_OR_ESCAPE.chars Q_QUOTE_OR_ESCAPE.length 92 = false
    ∧ q_strnchr Q_QUOTE_OR_ESCAPE.chars Q_QUOTE_OR_ESCAPE.length 34 = true :=
  ⟨rfl, rfl, rfl, rfl⟩

/-- C17 at the input `Button[k=1E-5]`: the uppercase `E` is not taken as an
exponent mark, the number read is the integer `1` and the parse fails at `E`;
with a lowercase `e` the operand is the float literal `1e-5`. -/
theorem C17_uppercase_exponent_rejected :
    q_rb_parse_selector 20 (bytes "Button[k=1E-5]") = Result.raised Err.UnclosedAttribute
    ∧ q_rb_parse_selector 20 (bytes "Button[k=1e-5]")
        = Result.ok
            (Selector.mk
              [Check.ClassCheck [VALUE.Symbol (bytes "Button")],
               Check.AttrCheck (VALUE.String (bytes "k")) Operator.equal
                 (VALUE.Float (bytes "1e-5"))] false none)
            (q_parser_destroy (q_parser_init [] 0))
    ∧ q_strnchr Q_EXPONENT_MARK.chars Q_EXPONENT_MARK.length 69 = false
    ∧ q_strnchr Q_EXPONENT_MARK.chars Q_EXPONENT_MARK.length 101 = true :=
  ⟨rfl, rfl, rfl, rfl⟩

theorem q_read_number_unfold (fuel : Nat) (parser : qparser_t) :
    q_read_number fuel parser
      = (q_accept_run fuel parser Q_DIGITS Q_ADD_TO_BUFFER).andThen fun digits parser =>
        if digits ≠ 0 then
          (q_read_number_fraction fuel parser).andThen fun is_float parser =>
          (q_read_number_exponent fuel parser is_float).andThen fun is_float parser =>
          let parser := { parser with buffer := parser.buffer ++ [0] }
          let result :=
            if is_float then VALUE.Float (c_str parser.buffer)
            else VALUE.Integer (strtoll parser.buffer)
          Result.ok result (q_clear_buf parser)
        else Result.ok VALUE.Qnil parser := rfl

theorem digit_run_next (d t : List Nat) (hd : digit_run d) (hne : d ≠ []) :
    next_byte (d ++ t) ∈ digits := by
  cases d with
  | nil => exact absurd rfl hne
  | cons c d => simpa using hd c (by simp)

theorem digit_ne_zero (c : Nat) (h : c ∈ digits) : c ≠ 0 := by
  simp only [digits, List.mem_cons, List.mem_singleton, List.not_mem_nil, or_false] at h
  omega

theorem q_strnchr_plusminus (c : Nat) :
    q_strnchr Q_EXP_PLUSMINUS_MARK.chars Q_EXP_PLUSMINUS_MARK.length c
      = decide (c = 43 ∨ c = 45) := by
  by_cases hc : c = 0
  · subst hc; simp [q_strnchr]
  · simp [q_strnchr, Q_EXP_PLUSMINUS_MARK, hc]

/-- The fractional part on the text of a well-formed literal. -/
theorem q_read_number_fraction_text (fuel : Nat) (pre buf : List Nat) (frac : Option (List Nat))
    (t : List Nat) (hfrac : fraction_ok frac)
    (ht : next_byte t ∉ digits ∧ next_byte t ≠ 46)
    (hf : (fraction_text frac).length < fuel) :
    q_read_number_fraction fuel (cursor pre (fraction_text frac ++ t) buf)
      = Result.ok frac.isSome
          (cursor (pre ++ fraction_text frac) t (buf ++ fraction_text frac)) := by
  cases frac with
  | none =>
    simp [q_read_number_fraction, fraction_text, Q_DECIMAL_MARK,
      q_accept_one_miss pre t buf 46 [] _ ht.2]
  | some f =>
    obtain ⟨hd, hne⟩ := hfrac
    have hlen : f.length ≠ 0 := fun h => hne (List.length_eq_zero.mp h)
    simp only [fraction_text, List.length_cons] at hf
    simp only [q_read_number_fraction, fraction_text, Q_DECIMAL_MARK, Q_ADD_TO_BUFFER,
      List.cons_append, q_accept_one_hit pre 46 (f ++ t) buf [] true (by decide)]
    simp only [if_true, ne_eq, OfNat.ofNat_ne_zero, not_false_eq_true,
      q_accept_run_digits fuel (pre ++ [46]) f t (buf ++ [46]) hd (by omega) ht.1,
      Result.andThen_ok, hlen, if_false]
    simp

/-- The exponent part on the text of a well-formed literal. -/
theorem q_read_number_exponent_text (fuel : Nat) (pre buf : List Nat)
    (exp : Option (List Nat × List Nat)) (t : List Nat) (is_float : Bool)
    (hexp : exponent_ok exp)
    (ht : next_byte t ∉ digits ∧ next_byte t ≠ 101)
    (hf : (exponent_text exp).length < fuel) :
    q_read_number_exponent fuel (cursor pre (exponent_text exp ++ t) buf) is_float
      = Result.ok (is_float || (exp.map fun e => decide (e.1 = [45])).getD false)
          (cursor (pre ++ exponent_text exp) t (buf ++ exponent_text exp)) := by
  cases exp with
  | none =>
    simp [q_read_number_exponent, exponent_text, Q_EXPONENT_MARK,
      q_accept_one_miss pre t buf 101 [69] _ ht.2]
  | some e =>
    obtain ⟨sign, x⟩ := e
    obtain ⟨hs, hd, hne⟩ := hexp
    have hlen : x.length ≠ 0 := fun h => hne (List.length_eq_zero.mp h)
    have hx := digit_run_next x t hd hne
    simp only [exponent_text, List.length_cons, List.length_append] at hf
    simp only [q_read_number_exponent, exponent_text, Q_EXPONENT_MARK, Q_ADD_TO_BUFFER,
      List.cons_append, q_accept_one_hit pre 101 (sign ++ x ++ t) buf [69] true (by decide)]
    rcases hs with rfl | rfl | rfl
    · have hmiss : q_strnchr Q_EXP_PLUSMINUS_MARK.chars Q_EXP_PLUSMINUS_MARK.length
          (next_byte (x ++ t)) = false := by
        rw [q_strnchr_plusminus]
        simp only [digits, List.mem_cons, List.mem_singleton, List.not_mem_nil, or_false] at hx
        simp; omega
      simp only [if_true, ne_eq, OfNat.ofNat_ne_zero, not_false_eq_true, List.nil_append,
        q_accept_miss _ _ _ _ _ hmiss,
        q_accept_run_digits fuel (pre ++ [101]) x t (buf ++ [101]) hd (by omega) ht.1,
        Result.andThen_ok, hlen, if_false]
      simp
    · have hhit : q_strnchr Q_EXP_PLUSMINUS_MARK.chars Q_EXP_PLUSMINUS_MARK.length 43 = true := by
        rw [q_strnchr_plusminus]; simp
      simp only [if_true, ne_eq, OfNat.ofNat_ne_zero, not_false_eq_true, List.cons_append,
        List.nil_append, List.append_assoc, q_accept_hit _ 43 (x ++ t) _ _ _ hhit,
        q_accept_run_digits fuel (pre ++ [101, 43]) x t (buf ++ [101, 43]) hd (by omega)
          ht.1,
        Result.andThen_ok, hlen, if_false]
      simp
    · have hhit : q_strnchr Q_EXP_PLUSMINUS_MARK.chars Q_EXP_PLUSMINUS_MARK.length 45 = true := by
        rw [q_strnchr_plusminus]; simp
      simp only [if_true, ne_eq, OfNat.ofNat_ne_zero, not_false_eq_true, List.cons_append,
        List.nil_append, List.append_assoc, q_accept_hit _ 45 (x ++ t) _ _ _ hhit,
        q_accept_run_digits fuel (pre ++ [101, 45]) x t (buf ++ [101, 45]) hd (by omega)
          ht.1,
        Result.andThen_ok, hlen, if_false]
      simp

theorem cursor_buffer (pre rest buf : List Nat) : (cursor pre rest buf).buffer = buf := rfl

theorem c_str_append_zero (l : List Nat) (h : ∀ c ∈ l, c ≠ 0) : c_str (l ++ [0]) = l := by
  induction l with
  | nil => simp [c_str]
  | cons c l ih =>
    have hc := h c (by simp)
    have ih2 := ih (fun x hx => h x (by simp [hx]))
    simp only [c_str] at ih2 ⊢
    simp [List.takeWhile_cons, hc, ih2]

theorem digit_run_ne_zero (d : List Nat) (hd : digit_run d) : ∀ c ∈ d, c ≠ 0 :=
  fun c hc => digit_ne_zero c (hd c hc)

theorem number_text_ne_zero (d : List Nat) (frac : Option (List Nat))
    (exp : Option (List Nat × List Nat)) (hd : digit_run d) (hfrac : fraction_ok frac)
    (hexp : exponent_ok exp) : ∀ c ∈ number_text d frac exp, c ≠ 0 := by
  intro c hc
  simp only [number_text, List.mem_append] at hc
  rcases hc with hc | hc | hc
  · exact digit_run_ne_zero d hd c hc
  · cases frac with
    | none => simp [fraction_text] at hc
    | some f =>
      simp only [fraction_text, List.mem_cons] at hc
      rcases hc with hc | hc
      · omega
      · exact digit_run_ne_zero f hfrac.1 c hc
  · rcases exp with _ | ⟨sign, x⟩
    · simp [exponent_text] at hc
    · obtain ⟨hs, hx, _⟩ := hexp
      simp only [exponent_text, List.mem_cons, List.mem_append] at hc
      rcases hc with hc | hc | hc
      · omega
      · rcases hs with rfl | rfl | rfl <;> simp at hc <;> omega
      · exact digit_run_ne_zero x hx c hc

theorem fraction_exponent_next (frac : Option (List Nat)) (exp : Option (List Nat × List Nat))
    (t : List Nat) :
    next_byte (fraction_text frac ++ (exponent_text exp ++ 93 :: t)) ∉ digits
      ∧ next_byte (exponent_text exp ++ 93 :: t) ∉ digits
      ∧ next_byte (exponent_text exp ++ 93 :: t) ≠ 46 := by
  rcases exp with _ | ⟨sign, x⟩ <;> cases frac <;>
    simp [fraction_text, exponent_text, digits]

/-- A well-formed number literal right before `]`, read by `q_read_number`: a
float when it has a fractional part or a negative exponent sign, else an
integer. -/
theorem q_read_number_literal (fuel : Nat) (pre d : List Nat) (frac : Option (List Nat))
    (exp : Option (List Nat × List Nat)) (t : List Nat)
    (hd : digit_run d) (hne : d ≠ []) (hfrac : fraction_ok frac) (hexp : exponent_ok exp)
    (hf : (number_text d frac exp).length < fuel) :
    q_read_number fuel (cursor pre (number_text d frac exp ++ 93 :: t) [])
      = Result.ok
          (if literal_is_float frac exp then VALUE.Float (number_text d frac exp)
           else VALUE.Integer (strtoll (number_text d frac exp ++ [0])))
          (cursor (pre ++ number_text d frac exp) (93 :: t) []) := by
  have hnext := fraction_exponent_next frac exp t
  have hlen : d.length ≠ 0 := fun h => hne (List.length_eq_zero.mp h)
  have hz := c_str_append_zero _ (number_text_ne_zero d frac exp hd hfrac hexp)
  simp only [number_text, List.length_append] at hf
  have hA := q_accept_run_digits fuel pre d (fraction_text frac ++ (exponent_text exp ++ 93 :: t))
    [] hd (by omega) hnext.1
  have hB := q_read_number_fraction_text fuel (pre ++ d) ([] ++ d) frac
    (exponent_text exp ++ 93 :: t) hfrac ⟨hnext.2.1, hnext.2.2⟩ (by omega)
  have hC := q_read_number_exponent_text fuel (pre ++ d ++ fraction_text frac)
    ([] ++ d ++ fraction_text frac) exp (93 :: t) frac.isSome hexp
    ⟨by simp [digits], by simp⟩ (by omega)
  rw [q_read_number_unfold]
  simp only [number_text, List.append_assoc, Q_ADD_TO_BUFFER] at hA hB hC hz ⊢
  rw [hA]
  simp only [Result.andThen_ok, ne_eq, hlen, not_false_eq_true, if_true, hB, hC, q_clear_buf,
    literal_is_float]
  simp only [List.nil_append, List.append_assoc, cursor_buffer] at hz ⊢
  rw [hz]
  simp [cursor]

/-- A well-formed number literal right before `]` as the operand of an
attribute. -/
theorem q_read_operand_number (fuel : Nat) (pre d : List Nat) (frac : Option (List Nat))
    (exp : Option (List Nat × List Nat)) (t : List Nat)
    (hd : digit_run d) (hne : d ≠ []) (hfrac : fraction_ok frac) (hexp : exponent_ok exp)
    (hf : (number_text d frac exp).length < fuel) :
    q_read_operand fuel (cursor pre (number_text d frac exp ++ 93 :: t) [])
      = Result.ok
          (if literal_is_float frac exp then VALUE.Float (number_text d frac exp)
           else VALUE.Integer (strtoll (number_text d frac exp ++ [0])))
          (cursor (pre ++ number_text d frac exp) (93 :: t) []) := by
  have hn : next_byte (number_text d frac exp ++ 93 :: t) ∈ digits := by
    rw [number_text, List.append_assoc]; exact digit_run_next d _ hd hne
  have h34 : next_byte (number_text d frac exp ++ 93 :: t) ≠ 34 := by
    simp only [digits, List.mem_cons, List.mem_singleton, List.not_mem_nil, or_false] at hn
    omega
  simp only [q_read_operand, q_read_string_none fuel pre _ [] h34, Result.andThen_ok, RTEST,
    q_read_number_literal fuel pre d frac exp t hd hne hfrac hexp hf]
  cases literal_is_float frac exp <;> simp

/-- A class name and an attribute `[k tok ...]` whose operand reader returns a
value right before the closing `]` that ends the input: the parse. -/
theorem q_rb_parse_selector_operand (fuel : Nat) (n k tok rest : List Nat) (op : Operator)
    (operand : VALUE) (hn : valid_name n) (hk : valid_name k)
    (htok : (tok, op) ∈ operator_tokens)
    (hrest : next_byte rest ≠ 61 ∧ next_byte rest ≠ 45 ∧ next_byte rest ∉ whitespace)
    (hf : n.length < fuel ∧ k.length < fuel ∧ 1 < fuel) (hv : operand ≠ VALUE.Qnil)
    (hop : ∀ pre, ∃ pre', q_read_operand fuel (cursor pre rest [])
      = Result.ok operand (cursor pre' [93] [])) :
    q_rb_parse_selector fuel (n ++ 91 :: (k ++ (tok ++ rest)))
      = Result.ok
          (Selector.mk [Check.ClassCheck [VALUE.Symbol n],
            Check.AttrCheck (VALUE.String k) op operand] false none)
          (q_parser_destroy (q_parser_init [] 0)) := by
  obtain ⟨pre', hop'⟩ := hop ([] ++ n ++ 91 :: (bang_text false ++ k) ++ tok)
  have h := q_read_attribute_operation_value fuel ([] ++ n ++ 91 :: (bang_text false ++ k)) tok
    rest op operand pre' [] htok hrest (by omega) hv hop'
  have hattr : q_read_attribute fuel
      (cursor ([] ++ n) (91 :: (bang_text false ++ (k ++ (tok ++ rest)))) [])
      = Result.ok (some (Check.AttrCheck (VALUE.String k) op operand))
          (cursor (pre' ++ [93]) [] []) := by
    rw [q_read_attribute_key fuel _ false k _ hk (operator_token_next tok _ op htok) hf.2.1, h]
    simp
  exact q_rb_parse_selector_class_attribute fuel n _ _ _ hn hf.1 hf.2.2 hattr

/-- A class name and an attribute `[k tok ...]` whose operand reader raises: the
parse raises the same error. -/
theorem q_rb_parse_selector_operand_raised (fuel : Nat) (n k tok rest : List Nat)
    (op : Operator) (e : Err) (hn : valid_name n) (hk : valid_name k)
    (htok : (tok, op) ∈ operator_tokens)
    (hrest : next_byte rest ≠ 61 ∧ next_byte rest ≠ 45 ∧ next_byte rest ∉ whitespace)
    (hf : n.length < fuel ∧ k.length < fuel)
    (hop : ∀ pre, q_read_operand fuel (cursor pre rest []) = Result.raised e) :
    q_rb_parse_selector fuel (n ++ 91 :: (k ++ (tok ++ rest))) = Result.raised e := by
  have h := q_read_attribute_operation_raised fuel ([] ++ n ++ 91 :: (bang_text false ++ k)) tok
    rest op e htok hrest (by omega) (hop _)
  have hattr : q_read_attribute fuel
      (cursor ([] ++ n) (91 :: (bang_text false ++ (k ++ (tok ++ rest)))) [])
      = Result.raised e := by
    rw [q_read_attribute_key fuel _ false k _ hk (operator_token_next tok _ op htok) hf.2, h]
    rfl
  exact q_rb_parse_selector_class_attribute_raised fuel n _ e hn hf.1 hattr

theorem digit_next_facts (c : Nat) (h : c ∈ digits) :
    c ≠ 61 ∧ c ≠ 45 ∧ c ∉ whitespace ∧ c ≠ 34 := by
  simp only [digits, whitespace, List.mem_cons, List.mem_singleton, List.not_mem_nil,
    or_false] at h ⊢
  omega

/-- C16: a numeric operand literal `digits [. digits] [e [+|-] digits]` right
before `]` is tagged float exactly when it has a fractional part or a negative
exponent sign, and integer otherwise. -/
theorem C16_number_tag (fuel : Nat) (t k tok : List Nat) (op : Operator) (d : List Nat)
    (frac : Option (List Nat)) (exp : Option (List Nat × List Nat))
    (ht : valid_name t) (hk : valid_name k) (htok : (tok, op) ∈ operator_tokens)
    (hd : digit_run d) (hne : d ≠ []) (hfrac : fraction_ok frac) (hexp : exponent_ok exp)
    (hf : (t ++ [91] ++ k ++ tok ++ number_text d frac exp ++ [93]).length < fuel) :
    q_rb_parse_selector fuel (t ++ [91] ++ k ++ tok ++ number_text d frac exp ++ [93])
      = Result.ok
          (Selector.mk
            [Check.ClassCheck [VALUE.Symbol t],
             Check.AttrCheck (VALUE.String k) op
               (if literal_is_float frac exp then VALUE.Float (number_text d frac exp)
                else VALUE.Integer (strtoll (number_text d frac exp ++ [0])))] false none)
          (q_parser_destroy (q_parser_init [] 0)) := by
  have hin : t ++ [91] ++ k ++ tok ++ number_text d frac exp ++ [93]
      = t ++ 91 :: (k ++ (tok ++ (number_text d frac exp ++ [93]))) := by simp
  have hlen : t.length + k.length + (number_text d frac exp).length + 1 < fuel := by
    simp only [List.length_append, List.length_singleton] at hf; omega
  have hn : next_byte (number_text d frac exp ++ [93]) ∈ digits := by
    rw [number_text, List.append_assoc]; exact digit_run_next d _ hd hne
  have hfacts := digit_next_facts _ hn
  rw [hin]
  refine q_rb_parse_selector_operand fuel t k tok _ op _ ht hk htok
    ⟨hfacts.1, hfacts.2.1, hfacts.2.2.1⟩ ⟨by omega, by omega, by omega⟩ ?_ ?_
  · cases literal_is_float frac exp <;> simp
  · intro pre
    exact ⟨_, q_read_operand_number fuel pre d frac exp [] hd hne hfrac hexp (by omega)⟩

/-- C16 at the inputs `Button[count>=3.5]` and `Button[n=1e+5]`. -/
theorem C16_number_tag_witness :
    q_rb_parse_selector 30 (bytes "Button[count>=3.5]")
        = Result.ok
            (Selector.mk
              [Check.ClassCheck [VALUE.Symbol (bytes "Button")],
               Check.AttrCheck (VALUE.String (bytes "count")) Operator.greater_equal
                 (VALUE.Float (bytes "3.5"))] false none)
            (q_parser_destroy (q_parser_init [] 0))
    ∧ q_rb_parse_selector 30 (bytes "Button[n=1e+5]")
        = Result.ok
            (Selector.mk
              [Check.ClassCheck [VALUE.Symbol (bytes "Button")],
               Check.AttrCheck (VALUE.String (bytes "n")) Operator.equal
                 (VALUE.Integer (strtoll (bytes "1e+5" ++ [0])))] false none)
            (q_parser_destroy (q_parser_init [] 0)) :=
  ⟨C16_number_tag 30 (bytes "Button") (bytes "count") [62, 61] Operator.greater_equal
      (bytes "3") (some (bytes "5")) none (by decide) (by decide) (by decide) (by decide)
      (by decide) (by decide) (by decide) (by decide),
   C16_number_tag 30 (bytes "Button") (bytes "n") [61] Operator.equal
      (bytes "1") none (some ([43], bytes "5")) (by decide) (by decide) (by decide) (by decide)
      (by decide) (by decide) (by decide) (by decide)⟩

/-- A decimal mark that no digit follows: `q_read_number` raises. -/
theorem q_read_number_no_fraction (fuel : Nat) (pre d r : List Nat)
    (hd : digit_run d) (hne : d ≠ []) (hr : next_byte r ∉ digits) (hf : d.length < fuel) :
    q_read_number fuel (cursor pre (d ++ 46 :: r) [])
      = Result.raised Err.InvalidNumberFormatFraction := by
  have hlen : d.length ≠ 0 := fun h => hne (List.length_eq_zero.mp h)
  have hA := q_accept_run_digits fuel pre d (46 :: r) [] hd hf (by simp [digits])
  have hrun : ∀ p b, q_accept_run fuel (cursor p r b) Q_DIGITS true = Result.ok 0 (cursor p r b) := by
    intro p b
    have h := q_accept_run_digits fuel p [] r b (by simp [digit_run]) (by simp; omega) hr
    simpa using h
  have hfrac : q_read_number_fraction fuel (cursor (pre ++ d) (46 :: r) d)
      = Result.raised Err.InvalidNumberFormatFraction := by
    simp only [q_read_number_fraction, Q_DECIMAL_MARK, Q_ADD_TO_BUFFER,
      q_accept_one_hit (pre ++ d) 46 r d [] true (by decide)]
    simp [hrun]
  rw [q_read_number_unfold]
  simp only [Q_ADD_TO_BUFFER, List.nil_append] at hA ⊢
  rw [hA]
  simp [hlen, hfrac]

/-- An exponent mark, an optional sign, and no digit after them: `q_read_number`
raises. -/
theorem q_read_number_no_exponent (fuel : Nat) (pre d s r : List Nat)
    (hd : digit_run d) (hne : d ≠ []) (hs : s = [] ∨ s = [43] ∨ s = [45])
    (hr : next_byte r ∉ digits) (hr2 : s = [] → next_byte r ≠ 43 ∧ next_byte r ≠ 45)
    (hf : d.length < fuel) :
    q_read_number fuel (cursor pre (d ++ 101 :: (s ++ r)) [])
      = Result.raised Err.InvalidNumberFormatExponent := by
  have hlen : d.length ≠ 0 := fun h => hne (List.length_eq_zero.mp h)
  have hA := q_accept_run_digits fuel pre d (101 :: (s ++ r)) [] hd hf (by simp [digits])
  have hB := q_read_number_fraction_text fuel (pre ++ d) ([] ++ d) none (101 :: (s ++ r))
    True.intro ⟨by simp [digits], by simp⟩ (by simp [fraction_text]; omega)
  simp only [fraction_text, List.nil_append, List.append_nil, Option.isSome_none] at hB
  have hrun : ∀ p b, q_accept_run fuel (cursor p r b) Q_DIGITS true = Result.ok 0 (cursor p r b) := by
    intro p b
    have h := q_accept_run_digits fuel p [] r b (by simp [digit_run]) (by simp; omega) hr
    simpa using h
  have hexp : q_read_number_exponent fuel (cursor (pre ++ d) (101 :: (s ++ r)) d) false
      = Result.raised Err.InvalidNumberFormatExponent := by
    simp only [q_read_number_exponent, Q_EXPONENT_MARK, Q_ADD_TO_BUFFER,
      q_accept_one_hit (pre ++ d) 101 (s ++ r) d [69] true (by decide)]
    rcases hs with rfl | rfl | rfl
    · have hmiss : q_strnchr Q_EXP_PLUSMINUS_MARK.chars Q_EXP_PLUSMINUS_MARK.length
          (next_byte r) = false := by
        rw [q_strnchr_plusminus]
        have := hr2 rfl
        simp; omega
      simp [q_accept_miss _ _ _ _ _ hmiss, hrun]
    · have hhit : q_strnchr Q_EXP_PLUSMINUS_MARK.chars Q_EXP_PLUSMINUS_MARK.length 43 = true := by
        rw [q_strnchr_plusminus]; simp
      simp [q_accept_hit _ 43 r _ _ _ hhit, hrun]
    · have hhit : q_strnchr Q_EXP_PLUSMINUS_MARK.chars Q_EXP_PLUSMINUS_MARK.length 45 = true := by
        rw [q_strnchr_plusminus]; simp
      simp [q_accept_hit _ 45 r _ _ _ hhit, hrun]
  rw [q_read_number_unfold]
  simp only [Q_ADD_TO_BUFFER, List.nil_append] at hA hB ⊢
  rw [hA]
  simp [hlen, hB, hexp]

theorem q_read_operand_number_raised (fuel : Nat) (pre d rest : List Nat) (e : Err)
    (hd : digit_run d) (hne : d ≠ [])
    (h : q_read_number fuel (cursor pre (d ++ rest) []) = Result.raised e) :
    q_read_operand fuel (cursor pre (d ++ rest) []) = Result.raised e := by
  have h34 := (digit_next_facts _ (digit_run_next d rest hd hne)).2.2.2
  simp [q_read_operand, q_read_string_none fuel pre _ [] h34, RTEST, h]

/-- C18: in a numeric operand a decimal mark that no digit follows fails with
"expected fractional value", and an exponent mark (with an optional sign) that
no digit follows fails with "expected exponent". -/
theorem C18_number_format (fuel : Nat) (t k d r1 s r2 : List Nat)
    (ht : valid_name t) (hk : valid_name k) (hd : digit_run d) (hne : d ≠ [])
    (hr1 : next_byte r1 ∉ digits)
    (hs : s = [] ∨ s = [43] ∨ s = [45]) (hr2 : next_byte r2 ∉ digits)
    (hr3 : s = [] → next_byte r2 ≠ 43 ∧ next_byte r2 ≠ 45)
    (hf : t.length + k.length + d.length < fuel) :
    (q_rb_parse_selector fuel (t ++ [91] ++ k ++ [61] ++ d ++ [46] ++ r1)
        = Result.raised Err.InvalidNumberFormatFraction
      ∧ Err.InvalidNumberFormatFraction.message
          = "Invalid number format: expected fractional value")
    ∧ (q_rb_parse_selector fuel (t ++ [91] ++ k ++ [61] ++ d ++ [101] ++ s ++ r2)
        = Result.raised Err.InvalidNumberFormatExponent
      ∧ Err.InvalidNumberFormatExponent.message = "Invalid number format: expected exponent") := by
  have hn : ∀ rest, next_byte (d ++ rest) ≠ 61 ∧ next_byte (d ++ rest) ≠ 45
      ∧ next_byte (d ++ rest) ∉ whitespace := by
    intro rest
    have h := digit_next_facts _ (digit_run_next d rest hd hne)
    exact ⟨h.1, h.2.1, h.2.2.1⟩
  have heq : ([61], Operator.equal) ∈ operator_tokens := by simp [operator_tokens]
  refine ⟨⟨?_, rfl⟩, ?_, rfl⟩
  · have hin : t ++ [91] ++ k ++ [61] ++ d ++ [46] ++ r1
        = t ++ 91 :: (k ++ ([61] ++ (d ++ 46 :: r1))) := by simp
    rw [hin]
    exact q_rb_parse_selector_operand_raised fuel t k [61] _ Operator.equal _ ht hk heq (hn _)
      ⟨by omega, by omega⟩
      (fun pre => q_read_operand_number_raised fuel pre d _ _ hd hne
        (q_read_number_no_fraction fuel pre d r1 hd hne hr1 (by omega)))
  · have hin : t ++ [91] ++ k ++ [61] ++ d ++ [101] ++ s ++ r2
        = t ++ 91 :: (k ++ ([61] ++ (d ++ 101 :: (s ++ r2)))) := by simp
    rw [hin]
    exact q_rb_parse_selector_operand_raised fuel t k [61] _ Operator.equal _ ht hk heq (hn _)
      ⟨by omega, by omega⟩
      (fun pre => q_read_operand_number_raised fuel pre d _ _ hd hne
        (q_read_number_no_exponent fuel pre d s r2 hd hne hs hr2 hr3 (by omega)))

/-- C18 at the inputs `Button[n=3.]` and `Button[n=3e+]`. -/
theorem C18_number_format_witness :
    (q_rb_parse_selector 20 (bytes "Button" ++ [91] ++ bytes "n" ++ [61] ++ bytes "3" ++ [46]
          ++ bytes "]")
        = Result.raised Err.InvalidNumberFormatFraction
      ∧ Err.InvalidNumberFormatFraction.message
          = "Invalid number format: expected fractional value")
    ∧ (q_rb_parse_selector 20 (bytes "Button" ++ [91] ++ bytes "n" ++ [61] ++ bytes "3" ++ [101]
          ++ [43] ++ bytes "]")
        = Result.raised Err.InvalidNumberFormatExponent
      ∧ Err.InvalidNumberFormatExponent.message = "Invalid number format: expected exponent") :=
  C18_number_format 20 (bytes "Button") (bytes "n") (bytes "3") (bytes "]") [43] (bytes "]")
    (by decide) (by decide) (by decide) (by decide) (by decide) (by decide) (by decide)
    (by decide) (by decide)

/-- An opening quote and then no quote (and no NUL) up to the end of the input:
`q_read_string` raises. -/
theorem q_read_string_unterminated (fuel : Nat) (pre b : List Nat)
    (hb : ∀ c ∈ b, c ≠ 34 ∧ c ≠ 0) (hf : b.length < fuel) :
    q_read_string fuel (cursor pre (34 :: b) []) = Result.raised Err.UnterminatedString := by
  have hn : ∀ c ∈ b, c ≠ 0 ∧
      q_strnchr Q_QUOTE_OR_ESCAPE.chars Q_QUOTE_OR_ESCAPE.length c = false := by
    intro c hc
    have h := hb c hc
    exact ⟨h.2, by simp [Q_QUOTE_OR_ESCAPE, q_strnchr_one, h.1]⟩
  have hu := q_accept_until_loop_cursor Q_QUOTE_OR_ESCAPE true b hn fuel (pre ++ [34]) [] [] 0 hf
    (Or.inl rfl)
  simp only [List.append_nil, if_true, List.nil_append, Nat.zero_add] at hu
  obtain ⟨k, hk⟩ : ∃ k, fuel = k + 1 := ⟨fuel - 1, by omega⟩
  have hloop : q_read_string_loop fuel fuel (cursor (pre ++ [34]) b [])
      = Result.ok () (cursor (pre ++ [34] ++ b) [] b) := by
    conv => lhs; arg 2; rw [hk]
    simp only [q_read_string_loop, q_accept_until, Q_ADD_TO_BUFFER, hu, Result.andThen_ok,
      q_accept_cursor_nil]
    simp
  simp only [q_read_string, Q_QUOTE, Q_DO_NOT_ADD_TO_BUFFER,
    q_accept_one_hit pre 34 b [] [] false (by decide)]
  simp only [Bool.false_eq_true, if_false, ne_eq, OfNat.ofNat_ne_zero, not_false_eq_true, if_true,
    hloop, Result.andThen_ok, q_accept_cursor_nil]
  simp

theorem cursor_le.same (p : qparser_t) : cursor_le p p := Nat.le_refl _

theorem cursor_le.chain {p p1 p2 : qparser_t} (h1 : cursor_le p p1) (h2 : cursor_le p1 p2) :
    cursor_le p p2 := Nat.le_trans h1 h2

theorem q_read_le (p : qparser_t) (add : Bool) : cursor_le p (q_read p add).2 := by
  unfold q_read cursor_le
  simp only []
  split
  · split <;> simp
  · simp

theorem q_accept_le (p : qparser_t) (chars : qchars_t) (add : Bool) :
    cursor_le p (q_accept p chars add).2 := by
  unfold q_accept
  split
  · exact q_read_le p add
  · exact cursor_le.same p

theorem q_clear_buf_le (p : qparser_t) : cursor_le p (q_clear_buf p) := Nat.le_refl _

theorem Forward.of_le {α : Type} {p p1 : qparser_t} {r : Result α}
    (h : cursor_le p p1) (h1 : Forward p1 r) : Forward p r :=
  Post.mono h1 fun _ _ h2 => cursor_le.chain h h2

theorem q_accept_run_loop_forward (chars : qchars_t) (add : Bool) :
    ∀ (n : Nat) (p : qparser_t) (accepted : Nat),
      Forward p (q_accept_run_loop chars add n p accepted) := by
  intro n
  induction n with
  | zero => intro p accepted; exact Post.no_fuel _
  | succ n ih =>
    intro p accepted
    simp only [q_accept_run_loop]
    apply Post.ite
    · exact Forward.of_le (q_accept_le _ _ _) (ih _ _)
    · exact Post.ok (q_accept_le _ _ _)

theorem q_accept_until_loop_forward (chars : qchars_t) (add : Bool) :
    ∀ (n : Nat) (p : qparser_t) (accepted : Nat),
      Forward p (q_accept_until_loop chars add n p accepted) := by
  intro n
  induction n with
  | zero => intro p accepted; exact Post.no_fuel _
  | succ n ih =>
    intro p accepted
    simp only [q_accept_until_loop]
    apply Post.ite
    · exact Forward.of_le (q_read_le _ _) (ih _ _)
    · exact Post.ok (cursor_le.same _)

theorem q_skip_whitespace_forward (fuel : Nat) : ∀ (p : qparser_t),
    Forward p (q_skip_whitespace fuel p) := by
  unfold q_skip_whitespace
  induction fuel with
  | zero => intro p; exact Post.no_fuel _
  | succ n ih =>
    intro p
    simp only [q_skip_whitespace_loop]
    apply Post.ite
    · exact Forward.of_le (q_read_le _ _) (ih _)
    · exact Post.ok (cursor_le.same _)

theorem q_read_name_forward (fuel : Nat) (p : qparser_t) (as_symbol : Bool) :
    Forward p (q_read_name fuel p as_symbol) := by
  unfold q_read_name
  apply Post.andThen (q_accept_until_loop_forward _ _ _ _ _)
  intro v p1 h1
  apply Post.ite
  · exact Post.ok (cursor_le.chain h1 (q_clear_buf_le _))
  · exact Post.ok h1

theorem cursor_le.after_accept {p p1 : qparser_t} (h : cursor_le p p1) (chars : qchars_t)
    (add : Bool) : cursor_le p (q_accept p1 chars add).2 :=
  cursor_le.chain h (q_accept_le _ _ _)

theorem cursor_le.after_read {p p1 : qparser_t} (h : cursor_le p p1) (add : Bool) :
    cursor_le p (q_read p1 add).2 :=
  cursor_le.chain h (q_read_le _ _)

theorem cursor_le.after_clear {p p1 : qparser_t} (h : cursor_le p p1) :
    cursor_le p (q_clear_buf p1) :=
  cursor_le.chain h (q_clear_buf_le _)

theorem q_accept_run_forward (fuel : Nat) (p : qparser_t) (chars : qchars_t) (add : Bool) :
    Forward p (q_accept_run fuel p chars add) :=
  q_accept_run_loop_forward _ _ _ _ _

theorem q_accept_until_forward (fuel : Nat) (p : qparser_t) (chars : qchars_t) (add : Bool) :
    Forward p (q_accept_until fuel p chars add) :=
  q_accept_until_loop_forward _ _ _ _ _

theorem q_read_string_loop_forward (fuel : Nat) : ∀ (n : Nat) (p : qparser_t),
    Forward p (q_read_string_loop fuel n p) := by
  intro n
  induction n with
  | zero => intro p; exact Post.no_fuel _
  | succ n ih =>
    intro p
    simp only [q_read_string_loop]
    apply Post.andThen (q_accept_until_forward _ _ _ _)
    intro _ p1 h1
    apply Post.ite
    · exact Forward.of_le ((h1.after_accept _ _).after_read _) (ih _)
    · exact Post.ok (h1.after_accept _ _)

theorem q_read_string_forward (fuel : Nat) (p : qparser_t) : Forward p (q_read_string fuel p) := by
  unfold q_read_string
  apply Post.ite
  · apply Post.andThen (Forward.of_le (q_accept_le _ _ _) (q_read_string_loop_forward _ _ _))
    intro _ p1 h1
    apply Post.ite
    · exact Post.ok ((h1.after_accept _ _).after_clear)
    · exact Post.raised _ _
  · exact Post.ok (q_accept_le _ _ _)

theorem q_read_number_forward (fuel : Nat) (p : qparser_t) : Forward p (q_read_number fuel p) := by
  unfold q_read_number
  apply Post.andThen (q_accept_run_forward _ _ _ _)
  intro _ p1 h1
  apply Post.ite
  · apply Post.andThen (R := fun _ p' => cursor_le p p')
    · apply Post.ite
      · apply Post.andThen (Forward.of_le (h1.after_accept _ _) (q_accept_run_forward _ _ _ _))
        intro _ p2 h2
        apply Post.ite
        · exact Post.raised _ _
        · exact Post.ok h2
      · exact Post.ok (h1.after_accept _ _)
    · intro _ p2 h2
      apply Post.andThen (R := fun _ p' => cursor_le p p')
      · apply Post.ite
        · apply Post.andThen
            (Forward.of_le ((h2.after_accept _ _).after_accept _ _) (q_accept_run_forward _ _ _ _))
          intro _ p3 h3
          apply Post.ite
          · exact Post.raised _ _
          · exact Post.ok h3
        · exact Post.ok (h2.after_accept _ _)
      · intro _ p3 h3
        exact Post.ok (cursor_le.chain h3 (Nat.le_refl _))
  · exact Post.ok h1

theorem q_read_operator_forward (p : qparser_t) : Forward p (q_read_operator p) := by
  have h0 := cursor_le.same p
  unfold q_read_operator
  apply Post.andThen (R := fun _ p' => cursor_le p p')
  · apply Post.ite
    · apply Post.ite
      · exact Post.raised _ _
      · exact Post.ok ((h0.after_accept _ _).after_accept _ _)
    · apply Post.ite
      · exact Post.ok ((h0.after_accept _ _).after_accept _ _)
      · apply Post.ite
        · apply Post.ite
          · exact Post.ok ((((h0.after_accept _ _).after_accept _ _).after_accept _ _).after_accept _ _)
          · exact Post.ok ((((h0.after_accept _ _).after_accept _ _).after_accept _ _).after_accept _ _)
        · apply Post.ite
          · apply Post.ite
            · exact Post.ok
                (((((h0.after_accept _ _).after_accept _ _).after_accept _ _).after_accept _ _).after_accept _ _)
            · apply Post.ite
              · exact Post.ok
                  ((((((h0.after_accept _ _).after_accept _ _).after_accept _ _).after_accept _ _).after_accept _ _).after_accept _ _)
              · exact Post.ok
                  ((((((h0.after_accept _ _).after_accept _ _).after_accept _ _).after_accept _ _).after_accept _ _).after_accept _ _)
          · exact Post.ok ((((h0.after_accept _ _).after_accept _ _).after_accept _ _).after_accept _ _)
  · intro _ p1 h1
    apply Post.ite
    · exact Post.raised _ _
    · exact Post.ok h1

theorem q_read_attribute_operation_forward (fuel : Nat) (p : qparser_t) :
    Forward p (q_read_attribute_operation fuel p) := by
  unfold q_read_attribute_operation
  apply Post.ite
  · exact Post.ok (q_accept_le _ _ _)
  · apply Post.andThen (Forward.of_le (q_accept_le _ _ _) (q_read_operator_forward _))
    intro operator p1 h1
    cases operator with
    | none => exact Post.raised _ _
    | some operator =>
      apply Post.andThen (Forward.of_le h1 (q_skip_whitespace_forward _ _))
      intro _ p2 h2
      apply Post.andThen (Forward.of_le h2 (q_read_string_forward _ _))
      intro _ p3 h3
      apply Post.andThen (R := fun _ p' => cursor_le p p')
      · apply Post.ite
        · apply Post.andThen (Forward.of_le h3 (q_read_number_forward _ _))
          intro _ p4 h4
          apply Post.ite
          · exact Forward.of_le h4 (q_read_name_forward _ _ _)
          · exact Post.ok h4
        · exact Post.ok h3
      · intro _ p4 h4
        apply Post.ite
        · exact Post.raised _ _
        · apply Post.andThen (Forward.of_le h4 (q_skip_whitespace_forward _ _))
          intro _ p5 h5
          apply Post.ite
          · exact Post.ok (h5.after_accept _ _)
          · exact Post.raised _ _

theorem q_read_attribute_forward (fuel : Nat) (p : qparser_t) :
    Forward p (q_read_attribute fuel p) := by
  unfold q_read_attribute
  apply Post.ite
  · apply Post.andThen (Forward.of_le (q_accept_le _ _ _) (q_skip_whitespace_forward _ _))
    intro _ p1 h1
    apply Post.andThen (R := fun _ p' => cursor_le p p')
    · apply Post.ite
      · exact Forward.of_le (h1.after_accept _ _) (q_skip_whitespace_forward _ _)
      · exact Post.ok (h1.after_accept _ _)
    · intro _ p2 h2
      apply Post.andThen (Forward.of_le h2 (q_read_name_forward _ _ _))
      intro _ p3 h3
      apply Post.andThen (Forward.of_le h3 (q_skip_whitespace_forward _ _))
      intro _ p4 h4
      apply Post.andThen (Forward.of_le h4 (q_read_attribute_operation_forward _ _))
      intro _ p5 h5
      exact Post.ok h5
  · exact Post.ok (q_accept_le _ _ _)

theorem Post.self {α : Type} (r : Result α) : Post r fun v p => r = Result.ok v p :=
  ⟨fun _ _ h => h⟩

theorem Post.and {α : Type} {r : Result α} {Q1 Q2 : α → qparser_t → Prop}
    (h1 : Post r Q1) (h2 : Post r Q2) : Post r fun v p => Q1 v p ∧ Q2 v p :=
  ⟨fun v p h => ⟨h1.out v p h, h2.out v p h⟩⟩

theorem q_read_nonzero (p : qparser_t) (add : Bool) (h : (q_read p add).1 ≠ 0) :
    (q_read p add).1 = q_peek p ∧ (q_read p add).2.index = p.index + 1 := by
  unfold q_read at h ⊢
  simp only [] at h ⊢
  by_cases hp : q_peek p = 0
  · simp [hp] at h
  · cases add <;> simp [hp]

/-- A successful `q_accept`: the byte returned is the one under the cursor, it
belongs to the table, and the cursor moved by one. -/
theorem q_accept_nonzero (p : qparser_t) (chars : qchars_t) (add : Bool)
    (h : (q_accept p chars add).1 ≠ 0) :
    (q_accept p chars add).1 = q_peek p ∧ (q_accept p chars add).2.index = p.index + 1
      ∧ q_strnchr chars.chars chars.length (q_peek p) = true := by
  unfold q_accept at h ⊢
  by_cases hs : q_strnchr chars.chars chars.length (q_peek p) = true
  · simp only [hs, if_true] at h ⊢
    exact ⟨(q_read_nonzero p add h).1, (q_read_nonzero p add h).2, trivial⟩
  · simp [hs] at h

/-- A call of `q_read_attribute` that returns a check started at a `[` and moved
the cursor. -/
theorem q_read_attribute_start (fuel : Nat) (p : qparser_t) :
    Post (q_read_attribute fuel p) fun v p1 => v ≠ none → q_peek p = 91 ∧ p.index < p1.index := by
  by_cases hs : (q_accept p Q_START_ATTR Q_DO_NOT_ADD_TO_BUFFER).1 ≠ 0
  · obtain ⟨h1, h2, h3⟩ := q_accept_nonzero p _ _ hs
    have h91 : q_peek p = 91 := by
      simp only [Q_START_ATTR, q_strnchr_one] at h3
      simp at h3
      exact h3.1
    unfold q_read_attribute
    rw [if_pos hs]
    have hle : ∀ p1, cursor_le (q_accept p Q_START_ATTR Q_DO_NOT_ADD_TO_BUFFER).2 p1 →
        p.index < p1.index := by
      intro p1 h
      unfold cursor_le at h
      omega
    apply Post.andThen (q_skip_whitespace_forward _ _)
    intro _ p1 h1
    apply Post.andThen (R := fun _ p' => cursor_le p1 p')
    · apply Post.ite
      · exact Forward.of_le (q_accept_le _ _ _) (q_skip_whitespace_forward _ _)
      · exact Post.ok (q_accept_le _ _ _)
    · intro _ p2 h2
      apply Post.andThen (q_read_name_forward _ _ _)
      intro _ p3 h3
      apply Post.andThen (q_skip_whitespace_forward _ _)
      intro _ p4 h4
      apply Post.andThen (q_read_attribute_operation_forward _ _)
      intro _ p5 h5
      apply Post.ok
      intro _
      exact ⟨h91, hle p5 (((((h1.chain h2).chain h3).chain h4).chain h5))⟩
  · unfold q_read_attribute
    rw [if_neg hs]
    exact Post.ok (by simp)

theorem q_read_selector_loop_reads (fuel : Nat) :
    ∀ (n : Nat) (p : qparser_t) (attributes_ary : List Check),
      Post (q_read_selector_loop fuel n p attributes_ary) fun v _ =>
        ∃ more, v = attributes_ary ++ more ∧ attr_reads fuel p more
          ∧ ∀ c ∈ more, ∃ key operator operand, c = Check.AttrCheck key operator operand := by
  intro n
  induction n with
  | zero => intro p a; exact Post.no_fuel _
  | succ n ih =>
    intro p a
    simp only [q_read_selector_loop]
    apply Post.andThen
      (Post.and (Post.self _) (Post.and (q_read_attribute_start fuel p) (q_read_attribute_kind fuel p)))
    rintro c p1 ⟨heq, hstart, hkind⟩
    cases c with
    | none => exact Post.ok ⟨[], by simp, True.intro, by simp⟩
    | some c =>
      apply Post.mono (ih _ _)
      rintro v _ ⟨more, hm, hr, hk⟩
      obtain ⟨h91, hlt⟩ := hstart (by simp)
      refine ⟨c :: more, by simp [hm], ⟨p1, heq, h91, hlt, hr⟩, ?_⟩
      intro x hx
      simp only [List.mem_cons] at hx
      rcases hx with hx | hx
      · subst hx; exact hkind _ rfl
      · exact hk x hx

theorem q_read_selector_tail_reads (fuel : Nat) (p : qparser_t) (attributes_ary : List Check) :
    Post (q_read_selector_tail fuel p attributes_ary) fun v _ =>
      ∃ ids attrs d p1, v = some (Selector.mk (attributes_ary ++ ids ++ attrs) d none)
        ∧ ids.length ≤ 1 ∧ (∀ c ∈ ids, ∃ name, c = Check.TagCheck name)
        ∧ (∀ c ∈ attrs, ∃ key operator operand, c = Check.AttrCheck key operator operand)
        ∧ same_input p p1 ∧ attr_reads fuel p1 attrs := by
  unfold q_read_selector_tail
  apply Post.andThen (Post.and (q_read_id_tag_kind _ _) (q_read_id_tag_keeps _ _))
  rintro id_check p1 ⟨hid, hsame⟩
  apply Post.andThen (q_read_selector_loop_reads _ _ _ _)
  rintro v p2 ⟨more, hm, hr, hk⟩
  apply Post.andThen (Post.trivial _)
  intro _ p3 _
  apply Post.ok
  refine ⟨id_check.toList, more, _, p1, by rw [hm], ?_, ?_, hk, hsame, hr⟩
  · cases id_check <;> simp
  · intro c hc
    cases id_check with
    | none => simp at hc
    | some x => simp at hc; subst hc; exact hid _ rfl

theorem q_read_selector_reads (fuel : Nat) (p : qparser_t) :
    Post (q_read_selector fuel p) fun v _ =>
      ∀ s, v = some s → ∀ node ∈ chain_nodes s, ordered_checks fuel p node.1 := by
  rw [q_read_selector_unfold]
  apply Post.andThen (q_skip_whitespace_keeps _ _)
  intro _ p1 h1
  apply Post.andThen
    (R := fun v p' => (∀ c, v = some c → ∃ names, names ≠ [] ∧ c = Check.ClassCheck names)
      ∧ same_input p p')
  · apply Post.ite
    · apply Post.andThen
        (Post.and (q_read_multi_class_tag_kind _ _)
          (Keeps.of_same (h1.accept _ _) (q_read_multi_class_tag_keeps _ _)))
      rintro type_check p2 ⟨h2, hs2⟩
      apply Post.ite
      · exact Post.and (q_read_single_class_tag_kind _ _)
          (Keeps.of_same hs2 (q_read_single_class_tag_keeps _ _))
      · exact Post.ok ⟨h2, hs2⟩
    · exact Post.ok ⟨by simp, h1.accept _ _⟩
  · rintro type_check p2 ⟨h2, hs2⟩
    apply Post.ite
    · exact Post.ok (by simp)
    · apply Post.mono (q_read_selector_tail_reads _ _ _)
      rintro v _ ⟨ids, attrs, d, p3, hv, hl, hids, hattrs, hs3, hr⟩ s hs node hn
      rw [hv] at hs
      simp only [Option.some.injEq] at hs
      subst hs
      rw [chain_nodes_mk_none, List.mem_singleton] at hn
      subst hn
      refine ⟨type_check.toList, ids, attrs, p3, by simp, ?_, ?_, hl, hids, hattrs,
        same_input.trans hs2 hs3, hr⟩
      · cases type_check <;> simp
      · intro c hc
        cases type_check with
        | none => simp at hc
        | some x =>
          simp at hc; subst hc
          obtain ⟨names, _, hx⟩ := h2 _ rfl
          exact ⟨names, hx⟩

theorem ordered_checks_of_same (fuel : Nat) (p0 p : qparser_t) (checks : List Check)
    (h : same_input p0 p) (hc : ordered_checks fuel p checks) : ordered_checks fuel p0 checks := by
  obtain ⟨types, ids, attrs, p1, h1, h2, h3, h4, h5, h6, h7, h8⟩ := hc
  exact ⟨types, ids, attrs, p1, h1, h2, h3, h4, h5, h6, same_input.trans h h7, h8⟩

theorem q_rb_parser_run_loop_reads (fuel : Nat) (p0 : qparser_t) :
    ∀ (n : Nat) (p : qparser_t) (selector : Selector), same_input p0 p →
      (∀ node ∈ chain_nodes selector, ordered_checks fuel p0 node.1) →
      Post (q_rb_parser_run_loop fuel n p selector) fun chain _ =>
        ∀ node ∈ chain_nodes chain, ordered_checks fuel p0 node.1 := by
  intro n
  induction n with
  | zero => intro p s _ _; exact Post.no_fuel _
  | succ n ih =>
    intro p s hp hs
    simp only [q_rb_parser_run_loop]
    apply Post.ite
    · apply Post.andThen (Post.and (q_read_selector_reads _ _) (q_read_selector_keeps _ _))
      rintro next p1 ⟨h1, hk1⟩
      cases next with
      | none => exact Post.ok hs
      | some next =>
        apply Post.andThen (q_skip_whitespace_keeps _ _)
        intro _ p2 hk2
        apply ih _ _ (same_input.trans hp (same_input.trans hk1 hk2))
        intro node hn
        rw [chain_nodes_set_succ, List.mem_append] at hn
        rcases hn with hn | hn
        · exact hs node hn
        · exact ordered_checks_of_same fuel p0 p _ hp (h1 next rfl node hn)
    · exact Post.ok hs

theorem q_rb_parser_run_reads (fuel : Nat) (p : qparser_t) :
    Post (q_rb_parser_run fuel p) fun chain _ =>
      ∀ node ∈ chain_nodes chain, ordered_checks fuel p node.1 := by
  unfold q_rb_parser_run
  apply Post.andThen (Post.and (q_read_selector_reads _ _) (q_read_selector_keeps _ _))
  rintro selector p1 ⟨h1, hk1⟩
  cases selector with
  | none => exact Post.raised _ _
  | some selector =>
    apply Post.andThen (q_skip_whitespace_keeps _ _)
    intro _ p2 hk2
    apply Post.andThen
      (q_rb_parser_run_loop_reads fuel p _ _ _ (same_input.trans hk1 hk2) (h1 selector rfl))
    intro chain p3 h3
    apply Post.ite
    · exact Post.raised _ _
    · apply Post.ite
      · exact Post.raised _ _
      · exact Post.ok h3

/-- C20: in every selector of a parsed chain the checks are at most one class
check, then at most one tag check, then attribute checks only; and the
attribute checks are the results of successive reads of `[...]` groups of the
input, from left to right. -/
theorem C20_check_order (fuel : Nat) (s : List Nat) (chain : Selector) (p : qparser_t)
    (h : q_rb_parse_selector fuel s = Result.ok chain p) :
    ∀ node ∈ chain_nodes chain,
      ∃ types ids attrs p1, node.1 = types ++ ids ++ attrs
        ∧ types.length ≤ 1 ∧ (∀ c ∈ types, ∃ names, c = Check.ClassCheck names)
        ∧ ids.length ≤ 1 ∧ (∀ c ∈ ids, ∃ name, c = Check.TagCheck name)
        ∧ (∀ c ∈ attrs, ∃ key operator operand, c = Check.AttrCheck key operator operand)
        ∧ (p1.chars = s ∧ p1.length = s.length) ∧ attr_reads fuel p1 attrs := by
  obtain ⟨p', h'⟩ := q_rb_parse_selector_ok fuel s chain p h
  intro node hn
  obtain ⟨types, ids, attrs, p1, h1, h2, h3, h4, h5, h6, h7, h8⟩ :=
    (q_rb_parser_run_reads fuel _).out chain p' h' node hn
  exact ⟨types, ids, attrs, p1, h1, h2, h3, h4, h5, h6, h7, h8⟩

/-- C20 at the parse of `Button#x[a][b=1] > *[c]`. -/
theorem C20_check_order_witness :
    q_rb_parse_selector 30 (bytes "Button#x[a][b=1] > *[c]")
        = Result.ok
            (Selector.mk
              [Check.ClassCheck [VALUE.Symbol (bytes "Button")],
               Check.TagCheck (VALUE.Symbol (bytes "x")),
               Check.AttrCheck (VALUE.String (bytes "a")) Operator.trueish VALUE.Qnil,
               Check.AttrCheck (VALUE.String (bytes "b")) Operator.equal (VALUE.Integer 1)]
              true
              (some (Selector.mk
                [Check.AttrCheck (VALUE.String (bytes "c")) Operator.trueish VALUE.Qnil]
                false none)))
            (q_parser_destroy (q_parser_init [] 0))
    ∧ ∀ node ∈ chain_nodes
          (Selector.mk
            [Check.ClassCheck [VALUE.Symbol (bytes "Button")],
             Check.TagCheck (VALUE.Symbol (bytes "x")),
             Check.AttrCheck (VALUE.String (bytes "a")) Operator.trueish VALUE.Qnil,
             Check.AttrCheck (VALUE.String (bytes "b")) Operator.equal (VALUE.Integer 1)]
            true
            (some (Selector.mk
              [Check.AttrCheck (VALUE.String (bytes "c")) Operator.trueish VALUE.Qnil]
              false none))),
        ∃ types ids attrs p1, node.1 = types ++ ids ++ attrs
          ∧ types.length ≤ 1 ∧ (∀ c ∈ types, ∃ names, c = Check.ClassCheck names)
          ∧ ids.length ≤ 1 ∧ (∀ c ∈ ids, ∃ name, c = Check.TagCheck name)
          ∧ (∀ c ∈ attrs, ∃ key operator operand, c = Check.AttrCheck key operator operand)
          ∧ (p1.chars = bytes "Button#x[a][b=1] > *[c]"
              ∧ p1.length = (bytes "Button#x[a][b=1] > *[c]").length)
          ∧ attr_reads 30 p1 attrs :=
  ⟨rfl, C20_check_order 30 (bytes "Button#x[a][b=1] > *[c]") _
    (q_parser_destroy (q_parser_init [] 0)) rfl⟩

theorem q_peek_nonzero (p : qparser_t) (h : q_peek p ≠ 0) :
    p.index < p.length ∧ p.chars.getD p.index 0 = q_peek p := by
  unfold q_peek at h ⊢
  by_cases hi : p.index < p.length
  · simp [hi]
  · simp [hi] at h

/-- A string returned by `q_read_string` was read from an opening quote under
the cursor up to a later quote of the input, and the cursor ends right after
that closing quote. -/
theorem q_read_string_closed (fuel : Nat) (p : qparser_t) :
    Post (q_read_string fuel p) fun v p' =>
      v ≠ VALUE.Qnil →
        q_peek p = 34 ∧ ∃ i, p.index < i ∧ i < p.length ∧ p.chars.getD i 0 = 34
          ∧ p'.index = i + 1 := by
  unfold q_read_string
  by_cases ho : (q_accept p Q_QUOTE Q_DO_NOT_ADD_TO_BUFFER).1 ≠ 0
  · rw [if_pos ho]
    obtain ⟨_, hidx, hs⟩ := q_accept_nonzero p _ _ ho
    have h34 : q_peek p = 34 := by
      simp only [Q_QUOTE, q_strnchr_one] at hs
      simp at hs
      exact hs.1
    apply Post.andThen
      (Post.and (q_read_string_loop_forward fuel fuel _)
        (Keeps.of_same (q_accept_same p Q_QUOTE Q_DO_NOT_ADD_TO_BUFFER)
          (q_read_string_loop_keeps fuel fuel _)))
    rintro _ p1 ⟨hfwd, hkeep⟩
    by_cases hc : (q_accept p1 Q_QUOTE Q_DO_NOT_ADD_TO_BUFFER).1 ≠ 0
    · rw [if_pos hc]
      obtain ⟨_, hidx1, hs1⟩ := q_accept_nonzero p1 _ _ hc
      have h34c : q_peek p1 = 34 := by
        simp only [Q_QUOTE, q_strnchr_one] at hs1
        simp at hs1
        exact hs1.1
      obtain ⟨hlt, hget⟩ := q_peek_nonzero p1 (by omega)
      apply Post.ok
      intro _
      unfold cursor_le at hfwd
      refine ⟨h34, p1.index, by omega, ?_, ?_, ?_⟩
      · rw [← hkeep.2]; exact hlt
      · rw [← hkeep.1, hget, h34c]
      · simp only [q_clear_buf]; exact hidx1
    · rw [if_neg hc]
      exact Post.raised _ _
  · rw [if_neg ho]
    exact Post.ok (by simp)

/-- C19: a string operand whose opening quote is followed by no further quote
(and no NUL) up to the end of the input fails with the UnterminatedString
error; and every string `q_read_string` returns was closed by a quote of the
input, after which the cursor stands. -/
theorem C19_unterminated_string (fuel : Nat) (t k b : List Nat) (fuel2 : Nat)
    (p : qparser_t) (v : VALUE) (p' : qparser_t)
    (ht : valid_name t) (hk : valid_name k) (hb : ∀ c ∈ b, c ≠ 34 ∧ c ≠ 0)
    (hf : (t ++ [91] ++ k ++ [61, 34] ++ b).length < fuel)
    (hs : q_read_string fuel2 p = Result.ok v p') (hv : v ≠ VALUE.Qnil) :
    (q_rb_parse_selector fuel (t ++ [91] ++ k ++ [61, 34] ++ b)
        = Result.raised Err.UnterminatedString
      ∧ Err.UnterminatedString.message = "No closing quote for string")
    ∧ (q_peek p = 34 ∧ ∃ i, p.index < i ∧ i < p.length ∧ p.chars.getD i 0 = 34
        ∧ p'.index = i + 1) := by
  refine ⟨⟨?_, rfl⟩, (q_read_string_closed fuel2 p).out v p' hs hv⟩
  have hin : t ++ [91] ++ k ++ [61, 34] ++ b = t ++ 91 :: (k ++ ([61] ++ (34 :: b))) := by simp
  have hlen : t.length + k.length + b.length + 3 < fuel := by
    simp only [List.length_append, List.length_singleton, List.length_cons, List.length_nil]
      at hf
    omega
  rw [hin]
  refine q_rb_parse_selector_operand_raised fuel t k [61] _ Operator.equal _ ht hk
    (by simp [operator_tokens]) ⟨by simp, by simp, by simp [whitespace]⟩ ⟨by omega, by omega⟩ ?_
  intro pre
  simp [q_read_operand, q_read_string_unterminated fuel pre b hb (by omega)]

/-- C19 at the input `Button[k="ab\c]` (operand bytes: quote, `a`, `b`,
backslash, `c`, `]`), which has no closing quote, and at the string `"ab"`
read from the bytes quote, `a`, `b`, quote, `]`. -/
theorem C19_unterminated_string_witness :
    (q_rb_parse_selector 20 (bytes "Button" ++ [91] ++ bytes "k" ++ [61, 34] ++ [97, 98, 92, 99, 93])
        = Result.raised Err.UnterminatedString
      ∧ Err.UnterminatedString.message = "No closing quote for string")
    ∧ (q_peek (q_parser_init [34, 97, 98, 34, 93] 5) = 34
      ∧ ∃ i, (q_parser_init [34, 97, 98, 34, 93] 5).index < i
        ∧ i < (q_parser_init [34, 97, 98, 34, 93] 5).length
        ∧ (q_parser_init [34, 97, 98, 34, 93] 5).chars.getD i 0 = 34
        ∧ ({ chars := [34, 97, 98, 34, 93], length := 5, index := 4, buffer := [] }
            : qparser_t).index = i + 1) :=
  C19_unterminated_string 20 (bytes "Button") (bytes "k") [97, 98, 92, 99, 93] 10
    (q_parser_init [34, 97, 98, 34, 93] 5) (VALUE.String [97, 98])
    { chars := [34, 97, 98, 34, 93], length := 5, index := 4, buffer := [] }
    (by decide) (by decide) (by decide) (by decide) rfl (by decide)

theorem c_digit_run_digits (d rest : List Nat) (hd : digit_run d)
    (hr : next_byte rest ∉ digits) :
    ∀ acc, c_digit_run (d ++ rest) acc = d.foldl (fun a c => 10 * a + (c - 48)) acc := by
  induction d with
  | nil =>
    intro acc
    cases rest with
    | nil => simp [c_digit_run]
    | cons c t =>
      have hc : ¬ (48 ≤ c ∧ c ≤ 57) := by
        simp only [next_byte_cons, digits, List.mem_cons, List.mem_singleton, List.not_mem_nil,
          or_false] at hr
        omega
      simp [c_digit_run, hc]
  | cons c d ih =>
    intro acc
    have hc := hd c (by simp)
    have hc2 : 48 ≤ c ∧ c ≤ 57 := by
      simp only [digits, List.mem_cons, List.mem_singleton, List.not_mem_nil, or_false] at hc
      omega
    have ih2 := ih (fun x hx => hd x (by simp [hx])) (acc * 10 + (c - 48))
    rw [Nat.mul_comm acc 10] at ih2
    simp only [List.cons_append, c_digit_run, hc2, and_self, if_true, List.foldl_cons]
    rw [Nat.mul_comm acc 10]
    exact ih2

/-- `strtoll` on a text that starts with a non-empty digit run: the decimal value
of that run, clamped to `LLONG_MAX`; what follows the run is ignored. -/
theorem strtoll_digits (d rest : List Nat) (hd : digit_run d) (hne : d ≠ [])
    (hr : next_byte rest ∉ digits) :
    strtoll (d ++ rest) = min (decimal_value d : Int) ((2 : Int) ^ 63 - 1) := by
  have hrun := c_digit_run_digits d rest hd hr 0
  cases d with
  | nil => exact absurd rfl hne
  | cons c d =>
    have hc := hd c (by simp)
    simp only [digits, List.mem_cons, List.mem_singleton, List.not_mem_nil, or_false] at hc
    have hsp : c_isspace c = false := by
      simp only [c_isspace, Bool.or_eq_false_iff, decide_eq_false_iff_not, Bool.and_eq_false_iff]
      omega
    have h45 : c ≠ 45 := by omega
    have h43 : c ≠ 43 := by omega
    unfold strtoll
    simp only [List.cons_append, List.dropWhile_cons, hsp, Bool.false_eq_true, if_false]
    split
    · rename_i t heq
      simp only [List.cons.injEq] at heq
      exact absurd heq.1 h45
    · rename_i t heq
      simp only [List.cons.injEq] at heq
      exact absurd heq.1 h43
    · rw [← List.cons_append, hrun, decimal_value]

/-- A class name and an attribute `[k=literal]` whose literal has no fractional
part and no negative exponent sign: the operand is the integer value of the
leading digit run. -/
theorem q_rb_parse_selector_integer (fuel : Nat) (n k d : List Nat)
    (exp : Option (List Nat × List Nat)) (hn : valid_name n) (hk : valid_name k)
    (hd : digit_run d) (hne : d ≠ []) (hexp : exponent_ok exp)
    (hint : literal_is_float none exp = false)
    (hf : n.length + k.length + (number_text d none exp).length + 1 < fuel) :
    q_rb_parse_selector fuel (n ++ 91 :: (k ++ ([61] ++ (number_text d none exp ++ [93]))))
      = Result.ok
          (Selector.mk
            [Check.ClassCheck [VALUE.Symbol n],
             Check.AttrCheck (VALUE.String k) Operator.equal
               (VALUE.Integer (min (decimal_value d : Int) ((2 : Int) ^ 63 - 1)))] false none)
          (q_parser_destroy (q_parser_init [] 0)) := by
  have hnum : next_byte (number_text d none exp ++ [93]) ∈ digits := by
    rw [number_text, List.append_assoc]; exact digit_run_next d _ hd hne
  have hfacts := digit_next_facts _ hnum
  have hrest : next_byte (fraction_text none ++ exponent_text exp ++ [0]) ∉ digits := by
    rcases exp with _ | ⟨sign, x⟩ <;> simp [fraction_text, exponent_text, digits]
  have hval : strtoll (number_text d none exp ++ [0])
      = min (decimal_value d : Int) ((2 : Int) ^ 63 - 1) := by
    rw [number_text, List.append_assoc]
    exact strtoll_digits d _ hd hne hrest
  refine q_rb_parse_selector_operand fuel n k [61] _ Operator.equal _ hn hk
    (by simp [operator_tokens]) ⟨hfacts.1, hfacts.2.1, hfacts.2.2.1⟩
    ⟨by omega, by omega, by omega⟩ (by simp) ?_
  intro pre
  refine ⟨pre ++ number_text d none exp, ?_⟩
  rw [q_read_operand_number fuel pre d none exp [] hd hne True.intro hexp (by omega), hint, hval]
  rfl

/-- C23: the integer operand of `[K=d]`, `[K=d e x]` and `[K=d e+ x]` is the same:
the decimal value of the digit run `d`, clamped to `2^63 - 1`; it is not
negative and the exponent part does not change it. -/
theorem C23_integer_value (fuel : Nat) (t k d x : List Nat)
    (ht : valid_name t) (hk : valid_name k) (hd : digit_run d) (hne : d ≠ [])
    (hx : digit_run x) (hxne : x ≠ [])
    (hf : (t ++ [91] ++ k ++ [61] ++ d ++ [101, 43] ++ x ++ [93]).length < fuel) :
    (0 : Int) ≤ min (decimal_value d : Int) ((2 : Int) ^ 63 - 1)
    ∧ q_rb_parse_selector fuel (t ++ [91] ++ k ++ [61] ++ d ++ [93])
        = Result.ok
            (Selector.mk
              [Check.ClassCheck [VALUE.Symbol t],
               Check.AttrCheck (VALUE.String k) Operator.equal
                 (VALUE.Integer (min (decimal_value d : Int) ((2 : Int) ^ 63 - 1)))] false none)
            (q_parser_destroy (q_parser_init [] 0))
    ∧ q_rb_parse_selector fuel (t ++ [91] ++ k ++ [61] ++ d ++ [101] ++ x ++ [93])
        = Result.ok
            (Selector.mk
              [Check.ClassCheck [VALUE.Symbol t],
               Check.AttrCheck (VALUE.String k) Operator.equal
                 (VALUE.Integer (min (decimal_value d : Int) ((2 : Int) ^ 63 - 1)))] false none)
            (q_parser_destroy (q_parser_init [] 0))
    ∧ q_rb_parse_selector fuel (t ++ [91] ++ k ++ [61] ++ d ++ [101, 43] ++ x ++ [93])
        = Result.ok
            (Selector.mk
              [Check.ClassCheck [VALUE.Symbol t],
               Check.AttrCheck (VALUE.String k) Operator.equal
                 (VALUE.Integer (min (decimal_value d : Int) ((2 : Int) ^ 63 - 1)))] false none)
            (q_parser_destroy (q_parser_init [] 0)) := by
  have hlen : t.length + k.length + d.length + x.length + 5 < fuel := by
    simp only [List.length_append, List.length_singleton, List.length_cons, List.length_nil]
      at hf
    omega
  refine ⟨?_, ?_, ?_, ?_⟩
  · exact le_min (Int.ofNat_nonneg _) (by norm_num)
  · have hin : t ++ [91] ++ k ++ [61] ++ d ++ [93]
        = t ++ 91 :: (k ++ ([61] ++ (number_text d none none ++ [93]))) := by
      simp [number_text, fraction_text, exponent_text]
    rw [hin]
    exact q_rb_parse_selector_integer fuel t k d none ht hk hd hne True.intro rfl
      (by simp [number_text, fraction_text, exponent_text]; omega)
  · have hin : t ++ [91] ++ k ++ [61] ++ d ++ [101] ++ x ++ [93]
        = t ++ 91 :: (k ++ ([61] ++ (number_text d none (some ([], x)) ++ [93]))) := by
      simp [number_text, fraction_text, exponent_text]
    rw [hin]
    exact q_rb_parse_selector_integer fuel t k d (some ([], x)) ht hk hd hne
      ⟨Or.inl rfl, hx, hxne⟩ (by simp [literal_is_float])
      (by simp [number_text, fraction_text, exponent_text]; omega)
  · have hin : t ++ [91] ++ k ++ [61] ++ d ++ [101, 43] ++ x ++ [93]
        = t ++ 91 :: (k ++ ([61] ++ (number_text d none (some ([43], x)) ++ [93]))) := by
      simp [number_text, fraction_text, exponent_text]
    rw [hin]
    exact q_rb_parse_selector_integer fuel t k d (some ([43], x)) ht hk hd hne
      ⟨Or.inr (Or.inl rfl), hx, hxne⟩ (by simp [literal_is_float])
      (by simp [number_text, fraction_text, exponent_text]; omega)

/-- C23 at the inputs `Button[n=1]`, `Button[n=1e5]`, `Button[n=1e+5]` (integer 1)
and `Button[n=42]`, `Button[n=42e7]`, `Button[n=42e+7]` (integer 42). -/
theorem C23_integer_value_witness :
    ((0 : Int) ≤ 1
      ∧ q_rb_parse_selector 20 (bytes "Button[n=1]")
          = Result.ok
              (Selector.mk
                [Check.ClassCheck [VALUE.Symbol (bytes "Button")],
                 Check.AttrCheck (VALUE.String (bytes "n")) Operator.equal (VALUE.Integer 1)]
                false none)
              (q_parser_destroy (q_parser_init [] 0))
      ∧ q_rb_parse_selector 20 (bytes "Button[n=1e5]")
          = Result.ok
              (Selector.mk
                [Check.ClassCheck [VALUE.Symbol (bytes "Button")],
                 Check.AttrCheck (VALUE.String (bytes "n")) Operator.equal (VALUE.Integer 1)]
                false none)
              (q_parser_destroy (q_parser_init [] 0))
      ∧ q_rb_parse_selector 20 (bytes "Button[n=1e+5]")
          = Result.ok
              (Selector.mk
                [Check.ClassCheck [VALUE.Symbol (bytes "Button")],
                 Check.AttrCheck (VALUE.String (bytes "n")) Operator.equal (VALUE.Integer 1)]
                false none)
              (q_parser_destroy (q_parser_init [] 0)))
    ∧ ((0 : Int) ≤ 42
      ∧ q_rb_parse_selector 20 (bytes "Button[n=42]")
          = Result.ok
              (Selector.mk
                [Check.ClassCheck [VALUE.Symbol (bytes "Button")],
                 Check.AttrCheck (VALUE.String (bytes "n")) Operator.equal (VALUE.Integer 42)]
                false none)
              (q_parser_destroy (q_parser_init [] 0))
      ∧ q_rb_parse_selector 20 (bytes "Button[n=42e7]")
          = Result.ok
              (Selector.mk
                [Check.ClassCheck [VALUE.Symbol (bytes "Button")],
                 Check.AttrCheck (VALUE.String (bytes "n")) Operator.equal (VALUE.Integer 42)]
                false none)
              (q_parser_destroy (q_parser_init [] 0))
      ∧ q_rb_parse_selector 20 (bytes "Button[n=42e+7]")
          = Result.ok
              (Selector.mk
                [Check.ClassCheck [VALUE.Symbol (bytes "Button")],
                 Check.AttrCheck (VALUE.String (bytes "n")) Operator.equal (VALUE.Integer 42)]
                false none)
              (q_parser_destroy (q_parser_init [] 0))) :=
  ⟨C23_integer_value 20 (bytes "Button") (bytes "n") (bytes "1") (bytes "5") (by decide)
      (by decide) (by decide) (by decide) (by decide) (by decide) (by decide),
   C23_integer_value 20 (bytes "Button") (bytes "n") (bytes "42") (bytes "7") (by decide)
      (by decide) (by decide) (by decide) (by decide) (by decide) (by decide)⟩

theorem q_read_multi_class_tag_loop_forward (fuel : Nat) :
    ∀ (n : Nat) (p : qparser_t) (names : List VALUE),
      Forward p (q_read_multi_class_tag_loop fuel n p names) := by
  intro n
  induction n with
  | zero => intro p names; exact Post.no_fuel _
  | succ n ih =>
    intro p names
    simp only [q_read_multi_class_tag_loop]
    apply Post.andThen (q_read_name_forward _ _ _)
    intro _ p1 h1
    apply Post.ite
    · apply Post.andThen (Forward.of_le h1 (q_skip_whitespace_forward _ _))
      intro _ p2 h2
      apply Post.ite
      · exact Post.ok (h2.after_accept _ _)
      · exact Forward.of_le (h2.after_accept _ _) (ih _ _)
    · exact Post.ok h1

theorem q_read_multi_class_tag_forward (fuel : Nat) (p : qparser_t) :
    Forward p (q_read_multi_class_tag fuel p) := by
  unfold q_read_multi_class_tag
  apply Post.ite
  · apply Post.andThen (Forward.of_le (q_accept_le _ _ _) (q_skip_whitespace_forward _ _))
    intro _ p1 h1
    apply Post.andThen (Forward.of_le h1 (q_read_multi_class_tag_loop_forward _ _ _ _))
    intro _ p2 h2
    apply Post.andThen (Forward.of_le h2 (q_skip_whitespace_forward _ _))
    intro _ p3 h3
    apply Post.ite
    · apply Post.ite
      · exact Post.raised _ _
      · exact Post.ok (h3.after_accept _ _)
    · exact Post.raised _ _
  · exact Post.ok (q_accept_le _ _ _)

theorem q_read_single_class_tag_forward (fuel : Nat) (p : qparser_t) :
    Forward p (q_read_single_class_tag fuel p) := by
  unfold q_read_single_class_tag
  apply Post.andThen (q_read_name_forward _ _ _)
  intro _ p1 h1
  apply Post.ite
  · exact Post.ok h1
  · exact Post.ok h1

theorem q_read_id_tag_forward (fuel : Nat) (p : qparser_t) : Forward p (q_read_id_tag fuel p) := by
  unfold q_read_id_tag
  apply Post.ite
  · apply Post.andThen (Forward.of_le (q_accept_le _ _ _) (q_read_name_forward _ _ _))
    intro _ p1 h1
    apply Post.ite
    · exact Post.ok h1
    · exact Post.ok h1
  · exact Post.ok (q_accept_le _ _ _)

theorem q_read_selector_loop_forward (fuel : Nat) :
    ∀ (n : Nat) (p : qparser_t) (attributes_ary : List Check),
      Forward p (q_read_selector_loop fuel n p attributes_ary) := by
  intro n
  induction n with
  | zero => intro p a; exact Post.no_fuel _
  | succ n ih =>
    intro p a
    simp only [q_read_selector_loop]
    apply Post.andThen (q_read_attribute_forward _ _)
    intro c p1 h1
    cases c with
    | none => exact Post.ok h1
    | some c => exact Forward.of_le h1 (ih _ _)

theorem q_read_selector_tail_forward (fuel : Nat) (p : qparser_t) (attributes_ary : List Check) :
    Forward p (q_read_selector_tail fuel p attributes_ary) := by
  unfold q_read_selector_tail
  apply Post.andThen (q_read_id_tag_forward _ _)
  intro _ p1 h1
  apply Post.andThen (Forward.of_le h1 (q_read_selector_loop_forward _ _ _ _))
  intro _ p2 h2
  apply Post.andThen (Forward.of_le h2 (q_skip_whitespace_forward _ _))
  intro _ p3 h3
  exact Post.ok (h3.after_accept _ _)

theorem q_read_selector_forward (fuel : Nat) (p : qparser_t) :
    Forward p (q_read_selector fuel p) := by
  rw [q_read_selector_unfold]
  apply Post.andThen (q_skip_whitespace_forward _ _)
  intro _ p1 h1
  apply Post.andThen (R := fun _ p' => cursor_le p p')
  · apply Post.ite
    · apply Post.andThen (Forward.of_le (h1.after_accept _ _) (q_read_multi_class_tag_forward _ _))
      intro _ p2 h2
      apply Post.ite
      · exact Forward.of_le h2 (q_read_single_class_tag_forward _ _)
      · exact Post.ok h2
    · exact Post.ok (h1.after_accept _ _)
  · intro _ p2 h2
    apply Post.ite
    · exact Post.ok h2
    · exact Forward.of_le h2 (q_read_selector_tail_forward _ _ _)

theorem q_rb_parser_run_loop_forward (fuel : Nat) :
    ∀ (n : Nat) (p : qparser_t) (selector : Selector),
      Forward p (q_rb_parser_run_loop fuel n p selector) := by
  intro n
  induction n with
  | zero => intro p s; exact Post.no_fuel _
  | succ n ih =>
    intro p s
    simp only [q_rb_parser_run_loop]
    apply Post.ite
    · apply Post.andThen (q_read_selector_forward _ _)
      intro next p1 h1
      cases next with
      | none => exact Post.ok h1
      | some next =>
        apply Post.andThen (Forward.of_le h1 (q_skip_whitespace_forward _ _))
        intro _ p2 h2
        exact Forward.of_le h2 (ih _ _)
    · exact Post.ok (cursor_le.same _)

theorem q_rb_parser_run_forward (fuel : Nat) (p : qparser_t) :
    Forward p (q_rb_parser_run fuel p) := by
  unfold q_rb_parser_run
  apply Post.andThen (q_read_selector_forward _ _)
  intro selector p1 h1
  cases selector with
  | none => exact Post.raised _ _
  | some selector =>
    apply Post.andThen (Forward.of_le h1 (q_skip_whitespace_forward _ _))
    intro _ p2 h2
    apply Post.andThen (Forward.of_le h2 (q_rb_parser_run_loop_forward _ _ _ _))
    intro _ p3 h3
    apply Post.ite
    · exact Post.raised _ _
    · apply Post.ite
      · exact Post.raised _ _
      · exact Post.ok h3

theorem Moves.of {α : Type} {p : qparser_t} {r : Result α} (h1 : Keeps p r)
    (h2 : Forward p r) : Moves p r :=
  Post.and h1 h2

theorem moved.rfl (p : qparser_t) : moved p p := ⟨same_input.refl p, cursor_le.same p⟩

theorem moved.then {p p1 p2 : qparser_t} (h1 : moved p p1) (h2 : moved p1 p2) : moved p p2 :=
  ⟨same_input.trans h1.1 h2.1, cursor_le.chain h1.2 h2.2⟩

theorem moved.unread_le {p p1 : qparser_t} (h : moved p p1) : unread p1 ≤ unread p := by
  obtain ⟨⟨_, hl⟩, hi⟩ := h
  unfold cursor_le at hi
  unfold unread
  omega

theorem moved.keeps_nul_free {p p1 : qparser_t} (h : moved p p1) (hn : nul_free p) : nul_free p1 := by
  obtain ⟨⟨hc, hl⟩, _⟩ := h
  intro i hi
  rw [hc]
  exact hn i (by omega)

theorem moved.keeps_ready {fuel : Nat} {p p1 : qparser_t} (h : moved p p1) (hr : ready fuel p) :
    ready fuel p1 :=
  ⟨h.keeps_nul_free hr.1, Nat.lt_of_le_of_lt h.unread_le hr.2⟩

theorem q_accept_moved (p : qparser_t) (chars : qchars_t) (add : Bool) :
    moved p (q_accept p chars add).2 :=
  ⟨q_accept_same p chars add, q_accept_le p chars add⟩

theorem q_read_moved (p : qparser_t) (add : Bool) : moved p (q_read p add).2 :=
  ⟨q_read_same p add, q_read_le p add⟩

/-- A `q_read` at a non-zero byte leaves one byte fewer to read. -/
theorem q_read_consumes (p : qparser_t) (add : Bool) (h : q_peek p ≠ 0) :
    unread (q_read p add).2 + 1 = unread p := by
  have hr : (q_read p add).1 ≠ 0 := by
    unfold q_read
    simp only []
    rw [if_pos h]
    cases add <;> exact h
  obtain ⟨_, hi⟩ := q_read_nonzero p add hr
  obtain ⟨hlt, _⟩ := q_peek_nonzero p h
  obtain ⟨_, hl⟩ := q_read_same p add
  unfold unread
  omega

/-- A successful `q_accept` leaves one byte fewer to read. -/
theorem q_accept_consumes (p : qparser_t) (chars : qchars_t) (add : Bool)
    (h : (q_accept p chars add).1 ≠ 0) :
    unread (q_accept p chars add).2 + 1 = unread p := by
  obtain ⟨h1, hi, _⟩ := q_accept_nonzero p chars add h
  obtain ⟨hlt, _⟩ := q_peek_nonzero p (h1 ▸ h)
  obtain ⟨_, hl⟩ := q_accept_same p chars add
  unfold unread
  omega

theorem Finishes.of_ok {α : Type} (v : α) (p : qparser_t) : Finishes (Result.ok v p) := by
  intro h; cases h

theorem Finishes.of_raised {α : Type} (e : Err) : Finishes (Result.raised e : Result α) := by
  intro h; cases h

theorem Finishes.bind {α β : Type} {r : Result α} {f : α → qparser_t → Result β}
    {R : α → qparser_t → Prop} (h1 : Finishes r) (hp : Post r R)
    (h2 : ∀ v p, R v p → Finishes (f v p)) : Finishes (r.andThen f) := by
  cases r with
  | ok v p => exact h2 v p (hp.out v p rfl)
  | raised e => exact Finishes.of_raised e
  | no_fuel => exact absurd rfl h1

theorem Finishes.cond {α : Type} {c : Prop} [Decidable c] {a b : Result α}
    (ha : Finishes a) (hb : Finishes b) : Finishes (if c then a else b) := by
  split
  · exact ha
  · exact hb

/-- The loop of `q_accept_run` ends within as many rounds as there are bytes
left, plus one. -/
theorem q_accept_run_loop_finishes (chars : qchars_t) (add : Bool) :
    ∀ (n : Nat) (p : qparser_t) (accepted : Nat), unread p < n →
      Finishes (q_accept_run_loop chars add n p accepted) := by
  intro n
  induction n with
  | zero => intro p accepted h; exact absurd h (Nat.not_lt_zero _)
  | succ n ih =>
    intro p accepted h
    simp only [q_accept_run_loop]
    by_cases hc : (q_accept p chars add).1 ≠ 0
    · rw [if_pos hc]
      have := q_accept_consumes p chars add hc
      exact ih _ _ (by omega)
    · rw [if_neg hc]
      exact Finishes.of_ok _ _

/-- Before the end of a NUL-free input the byte under the cursor is not zero. -/
theorem nul_free.peek {p : qparser_t} (hn : nul_free p) (h : q_eos p = false) : q_peek p ≠ 0 := by
  unfold q_eos at h
  simp only [ge_iff_le, decide_eq_false_iff_not, not_le] at h
  unfold q_peek
  rw [if_pos h]
  exact hn _ h

/-- On a NUL-free input the loop of `q_accept_until` ends within as many rounds
as there are bytes left, plus one. -/
theorem q_accept_until_loop_finishes (chars : qchars_t) (add : Bool) :
    ∀ (n : Nat) (p : qparser_t) (accepted : Nat), nul_free p → unread p < n →
      Finishes (q_accept_until_loop chars add n p accepted) := by
  intro n
  induction n with
  | zero => intro p accepted _ h; exact absurd h (Nat.not_lt_zero _)
  | succ n ih =>
    intro p accepted hn h
    simp only [q_accept_until_loop]
    by_cases hc : (!q_eos p && !q_strnchr chars.chars chars.length (q_peek p)) = true
    · rw [if_pos hc]
      have he : q_eos p = false := by
        cases hq : q_eos p
        · rfl
        · simp [hq] at hc
      have := q_read_consumes p add (hn.peek he)
      exact ih _ _ ((q_read_moved p add).keeps_nul_free hn) (by omega)
    · rw [if_neg hc]
      exact Finishes.of_ok _ _

/-- On a NUL-free input the loop of `q_accept_until` moves the cursor by exactly
the number of bytes it counts. -/
theorem q_accept_until_loop_exact (chars : qchars_t) (add : Bool) :
    ∀ (n : Nat) (p : qparser_t) (accepted : Nat), nul_free p →
      Post (q_accept_until_loop chars add n p accepted) fun v p1 =>
        p1.index + accepted = p.index + v ∧ unread p1 + v = unread p + accepted := by
  intro n
  induction n with
  | zero => intro p accepted _; exact Post.no_fuel _
  | succ n ih =>
    intro p accepted hn
    simp only [q_accept_until_loop]
    by_cases hc : (!q_eos p && !q_strnchr chars.chars chars.length (q_peek p)) = true
    · rw [if_pos hc]
      have he : q_eos p = false := by
        cases hq : q_eos p
        · rfl
        · simp [hq] at hc
      have hpk := hn.peek he
      have hu := q_read_consumes p add hpk
      have hr : (q_read p add).1 ≠ 0 := by
        unfold q_read
        simp only []
        rw [if_pos hpk]
        cases add <;> exact hpk
      obtain ⟨_, hi⟩ := q_read_nonzero p add hr
      refine Post.mono (ih _ (accepted + 1) ((q_read_moved p add).keeps_nul_free hn)) ?_
      intro v p1 h1
      omega
    · rw [if_neg hc]
      exact Post.ok ⟨rfl, rfl⟩

/-- The loop of `q_skip_whitespace` ends within as many rounds as there are
bytes left, plus one. -/
theorem q_skip_whitespace_finishes (fuel : Nat) :
    ∀ (p : qparser_t), unread p < fuel → Finishes (q_skip_whitespace fuel p) := by
  unfold q_skip_whitespace
  induction fuel with
  | zero => intro p h; exact absurd h (Nat.not_lt_zero _)
  | succ n ih =>
    intro p h
    simp only [q_skip_whitespace_loop]
    by_cases hc : q_peek p = 32 ∨ q_peek p = 9 ∨ q_peek p = 13 ∨ q_peek p = 10
    · rw [if_pos hc]
      have := q_read_consumes p Q_DO_NOT_ADD_TO_BUFFER (by omega)
      exact ih _ (by omega)
    · rw [if_neg hc]
      exact Finishes.of_ok _ _

theorem Total.stop {α : Type} {fuel : Nat} {p p1 : qparser_t} {v : α} (h : moved p p1) :
    Total fuel p (Result.ok v p1) :=
  ⟨fun _ => ⟨Finishes.of_ok _ _, Post.ok h⟩⟩

theorem Total.error {α : Type} {fuel : Nat} {p : qparser_t} (e : Err) :
    Total fuel p (Result.raised e : Result α) :=
  ⟨fun _ => ⟨Finishes.of_raised e, Post.raised _ e⟩⟩

theorem Total.seq_with {α β : Type} {fuel : Nat} {p : qparser_t} {r : Result α}
    {f : α → qparser_t → Result β} {R : α → qparser_t → Prop}
    (h1 : Total fuel p r) (hp : Post r R)
    (h2 : ∀ v p1, moved p p1 → R v p1 → Total fuel p (f v p1)) :
    Total fuel p (r.andThen f) := by
  constructor
  intro hr
  obtain ⟨hf, hm⟩ := h1.run hr
  constructor
  · exact Finishes.bind hf (Post.and hm hp) (fun v p1 h => ((h2 v p1 h.1 h.2).run hr).1)
  · exact Post.andThen (Post.and hm hp) (fun v p1 h => ((h2 v p1 h.1 h.2).run hr).2)

theorem Total.seq {α β : Type} {fuel : Nat} {p : qparser_t} {r : Result α}
    {f : α → qparser_t → Result β}
    (h1 : Total fuel p r) (h2 : ∀ v p1, moved p p1 → Total fuel p (f v p1)) :
    Total fuel p (r.andThen f) :=
  Total.seq_with h1 (Post.trivial _) (fun v p1 hm _ => h2 v p1 hm)

theorem Total.branch_with {α : Type} {fuel : Nat} {p : qparser_t} {c : Prop} [Decidable c]
    {a b : Result α} (ha : c → Total fuel p a) (hb : ¬ c → Total fuel p b) :
    Total fuel p (if c then a else b) := by
  split
  · exact ha (by assumption)
  · exact hb (by assumption)

theorem Total.branch {α : Type} {fuel : Nat} {p : qparser_t} {c : Prop} [Decidable c]
    {a b : Result α} (ha : Total fuel p a) (hb : Total fuel p b) :
    Total fuel p (if c then a else b) := by
  split
  · exact ha
  · exact hb

theorem Total.later {α : Type} {fuel : Nat} {p p1 : qparser_t} {r : Result α}
    (h : moved p p1) (h1 : Total fuel p1 r) : Total fuel p r := by
  constructor
  intro hr
  obtain ⟨hf, hm⟩ := h1.run (h.keeps_ready hr)
  exact ⟨hf, Post.mono hm (fun _ _ h2 => h.then h2)⟩

theorem q_clear_buf_moved (p : qparser_t) : moved p (q_clear_buf p) :=
  ⟨q_clear_buf_same p, q_clear_buf_le p⟩

theorem moved.past_accept {p p1 : qparser_t} (h : moved p p1) (chars : qchars_t) (add : Bool) :
    moved p (q_accept p1 chars add).2 :=
  h.then (q_accept_moved _ _ _)

theorem moved.past_read {p p1 : qparser_t} (h : moved p p1) (add : Bool) :
    moved p (q_read p1 add).2 :=
  h.then (q_read_moved _ _)

theorem moved.past_clear {p p1 : qparser_t} (h : moved p p1) : moved p (q_clear_buf p1) :=
  h.then (q_clear_buf_moved _)

theorem q_accept_run_total (fuel : Nat) (p : qparser_t) (chars : qchars_t) (add : Bool) :
    Total fuel p (q_accept_run fuel p chars add) :=
  ⟨fun hr => ⟨q_accept_run_loop_finishes _ _ _ _ _ hr.2,
    Moves.of (q_accept_run_keeps _ _ _ _) (q_accept_run_forward _ _ _ _)⟩⟩

theorem q_accept_until_total (fuel : Nat) (p : qparser_t) (chars : qchars_t) (add : Bool) :
    Total fuel p (q_accept_until fuel p chars add) :=
  ⟨fun hr => ⟨q_accept_until_loop_finishes _ _ _ _ _ hr.1 hr.2,
    Moves.of (q_accept_until_keeps _ _ _ _) (q_accept_until_forward _ _ _ _)⟩⟩

theorem q_skip_whitespace_total (fuel : Nat) (p : qparser_t) :
    Total fuel p (q_skip_whitespace fuel p) :=
  ⟨fun hr => ⟨q_skip_whitespace_finishes _ _ hr.2,
    Moves.of (q_skip_whitespace_keeps _ _) (q_skip_whitespace_forward _ _)⟩⟩

theorem q_read_name_total (fuel : Nat) (p : qparser_t) (as_symbol : Bool) :
    Total fuel p (q_read_name fuel p as_symbol) := by
  unfold q_read_name
  apply Total.seq (q_accept_until_total _ _ _ _)
  intro v p1 h1
  apply Total.branch
  · exact Total.stop (moved.then h1 (q_clear_buf_moved _))
  · exact Total.stop h1

/-- The loop of `q_read_string` ends: every round that goes on has passed an
escape byte. -/
theorem q_read_string_loop_total (fuel : Nat) : ∀ (n : Nat) (p : qparser_t),
    unread p < n → Total fuel p (q_read_string_loop fuel n p) := by
  intro n
  induction n with
  | zero => intro p h; exact absurd h (Nat.not_lt_zero _)
  | succ n ih =>
    intro p h
    simp only [q_read_string_loop]
    apply Total.seq (q_accept_until_total _ _ _ _)
    intro _ p1 h1
    apply Total.branch_with
    · intro hc
      have hu := q_accept_consumes p1 Q_ESCAPE Q_DO_NOT_ADD_TO_BUFFER hc
      have hm := (h1.past_accept Q_ESCAPE Q_DO_NOT_ADD_TO_BUFFER).past_read Q_ADD_TO_BUFFER
      have h2 := h1.unread_le
      have h3 := (q_read_moved (q_accept p1 Q_ESCAPE Q_DO_NOT_ADD_TO_BUFFER).2
        Q_ADD_TO_BUFFER).unread_le
      exact Total.later hm (ih _ (by omega))
    · intro _
      exact Total.stop (h1.past_accept _ _)

theorem q_read_string_loop_total_fuel (fuel : Nat) (p : qparser_t) :
    Total fuel p (q_read_string_loop fuel fuel p) :=
  ⟨fun hr => (q_read_string_loop_total fuel fuel p hr.2).run hr⟩

theorem q_read_string_total (fuel : Nat) (p : qparser_t) : Total fuel p (q_read_string fuel p) := by
  unfold q_read_string
  apply Total.branch
  · apply Total.seq (Total.later (q_accept_moved _ _ _) (q_read_string_loop_total_fuel _ _))
    intro _ p1 h1
    apply Total.branch
    · exact Total.stop ((h1.past_accept _ _).past_clear)
    · exact Total.error _
  · exact Total.stop (q_accept_moved _ _ _)

theorem q_read_number_total (fuel : Nat) (p : qparser_t) : Total fuel p (q_read_number fuel p) := by
  unfold q_read_number
  apply Total.seq (q_accept_run_total _ _ _ _)
  intro _ p1 h1
  apply Total.branch
  · apply Total.seq
    · apply Total.branch
      · apply Total.seq (Total.later (h1.past_accept _ _) (q_accept_run_total _ _ _ _))
        intro _ p2 h2
        apply Total.branch
        · exact Total.error _
        · exact Total.stop h2
      · exact Total.stop (h1.past_accept _ _)
    · intro _ p2 h2
      apply Total.seq
      · apply Total.branch
        · apply Total.seq
            (Total.later ((h2.past_accept _ _).past_accept _ _) (q_accept_run_total _ _ _ _))
          intro _ p3 h3
          apply Total.branch
          · exact Total.error _
          · exact Total.stop h3
        · exact Total.stop (h2.past_accept _ _)
      · intro _ p3 h3
        exact Total.stop (moved.then h3 ⟨⟨rfl, rfl⟩, Nat.le_refl _⟩)
  · exact Total.stop h1

theorem q_read_operator_total (fuel : Nat) (p : qparser_t) : Total fuel p (q_read_operator p) := by
  have h0 := moved.rfl p
  unfold q_read_operator
  apply Total.seq
  · apply Total.branch
    · apply Total.branch
      · exact Total.error _
      · exact Total.stop ((h0.past_accept _ _).past_accept _ _)
    · apply Total.branch
      · exact Total.stop ((h0.past_accept _ _).past_accept _ _)
      · apply Total.branch
        · apply Total.branch
          · exact Total.stop ((((h0.past_accept _ _).past_accept _ _).past_accept _ _).past_accept _ _)
          · exact Total.stop ((((h0.past_accept _ _).past_accept _ _).past_accept _ _).past_accept _ _)
        · apply Total.branch
          · apply Total.branch
            · exact Total.stop
                (((((h0.past_accept _ _).past_accept _ _).past_accept _ _).past_accept _ _).past_accept _ _)
            · apply Total.branch
              · exact Total.stop
                  ((((((h0.past_accept _ _).past_accept _ _).past_accept _ _).past_accept _ _).past_accept _ _).past_accept _ _)
              · exact Total.stop
                  ((((((h0.past_accept _ _).past_accept _ _).past_accept _ _).past_accept _ _).past_accept _ _).past_accept _ _)
          · exact Total.stop ((((h0.past_accept _ _).past_accept _ _).past_accept _ _).past_accept _ _)
  · intro _ p1 h1
    apply Total.branch
    · exact Total.error _
    · exact Total.stop h1

theorem q_read_attribute_operation_total (fuel : Nat) (p : qparser_t) :
    Total fuel p (q_read_attribute_operation fuel p) := by
  unfold q_read_attribute_operation
  apply Total.branch
  · exact Total.stop (q_accept_moved _ _ _)
  · apply Total.seq (Total.later (q_accept_moved _ _ _) (q_read_operator_total _ _))
    intro operator p1 h1
    cases operator with
    | none => exact Total.error _
    | some operator =>
      apply Total.seq (Total.later h1 (q_skip_whitespace_total _ _))
      intro _ p2 h2
      apply Total.seq (Total.later h2 (q_read_string_total _ _))
      intro _ p3 h3
      apply Total.seq
      · apply Total.branch
        · apply Total.seq (Total.later h3 (q_read_number_total _ _))
          intro _ p4 h4
          apply Total.branch
          · exact Total.later h4 (q_read_name_total _ _ _)
          · exact Total.stop h4
        · exact Total.stop h3
      · intro _ p4 h4
        apply Total.branch
        · exact Total.error _
        · apply Total.seq (Total.later h4 (q_skip_whitespace_total _ _))
          intro _ p5 h5
          apply Total.branch
          · exact Total.stop (h5.past_accept _ _)
          · exact Total.error _

theorem q_read_attribute_total (fuel : Nat) (p : qparser_t) :
    Total fuel p (q_read_attribute fuel p) := by
  unfold q_read_attribute
  apply Total.branch
  · apply Total.seq (Total.later (q_accept_moved _ _ _) (q_skip_whitespace_total _ _))
    intro _ p1 h1
    apply Total.seq
    · apply Total.branch
      · exact Total.later (h1.past_accept _ _) (q_skip_whitespace_total _ _)
      · exact Total.stop (h1.past_accept _ _)
    · intro _ p2 h2
      apply Total.seq (Total.later h2 (q_read_name_total _ _ _))
      intro _ p3 h3
      apply Total.seq (Total.later h3 (q_skip_whitespace_total _ _))
      intro _ p4 h4
      apply Total.seq (Total.later h4 (q_read_attribute_operation_total _ _))
      intro _ p5 h5
      exact Total.stop h5
  · exact Total.stop (q_accept_moved _ _ _)

/-- The loop of `q_read_multi_class_tag` ends: every round that goes on has
passed a separator. -/
theorem q_read_multi_class_tag_loop_total (fuel : Nat) :
    ∀ (n : Nat) (p : qparser_t) (names : List VALUE),
      unread p < n → Total fuel p (q_read_multi_class_tag_loop fuel n p names) := by
  intro n
  induction n with
  | zero => intro p names h; exact absurd h (Nat.not_lt_zero _)
  | succ n ih =>
    intro p names h
    simp only [q_read_multi_class_tag_loop]
    apply Total.seq (q_read_name_total _ _ _)
    intro _ p1 h1
    apply Total.branch
    · apply Total.seq (Total.later h1 (q_skip_whitespace_total _ _))
      intro _ p2 h2
      apply Total.branch_with
      · intro _
        exact Total.stop (h2.past_accept _ _)
      · intro hc
        have hu := q_accept_consumes p2 Q_MULTI_TAG_SEP Q_DO_NOT_ADD_TO_BUFFER hc
        have hle := h2.unread_le
        exact Total.later (h2.past_accept _ _) (ih _ _ (by omega))
    · exact Total.stop h1

theorem q_read_multi_class_tag_loop_total_fuel (fuel : Nat) (p : qparser_t)
    (names : List VALUE) : Total fuel p (q_read_multi_class_tag_loop fuel fuel p names) :=
  ⟨fun hr => (q_read_multi_class_tag_loop_total fuel fuel p names hr.2).run hr⟩

theorem q_read_multi_class_tag_total (fuel : Nat) (p : qparser_t) :
    Total fuel p (q_read_multi_class_tag fuel p) := by
  unfold q_read_multi_class_tag
  apply Total.branch
  · apply Total.seq (Total.later (q_accept_moved _ _ _) (q_skip_whitespace_total _ _))
    intro _ p1 h1
    apply Total.seq (Total.later h1 (q_read_multi_class_tag_loop_total_fuel _ _ _))
    intro _ p2 h2
    apply Total.seq (Total.later h2 (q_skip_whitespace_total _ _))
    intro _ p3 h3
    apply Total.branch
    · apply Total.branch
      · exact Total.error _
      · exact Total.stop (h3.past_accept _ _)
    · exact Total.error _
  · exact Total.stop (q_accept_moved _ _ _)

theorem q_read_single_class_tag_total (fuel : Nat) (p : qparser_t) :
    Total fuel p (q_read_single_class_tag fuel p) := by
  unfold q_read_single_class_tag
  apply Total.seq (q_read_name_total _ _ _)
  intro _ p1 h1
  apply Total.branch
  · exact Total.stop h1
  · exact Total.stop h1

theorem q_read_id_tag_total (fuel : Nat) (p : qparser_t) : Total fuel p (q_read_id_tag fuel p) := by
  unfold q_read_id_tag
  apply Total.branch
  · apply Total.seq (Total.later (q_accept_moved _ _ _) (q_read_name_total _ _ _))
    intro _ p1 h1
    apply Total.branch
    · exact Total.stop h1
    · exact Total.stop h1
  · exact Total.stop (q_accept_moved _ _ _)

/-- A cursor that moved on from a non-zero byte leaves fewer bytes to read. -/
theorem moved.unread_lt {p p1 : qparser_t} (h : moved p p1) (hp : q_peek p ≠ 0)
    (hi : p.index < p1.index) : unread p1 < unread p := by
  obtain ⟨hlt, _⟩ := q_peek_nonzero p hp
  obtain ⟨⟨_, hl⟩, _⟩ := h
  unfold unread
  omega

/-- The loop of `q_read_selector` ends: every round that goes on has read an
attribute, which starts with `[`. -/
theorem q_read_selector_loop_total (fuel : Nat) :
    ∀ (n : Nat) (p : qparser_t) (attributes_ary : List Check),
      unread p < n → Total fuel p (q_read_selector_loop fuel n p attributes_ary) := by
  intro n
  induction n with
  | zero => intro p a h; exact absurd h (Nat.not_lt_zero _)
  | succ n ih =>
    intro p a h
    simp only [q_read_selector_loop]
    apply Total.seq_with (q_read_attribute_total _ _) (q_read_attribute_start _ _)
    intro c p1 h1 hs
    cases c with
    | none => exact Total.stop h1
    | some c =>
      obtain ⟨h91, hi⟩ := hs (by simp)
      have hlt := h1.unread_lt (by omega) hi
      exact Total.later h1 (ih _ _ (by omega))

theorem q_read_selector_loop_total_fuel (fuel : Nat) (p : qparser_t)
    (attributes_ary : List Check) :
    Total fuel p (q_read_selector_loop fuel fuel p attributes_ary) :=
  ⟨fun hr => (q_read_selector_loop_total fuel fuel p attributes_ary hr.2).run hr⟩

theorem q_read_selector_tail_total (fuel : Nat) (p : qparser_t) (attributes_ary : List Check) :
    Total fuel p (q_read_selector_tail fuel p attributes_ary) := by
  unfold q_read_selector_tail
  apply Total.seq (q_read_id_tag_total _ _)
  intro _ p1 h1
  apply Total.seq (Total.later h1 (q_read_selector_loop_total_fuel _ _ _))
  intro _ p2 h2
  apply Total.seq (Total.later h2 (q_skip_whitespace_total _ _))
  intro _ p3 h3
  exact Total.stop (h3.past_accept _ _)

theorem q_read_selector_total (fuel : Nat) (p : qparser_t) :
    Total fuel p (q_read_selector fuel p) := by
  rw [q_read_selector_unfold]
  apply Total.seq (q_skip_whitespace_total _ _)
  intro _ p1 h1
  apply Total.seq
  · apply Total.branch
    · apply Total.seq (Total.later (h1.past_accept _ _) (q_read_multi_class_tag_total _ _))
      intro _ p2 h2
      apply Total.branch
      · exact Total.later h2 (q_read_single_class_tag_total _ _)
      · exact Total.stop h2
    · exact Total.stop (h1.past_accept _ _)
  · intro _ p2 h2
    apply Total.branch
    · exact Total.stop h2
    · exact Total.later h2 (q_read_selector_tail_total _ _ _)

theorem Post.ite_with {α : Type} {Q : α → qparser_t → Prop} {c : Prop} [Decidable c]
    {a b : Result α} (ha : c → Post a Q) (hb : ¬ c → Post b Q) :
    Post (if c then a else b) Q := by
  split
  · exact ha (by assumption)
  · exact hb (by assumption)

theorem Moves.after {α : Type} {p p1 : qparser_t} {r : Result α}
    (h : moved p p1) (h1 : Moves p1 r) : Moves p r :=
  Post.mono h1 fun _ _ h2 => h.then h2

theorem q_skip_whitespace_moves (fuel : Nat) (p : qparser_t) :
    Moves p (q_skip_whitespace fuel p) :=
  Moves.of (q_skip_whitespace_keeps _ _) (q_skip_whitespace_forward _ _)

theorem q_read_name_moves (fuel : Nat) (p : qparser_t) (as_symbol : Bool) :
    Moves p (q_read_name fuel p as_symbol) :=
  Moves.of (q_read_name_keeps _ _ _) (q_read_name_forward _ _ _)

theorem q_read_attribute_moves (fuel : Nat) (p : qparser_t) :
    Moves p (q_read_attribute fuel p) :=
  Moves.of (q_read_attribute_keeps _ _) (q_read_attribute_forward _ _)

theorem q_read_multi_class_tag_loop_moves (fuel n : Nat) (p : qparser_t) (names : List VALUE) :
    Moves p (q_read_multi_class_tag_loop fuel n p names) :=
  Moves.of (q_read_multi_class_tag_loop_keeps _ _ _ _) (q_read_multi_class_tag_loop_forward _ _ _ _)

theorem q_read_multi_class_tag_moves (fuel : Nat) (p : qparser_t) :
    Moves p (q_read_multi_class_tag fuel p) :=
  Moves.of (q_read_multi_class_tag_keeps _ _) (q_read_multi_class_tag_forward _ _)

theorem q_read_single_class_tag_moves (fuel : Nat) (p : qparser_t) :
    Moves p (q_read_single_class_tag fuel p) :=
  Moves.of (q_read_single_class_tag_keeps _ _) (q_read_single_class_tag_forward _ _)

theorem q_read_selector_loop_moves (fuel n : Nat) (p : qparser_t) (a : List Check) :
    Moves p (q_read_selector_loop fuel n p a) :=
  Moves.of (q_read_selector_loop_keeps _ _ _ _) (q_read_selector_loop_forward _ _ _ _)

theorem q_read_selector_tail_moves (fuel : Nat) (p : qparser_t) (a : List Check) :
    Moves p (q_read_selector_tail fuel p a) :=
  Moves.of (q_read_selector_tail_keeps _ _ _) (q_read_selector_tail_forward _ _ _)

/-- A `q_accept` that returns zero leaves the state as it was. -/
theorem q_accept_zero (p : qparser_t) (chars : qchars_t) (add : Bool)
    (h : (q_accept p chars add).1 = 0) : (q_accept p chars add).2 = p := by
  unfold q_accept at h ⊢
  by_cases hs : q_strnchr chars.chars chars.length (q_peek p) = true
  · rw [if_pos hs] at h ⊢
    unfold q_read at h ⊢
    simp only [] at h ⊢
    by_cases hp : q_peek p = 0
    · simp [hp]
    · cases add <;> simp [hp] at h
  · rw [if_neg hs]

/-- A `q_accept` of a one-byte table at that byte succeeds. -/
theorem q_accept_at (p : qparser_t) (x : Nat) (l : List Nat) (add : Bool)
    (h : q_peek p = x) (hx : x ≠ 0) : (q_accept p ⟨1, x :: l⟩ add).1 ≠ 0 := by
  unfold q_accept
  simp only [q_strnchr_one, h, hx, decide_True, ne_eq, not_false_eq_true, Bool.and_self, if_true]
  unfold q_read
  simp only [h, ne_eq, hx, not_false_eq_true, if_true]
  cases add <;> exact hx

/-- A `q_accept` of a one-byte table at another byte returns zero. -/
theorem q_accept_not_at (p : qparser_t) (x : Nat) (l : List Nat) (add : Bool)
    (h : q_peek p ≠ x) : q_accept p ⟨1, x :: l⟩ add = (0, p) := by
  unfold q_accept
  simp [q_strnchr_one, h]

/-- On a NUL-free input a name that `q_read_name` returns took at least one byte. -/
theorem q_read_name_consumes (fuel : Nat) (p : qparser_t) (as_symbol : Bool) (hn : nul_free p) :
    Post (q_read_name fuel p as_symbol) fun v p1 => v ≠ VALUE.Qnil → unread p1 < unread p := by
  unfold q_read_name
  apply Post.andThen (q_accept_until_loop_exact Q_NAME_BOUNDS Q_ADD_TO_BUFFER fuel p 0 hn)
  intro accepted p1 h1
  apply Post.ite_with
  · intro hc
    refine Post.ok (fun _ => ?_)
    have : unread (q_clear_buf p1) = unread p1 := rfl
    omega
  · intro _
    exact Post.ok (fun h => absurd rfl h)

theorem q_read_single_class_tag_consumes (fuel : Nat) (p : qparser_t) (hn : nul_free p) :
    Post (q_read_single_class_tag fuel p) fun v p1 => v ≠ none → unread p1 < unread p := by
  unfold q_read_single_class_tag
  apply Post.andThen (q_read_name_consumes fuel p Q_AS_SYMBOL hn)
  intro name p1 h1
  apply Post.ite_with
  · intro hc
    refine Post.ok (fun _ => h1 ?_)
    intro hq
    rw [hq] at hc
    exact absurd hc (by decide)
  · intro _
    exact Post.ok (fun h => absurd rfl h)

theorem q_read_multi_class_tag_consumes (fuel : Nat) (p : qparser_t) :
    Post (q_read_multi_class_tag fuel p) fun v p1 => v ≠ none → unread p1 < unread p := by
  unfold q_read_multi_class_tag
  apply Post.ite_with
  · intro hc
    have hu := q_accept_consumes p Q_START_MULTI_TAG Q_DO_NOT_ADD_TO_BUFFER hc
    apply Post.andThen (q_skip_whitespace_moves _ _)
    intro _ p1 h1
    apply Post.andThen (Moves.after h1 (q_read_multi_class_tag_loop_moves _ _ _ _))
    intro _ p2 h2
    apply Post.andThen (Moves.after h2 (q_skip_whitespace_moves _ _))
    intro _ p3 h3
    apply Post.ite
    · apply Post.ite
      · exact Post.raised _ _
      · refine Post.ok (fun _ => ?_)
        have := (h3.past_accept Q_END_MULTI_TAG Q_DO_NOT_ADD_TO_BUFFER).unread_le
        omega
    · exact Post.raised _ _
  · intro _
    exact Post.ok (fun h => absurd rfl h)

/-- At a `#` the id tag reader passes at least that byte. -/
theorem q_read_id_tag_consumes (fuel : Nat) (p : qparser_t) (h : q_peek p = 35) :
    Post (q_read_id_tag fuel p) fun _ p1 => moved p p1 ∧ unread p1 < unread p := by
  have hc := q_accept_at p 35 [] Q_DO_NOT_ADD_TO_BUFFER h (by decide)
  have hu := q_accept_consumes p Q_TAG_MARKER Q_DO_NOT_ADD_TO_BUFFER hc
  have hm := q_accept_moved p Q_TAG_MARKER Q_DO_NOT_ADD_TO_BUFFER
  unfold q_read_id_tag
  apply Post.ite_with
  · intro _
    apply Post.andThen (q_read_name_moves _ _ _)
    intro _ p1 h1
    have hle := h1.unread_le
    apply Post.ite
    · exact Post.ok ⟨hm.then h1, by omega⟩
    · exact Post.ok ⟨hm.then h1, by omega⟩
  · intro hn
    exact absurd hc hn

/-- Away from a `#` the id tag reader returns nothing and leaves the state. -/
theorem q_read_id_tag_not_at (fuel : Nat) (p : qparser_t) (h : q_peek p ≠ 35) :
    q_read_id_tag fuel p = Result.ok none p := by
  unfold q_read_id_tag
  simp only [Q_TAG_MARKER, q_accept_not_at p 35 [] Q_DO_NOT_ADD_TO_BUFFER h]
  simp

/-- At a `[` the attribute reader does not return `Qnil`: it returns a check or
raises. -/
theorem q_read_attribute_at (fuel : Nat) (p : qparser_t) (h : q_peek p = 91) :
    Post (q_read_attribute fuel p) fun v _ => v ≠ none := by
  have hc := q_accept_at p 91 [] Q_DO_NOT_ADD_TO_BUFFER h (by decide)
  unfold q_read_attribute
  apply Post.ite_with
  · intro _
    apply Post.andThen (Post.trivial _)
    intro _ p1 _
    apply Post.andThen (Post.trivial _)
    intro _ p2 _
    apply Post.andThen (Post.trivial _)
    intro _ p3 _
    apply Post.andThen (Post.trivial _)
    intro _ p4 _
    apply Post.andThen (Post.trivial _)
    intro _ p5 _
    exact Post.ok (by simp)
  · intro hn
    exact absurd hc hn

/-- At a `[` the attribute loop of `q_read_selector` passes at least that byte. -/
theorem q_read_selector_loop_consumes (fuel n : Nat) (p : qparser_t) (a : List Check)
    (h : q_peek p = 91) :
    Post (q_read_selector_loop fuel n p a) fun _ p1 => moved p p1 ∧ unread p1 < unread p := by
  cases n with
  | zero => exact Post.no_fuel _
  | succ n =>
    simp only [q_read_selector_loop]
    apply Post.andThen
      (Post.and (q_read_attribute_moves fuel p)
        (Post.and (q_read_attribute_start fuel p) (q_read_attribute_at fuel p h)))
    rintro c p1 ⟨h1, hs, hne⟩
    cases c with
    | none => exact absurd rfl hne
    | some c =>
      have hlt := h1.unread_lt (by omega) (hs hne).2
      refine Post.mono (q_read_selector_loop_moves fuel n p1 (a ++ [c])) ?_
      intro _ p2 h2
      have hle := h2.unread_le
      exact ⟨h1.then h2, by omega⟩

/-- At a `#` or a `[` the part of `q_read_selector` after the type check passes at
least that byte. -/
theorem q_read_selector_tail_consumes (fuel : Nat) (p : qparser_t) (a : List Check)
    (h : q_peek p = 35 ∨ q_peek p = 91) :
    Post (q_read_selector_tail fuel p a) fun _ p1 => unread p1 < unread p := by
  unfold q_read_selector_tail
  rcases h with h | h
  · apply Post.andThen (q_read_id_tag_consumes fuel p h)
    rintro _ p1 ⟨_, hlt⟩
    apply Post.andThen (q_read_selector_loop_moves _ _ _ _)
    intro _ p2 h2
    apply Post.andThen (Moves.after h2 (q_skip_whitespace_moves _ _))
    intro _ p3 h3
    refine Post.ok ?_
    have := (h3.past_accept Q_DIRECT_FOLLOW Q_DO_NOT_ADD_TO_BUFFER).unread_le
    omega
  · rw [q_read_id_tag_not_at fuel p (by omega)]
    simp only [Result.andThen_ok]
    apply Post.andThen (q_read_selector_loop_consumes _ _ _ _ h)
    rintro _ p2 ⟨_, hlt⟩
    apply Post.andThen (q_skip_whitespace_moves _ _)
    intro _ p3 h3
    refine Post.ok ?_
    have := (h3.past_accept Q_DIRECT_FOLLOW Q_DO_NOT_ADD_TO_BUFFER).unread_le
    omega

/-- On a NUL-free input a selector that `q_read_selector` returns took at least
one byte. -/
theorem q_read_selector_consumes (fuel : Nat) (p : qparser_t) (hn : nul_free p) :
    Post (q_read_selector fuel p) fun v p1 => v ≠ none → unread p1 < unread p := by
  rw [q_read_selector_unfold]
  apply Post.andThen (q_skip_whitespace_moves _ _)
  intro _ p1 h1
  have hle1 := h1.unread_le
  have hn1 := h1.keeps_nul_free hn
  have hgm := q_accept_moved p1 Q_ANY_TAG_MARK Q_DO_NOT_ADD_TO_BUFFER
  have hgc := q_accept_consumes p1 Q_ANY_TAG_MARK Q_DO_NOT_ADD_TO_BUFFER
  dsimp only
  generalize q_accept p1 Q_ANY_TAG_MARK Q_DO_NOT_ADD_TO_BUFFER = g at hgm hgc ⊢
  have hgl : ∀ b : Bool, b = (decide (g.1 ≠ 0) || decide (q_peek g.2 = 35)
      || decide (q_peek g.2 = 91)) → b = true →
        g.1 ≠ 0 ∨ (q_peek g.2 = 35 ∨ q_peek g.2 = 91) := by
    intro b hb h
    rw [hb] at h
    simp only [Bool.or_eq_true, decide_eq_true_eq] at h
    tauto
  have hgle := hgm.unread_le
  generalize (decide (g.1 ≠ 0) || decide (q_peek g.2 = 35) || decide (q_peek g.2 = 91))
    = globbed at hgl ⊢
  have hglob := hgl globbed rfl
  apply Post.andThen
    (R := fun v p2 => moved p1 p2 ∧ (v ≠ none → unread p2 < unread p1)
      ∧ (globbed = true → p2 = g.2))
  · apply Post.ite_with
    · intro hc
      have hng : globbed = false := by
        cases globbed
        · rfl
        · exact absurd hc (by decide)
      apply Post.andThen
        (Post.and (q_read_multi_class_tag_moves fuel g.2) (q_read_multi_class_tag_consumes fuel g.2))
      rintro tc p2 ⟨hm, hs⟩
      have hle2 := hm.unread_le
      apply Post.ite_with
      · intro _
        refine Post.mono
          (Post.and (q_read_single_class_tag_moves fuel p2)
            (q_read_single_class_tag_consumes fuel p2
              ((hgm.then hm).keeps_nul_free hn1))) ?_
        rintro v p3 ⟨hm3, hs3⟩
        refine ⟨(hgm.then hm).then hm3, fun hv => ?_, fun hg => ?_⟩
        · have := hs3 hv
          omega
        · rw [hng] at hg
          exact absurd hg (by decide)
      · intro htc
        refine Post.ok ⟨hgm.then hm, fun hv => ?_, fun hg => ?_⟩
        · have := hs hv
          omega
        · rw [hng] at hg
          exact absurd hg (by decide)
    · intro _
      exact Post.ok ⟨hgm, fun h => absurd rfl h, fun _ => rfl⟩
  · rintro tc p2 ⟨hm, hs, hg2⟩
    have hle2 := hm.unread_le
    apply Post.ite_with
    · intro _
      exact Post.ok (fun h => absurd rfl h)
    · intro hc2
      by_cases htc : tc = none
      · have hgt : globbed = true := by
          subst htc
          cases globbed
          · exact absurd rfl hc2
          · rfl
        rw [hg2 hgt]
        rcases hglob hgt with hg1 | hpk
        · have := hgc hg1
          refine Post.mono (q_read_selector_tail_moves fuel g.2 _) ?_
          intro _ p3 h3 _
          have := h3.unread_le
          omega
        · refine Post.mono (q_read_selector_tail_consumes fuel g.2 _ hpk) ?_
          intro _ p3 h3 _
          omega
      · have := hs htc
        refine Post.mono (q_read_selector_tail_moves fuel p2 _) ?_
        intro _ p3 h3 _
        have := h3.unread_le
        omega

/-- The loop of `q_rb_parser_run` ends on a NUL-free input: every round that goes
on has read a selector, which took at least one byte. -/
theorem q_rb_parser_run_loop_total (fuel : Nat) :
    ∀ (n : Nat) (p : qparser_t) (selector : Selector),
      unread p < n → Total fuel p (q_rb_parser_run_loop fuel n p selector) := by
  intro n
  induction n with
  | zero => intro p s h; exact absurd h (Nat.not_lt_zero _)
  | succ n ih =>
    intro p s h
    constructor
    intro hr
    refine Total.run ?_ hr
    simp only [q_rb_parser_run_loop]
    apply Total.branch
    · apply Total.seq_with (q_read_selector_total _ _) (q_read_selector_consumes fuel p hr.1)
      intro next p1 h1 hs
      cases next with
      | none => exact Total.stop h1
      | some next =>
        have hlt := hs (by simp)
        apply Total.seq_with (Total.later h1 (q_skip_whitespace_total _ _))
          (q_skip_whitespace_moves fuel p1)
        intro _ p2 h2 h12
        have hle := h12.unread_le
        exact Total.later h2 (ih _ _ (by omega))
    · exact Total.stop (moved.rfl _)

theorem q_rb_parser_run_loop_total_fuel (fuel : Nat) (p : qparser_t) (selector : Selector) :
    Total fuel p (q_rb_parser_run_loop fuel fuel p selector) :=
  ⟨fun hr => (q_rb_parser_run_loop_total fuel fuel p selector hr.2).run hr⟩

theorem q_rb_parser_run_total (fuel : Nat) (p : qparser_t) :
    Total fuel p (q_rb_parser_run fuel p) := by
  unfold q_rb_parser_run
  apply Total.seq (q_read_selector_total _ _)
  intro selector p1 h1
  cases selector with
  | none => exact Total.error _
  | some selector =>
    apply Total.seq (Total.later h1 (q_skip_whitespace_total _ _))
    intro _ p2 h2
    apply Total.seq (Total.later h2 (q_rb_parser_run_loop_total_fuel _ _ _))
    intro _ p3 h3
    apply Total.branch
    · exact Total.error _
    · apply Total.branch
      · exact Total.error _
      · exact Total.stop h3

/-- The state `q_parser_init` builds for an input without NUL bytes is ready for
any fuel above the length of the input. -/
theorem q_parser_init_ready (fuel : Nat) (s : List Nat) (hs : 0 ∉ s) (hf : s.length < fuel) :
    ready fuel (q_parser_init s s.length) := by
  constructor
  · intro i hi hz
    have hi2 : i < s.length := hi
    have hmem : s.getD i 0 ∈ s := by
      rw [List.getD_eq_getElem s 0 hi2]
      exact List.getElem_mem hi2
    have hz2 : s.getD i 0 = 0 := hz
    rw [hz2] at hmem
    exact hs hmem
  · exact hf

/-- With more fuel than the input has bytes, `parse` of an input without NUL
bytes ends with a chain or an error. -/
theorem q_rb_parse_selector_finishes (fuel : Nat) (s : List Nat) (hs : 0 ∉ s)
    (hf : s.length < fuel) : Finishes (q_rb_parse_selector fuel s) := by
  have h := ((q_rb_parser_run_total fuel (q_parser_init s s.length)).run
    (q_parser_init_ready fuel s hs hf)).1
  unfold q_rb_parse_selector
  cases hr : q_rb_parser_run fuel (q_parser_init s s.length) with
  | ok v p => exact Finishes.of_ok _ _
  | raised e => exact Finishes.of_raised _
  | no_fuel => exact absurd hr h

/-- At a NUL byte before the end of the input the loop of `q_accept_until` never
ends: `q_read` does not move the cursor, and the loop goes on counting. -/
theorem q_accept_until_loop_nul (chars : qchars_t) (add : Bool) (p : qparser_t)
    (he : q_eos p = false) (hp : q_peek p = 0) :
    ∀ (n accepted : Nat), q_accept_until_loop chars add n p accepted = Result.no_fuel := by
  have hr : (q_read p add).2 = p := by
    unfold q_read
    simp [hp]
  intro n
  induction n with
  | zero => intro accepted; rfl
  | succ n ih =>
    intro accepted
    simp only [q_accept_until_loop, he, hp, q_strnchr_zero, Bool.not_false, Bool.and_self, if_true,
      hr]
    exact ih _

/-- At a NUL byte `q_read_selector` never ends, whatever the fuel. -/
theorem q_read_selector_nul (fuel : Nat) (pre t buf : List Nat) :
    q_read_selector fuel (cursor pre (0 :: t) buf) = Result.no_fuel := by
  cases fuel with
  | zero => rfl
  | succ n =>
    have he : q_eos (cursor pre (0 :: t) buf) = false := by
      simp [q_eos_cursor]
    have hp : q_peek (cursor pre (0 :: t) buf) = 0 := by
      simp [q_peek_cursor]
    have hname : q_read_name (n + 1) (cursor pre (0 :: t) buf) Q_AS_SYMBOL = Result.no_fuel := by
      unfold q_read_name q_accept_until
      rw [q_accept_until_loop_nul _ _ _ he hp]
      rfl
    rw [q_read_selector_unfold,
      q_skip_whitespace_none (n + 1) pre _ buf (Nat.succ_pos n) (by simp [whitespace])]
    simp only [Result.andThen_ok, Q_ANY_TAG_MARK,
      q_accept_one_miss pre (0 :: t) buf 42 [] _ (by simp), q_peek_cursor]
    simp [q_read_multi_class_tag_none (n + 1) pre (0 :: t) buf (by simp),
      q_read_single_class_tag, hname]

/-- An input that starts with a NUL byte: `parse` never ends, whatever the fuel. -/
theorem q_rb_parse_selector_nul (fuel : Nat) (t : List Nat) :
    q_rb_parse_selector fuel (0 :: t) = Result.no_fuel := by
  unfold q_rb_parse_selector q_rb_parser_run
  rw [q_parser_init_cursor, q_read_selector_nul]
  rfl

/-- An attribute check that `q_read_attribute` returns took at least one byte. -/
theorem q_read_attribute_consumes (fuel : Nat) (p : qparser_t) :
    Post (q_read_attribute fuel p) fun v p1 => v ≠ none → unread p1 < unread p := by
  refine Post.mono (Post.and (q_read_attribute_moves fuel p) (q_read_attribute_start fuel p)) ?_
  rintro v p1 ⟨hm, hs⟩ hv
  obtain ⟨h91, hi⟩ := hs hv
  exact hm.unread_lt (by omega) hi

/-- C22: with more fuel than the input has bytes, `parse` of an input without NUL
bytes ends with a chain or with an error. On a NUL-free input `q_accept_until`
moves the cursor by exactly the count it returns; a round of its loop (the name
loop) passes one byte, a round of the multi-tag loop that goes on has passed a
separator, an attribute read by the attribute loop and a selector read by the
chain loop took at least one byte. An input that starts with a NUL byte never
ends, whatever the fuel. -/
theorem C22_parse_terminates (fuel : Nat) (s : List Nat) (hs : 0 ∉ s) (hf : s.length < fuel) :
    ((∃ chain p, q_rb_parse_selector fuel s = Result.ok chain p)
      ∨ ∃ e, q_rb_parse_selector fuel s = Result.raised e)
    ∧ (∀ (p : qparser_t) (chars : qchars_t) (add : Bool) (v : Nat) (p1 : qparser_t),
        nul_free p → q_accept_until fuel p chars add = Result.ok v p1 →
          p1.index = p.index + v ∧ unread p1 + v = unread p)
    ∧ (∀ (p : qparser_t) (add : Bool), nul_free p → q_eos p = false →
        unread (q_read p add).2 + 1 = unread p)
    ∧ (∀ (p : qparser_t),
        (q_accept p Q_MULTI_TAG_SEP Q_DO_NOT_ADD_TO_BUFFER).1 ≠ 0 →
          unread (q_accept p Q_MULTI_TAG_SEP Q_DO_NOT_ADD_TO_BUFFER).2 + 1 = unread p)
    ∧ (∀ (p : qparser_t) (c : Check) (p1 : qparser_t),
        q_read_attribute fuel p = Result.ok (some c) p1 → unread p1 < unread p)
    ∧ (∀ (p : qparser_t) (sel : Selector) (p1 : qparser_t), nul_free p →
        q_read_selector fuel p = Result.ok (some sel) p1 → unread p1 < unread p)
    ∧ ∀ (n : Nat) (t : List Nat), q_rb_parse_selector n (0 :: t) = Result.no_fuel := by
  refine ⟨?_, ?_, ?_, ?_, ?_, ?_, ?_⟩
  · have h := q_rb_parse_selector_finishes fuel s hs hf
    cases hr : q_rb_parse_selector fuel s with
    | ok v p => exact Or.inl ⟨v, p, rfl⟩
    | raised e => exact Or.inr ⟨e, rfl⟩
    | no_fuel => exact absurd hr h
  · intro p chars add v p1 hn h
    have h2 := (q_accept_until_loop_exact chars add fuel p 0 hn).out v p1 h
    omega
  · intro p add hn he
    exact q_read_consumes p add (hn.peek he)
  · intro p h
    exact q_accept_consumes p _ _ h
  · intro p c p1 h
    exact (q_read_attribute_consumes fuel p).out _ _ h (by simp)
  · intro p sel p1 hn h
    exact (q_read_selector_consumes fuel p hn).out _ _ h (by simp)
  · intro n t
    exact q_rb_parse_selector_nul n t

/-- C22 at the input `Button#ok[n=1] > (A|B)`. -/
theorem C22_parse_terminates_witness :
    (0 ∉ bytes "Button#ok[n=1] > (A|B)" ∧ (bytes "Button#ok[n=1] > (A|B)").length < 30)
    ∧ ((∃ chain p, q_rb_parse_selector 30 (bytes "Button#ok[n=1] > (A|B)") = Result.ok chain p)
      ∨ ∃ e, q_rb_parse_selector 30 (bytes "Button#ok[n=1] > (A|B)") = Result.raised e) :=
  ⟨⟨by decide, by decide⟩,
    (C22_parse_terminates 30 (bytes "Button#ok[n=1] > (A|B)") (by decide) (by decide)).1⟩

theorem byte_free.on_same {c : Nat} {p p1 : qparser_t} (h : byte_free c p)
    (hs : same_input p p1) : byte_free c p1 := by
  intro i hi
  rw [hs.1]
  exact h i (by rw [← hs.2]; exact hi)

theorem byte_free.peek_ne {c : Nat} {p : qparser_t} (h : byte_free c p) (hc : c ≠ 0) :
    q_peek p ≠ c := by
  unfold q_peek
  by_cases hi : p.index < p.length
  · rw [if_pos hi]
    exact h _ hi
  · rw [if_neg hi]
    exact fun h0 => hc h0.symm

theorem q_read_selector_loop_grows (fuel n : Nat) (p : qparser_t) (a : List Check) :
    Post (q_read_selector_loop fuel n p a) fun v _ => a ≠ [] → v ≠ [] := by
  refine Post.mono (q_read_selector_loop_kind fuel n p a) ?_
  rintro v _ ⟨more, hm, _⟩ ha
  rw [hm]
  simp [ha]

/-- At a `[` the attribute loop of `q_read_selector` returns at least one check. -/
theorem q_read_selector_loop_at (fuel n : Nat) (p : qparser_t) (a : List Check)
    (h : q_peek p = 91) : Post (q_read_selector_loop fuel n p a) fun v _ => v ≠ [] := by
  cases n with
  | zero => exact Post.no_fuel _
  | succ n =>
    simp only [q_read_selector_loop]
    apply Post.andThen (q_read_attribute_at fuel p h)
    intro c p1 hne
    cases c with
    | none => exact absurd rfl hne
    | some c =>
      exact Post.mono (q_read_selector_loop_grows fuel n p1 (a ++ [c])) (fun v _ hg => hg (by simp))

/-- After a type check, or at a `[`, the rest of `q_read_selector` builds a
selector with at least one check. -/
theorem q_read_selector_tail_nonempty (fuel : Nat) (p : qparser_t) (a : List Check)
    (h : a ≠ [] ∨ q_peek p = 91) :
    Post (q_read_selector_tail fuel p a) fun v _ =>
      ∀ s, v = some s → q_selector_attributes s ≠ [] := by
  unfold q_read_selector_tail
  rcases h with h | h
  · apply Post.andThen (Post.trivial _)
    intro id_check p1 _
    apply Post.andThen (q_read_selector_loop_grows _ _ _ _)
    intro v p2 hg
    apply Post.andThen (Post.trivial _)
    intro _ p3 _
    refine Post.ok ?_
    intro s hs
    simp only [Option.some.injEq] at hs
    subst hs
    exact hg (by simp [h])
  · rw [q_read_id_tag_not_at fuel p (by omega)]
    simp only [Result.andThen_ok]
    apply Post.andThen (q_read_selector_loop_at _ _ _ _ h)
    intro v p2 hg
    apply Post.andThen (Post.trivial _)
    intro _ p3 _
    refine Post.ok ?_
    intro s hs
    simp only [Option.some.injEq] at hs
    subst hs
    exact hg

/-- On an input without `*` and without `#`, every selector `q_read_selector`
returns has at least one check. -/
theorem q_read_selector_nonempty (fuel : Nat) (p : qparser_t) (h42 : byte_free 42 p)
    (h35 : byte_free 35 p) :
    Post (q_read_selector fuel p) fun v _ =>
      ∀ s, v = some s → q_selector_attributes s ≠ [] := by
  rw [q_read_selector_unfold]
  apply Post.andThen (q_skip_whitespace_keeps _ _)
  intro _ p1 h1
  have hp42 : q_peek p1 ≠ 42 := (h42.on_same h1).peek_ne (by decide)
  have hp35 : q_peek p1 ≠ 35 := (h35.on_same h1).peek_ne (by decide)
  have hg : q_accept p1 Q_ANY_TAG_MARK Q_DO_NOT_ADD_TO_BUFFER = (0, p1) :=
    q_accept_not_at p1 42 [] _ hp42
  dsimp only
  rw [hg]
  dsimp only
  have hgl : ∀ b : Bool, b = (decide ((0 : Nat) ≠ 0) || decide (q_peek p1 = 35)
      || decide (q_peek p1 = 91)) → b = true → q_peek p1 = 91 := by
    intro b hb h
    rw [hb] at h
    simp only [ne_eq, not_true_eq_false, decide_False, Bool.false_or, Bool.or_eq_true,
      decide_eq_true_eq] at h
    rcases h with h | h
    · exact absurd h hp35
    · exact h
  generalize (decide ((0 : Nat) ≠ 0) || decide (q_peek p1 = 35) || decide (q_peek p1 = 91))
    = globbed at hgl ⊢
  have hglob := hgl globbed rfl
  apply Post.andThen (R := fun _ p2 => globbed = true → p2 = p1)
  · apply Post.ite_with
    · intro hc
      have hng : globbed = false := by
        cases globbed
        · rfl
        · exact absurd hc (by decide)
      refine Post.mono (Post.trivial _) ?_
      intro _ _ _ hg2
      rw [hng] at hg2
      exact absurd hg2 (by decide)
    · intro _
      exact Post.ok (fun _ => rfl)
  · intro tc p2 hg2
    apply Post.ite_with
    · intro _
      refine Post.ok ?_
      intro s hs
      cases hs
    · intro hc2
      cases tc with
      | none =>
        have hgt : globbed = true := by
          cases globbed
          · exact absurd rfl hc2
          · rfl
        rw [hg2 hgt]
        exact q_read_selector_tail_nonempty fuel p1 _ (Or.inr (hglob hgt))
      | some c =>
        exact q_read_selector_tail_nonempty fuel p2 _ (Or.inl (by simp))

/-- A property that `q_read_selector` establishes of its selectors on every
state whose input satisfies `I` holds of every selector of the chain that
`q_rb_parser_run` returns from such a state. -/
theorem q_rb_parser_run_loop_nodes_on (P : List Check × Bool → Prop) (I : qparser_t → Prop)
    (hI : ∀ p p1, same_input p p1 → I p → I p1)
    (hP : ∀ fuel p, I p → Post (q_read_selector fuel p) fun v _ =>
      ∀ s, v = some s → ∀ node ∈ chain_nodes s, P node) (fuel : Nat) :
    ∀ (n : Nat) (p : qparser_t) (selector : Selector), I p →
      (∀ node ∈ chain_nodes selector, P node) →
      Post (q_rb_parser_run_loop fuel n p selector) fun chain _ =>
        ∀ node ∈ chain_nodes chain, P node := by
  intro n
  induction n with
  | zero => intro p s _ _; exact Post.no_fuel _
  | succ n ih =>
    intro p s hi hs
    simp only [q_rb_parser_run_loop]
    apply Post.ite
    · apply Post.andThen (Post.and (hP _ _ hi) (q_read_selector_keeps _ _))
      rintro next p1 ⟨h1, hk1⟩
      cases next with
      | none => exact Post.ok hs
      | some next =>
        apply Post.andThen (q_skip_whitespace_keeps _ _)
        intro _ p2 hk2
        apply ih _ _ (hI _ _ (same_input.trans hk1 hk2) hi)
        intro node hn
        rw [chain_nodes_set_succ, List.mem_append] at hn
        rcases hn with hn | hn
        · exact hs node hn
        · exact h1 next rfl node hn
    · exact Post.ok hs

theorem q_rb_parser_run_nodes_on (P : List Check × Bool → Prop) (I : qparser_t → Prop)
    (hI : ∀ p p1, same_input p p1 → I p → I p1)
    (hP : ∀ fuel p, I p → Post (q_read_selector fuel p) fun v _ =>
      ∀ s, v = some s → ∀ node ∈ chain_nodes s, P node) (fuel : Nat) (p : qparser_t)
    (hi : I p) :
    Post (q_rb_parser_run fuel p) fun chain _ => ∀ node ∈ chain_nodes chain, P node := by
  unfold q_rb_parser_run
  apply Post.andThen (Post.and (hP _ _ hi) (q_read_selector_keeps _ _))
  rintro selector p1 ⟨h1, hk1⟩
  cases selector with
  | none => exact Post.raised _ _
  | some selector =>
    apply Post.andThen (q_skip_whitespace_keeps _ _)
    intro _ p2 hk2
    apply Post.andThen
      (q_rb_parser_run_loop_nodes_on P I hI hP fuel _ _ _
        (hI _ _ (same_input.trans hk1 hk2) hi) (h1 selector rfl))
    intro chain p3 h3
    apply Post.ite
    · exact Post.raised _ _
    · apply Post.ite
      · exact Post.raised _ _
      · exact Post.ok h3

/-- An input with neither a `*` nor a `#` byte: every selector of a parsed chain
has at least one check. -/
theorem q_rb_parse_selector_nonempty (fuel : Nat) (s : List Nat) (chain : Selector)
    (p : qparser_t) (h42 : 42 ∉ s) (h35 : 35 ∉ s)
    (h : q_rb_parse_selector fuel s = Result.ok chain p) :
    ∀ node ∈ chain_nodes chain, node.1 ≠ [] := by
  obtain ⟨p1, h1⟩ := q_rb_parse_selector_ok fuel s chain p h
  have hfree : ∀ c, c ∉ s → byte_free c (q_parser_init s s.length) := by
    intro c hc i hi hz
    have hi2 : i < s.length := hi
    have hmem : s.getD i 0 ∈ s := by
      rw [List.getD_eq_getElem s 0 hi2]
      exact List.getElem_mem hi2
    have hz2 : s.getD i 0 = c := hz
    rw [hz2] at hmem
    exact hc hmem
  refine (q_rb_parser_run_nodes_on (fun node => node.1 ≠ [])
    (fun p => byte_free 42 p ∧ byte_free 35 p)
    (fun p p1 hs hi => ⟨hi.1.on_same hs, hi.2.on_same hs⟩) ?_ fuel _
    ⟨hfree 42 h42, hfree 35 h35⟩).out chain p1 h1
  intro fuel p hi
  refine Post.mono (Post.and (q_read_selector_nonempty fuel p hi.1 hi.2)
    (q_read_selector_shape fuel p)) ?_
  rintro v _ ⟨hne, hsh⟩ sel hv node hn
  obtain ⟨types, ids, attrs, d, hsel, _⟩ := hsh sel hv
  have hne2 := hne sel hv
  rw [hsel] at hn hne2
  rw [chain_nodes_mk_none, List.mem_singleton] at hn
  rw [hn]
  exact hne2

/-- C21: the input `#` has no `*` byte, and `parse` returns for it a chain of
one selector whose list of checks is empty; `Button #` gives a chain whose
second selector has no check either. -/
theorem C21_empty_selector :
    (42 ∉ bytes "#"
      ∧ q_rb_parse_selector 5 (bytes "#")
          = Result.ok (Selector.mk [] false none) (q_parser_destroy (q_parser_init [] 0)))
    ∧ (42 ∉ bytes "Button #"
      ∧ q_rb_parse_selector 10 (bytes "Button #")
          = Result.ok
              (Selector.mk [Check.ClassCheck [VALUE.Symbol (bytes "Button")]] false
                (some (Selector.mk [] false none)))
              (q_parser_destroy (q_parser_init [] 0))) :=
  ⟨⟨by decide, rfl⟩, ⟨by decide, rfl⟩⟩

end Sel
